import Mathlib

/-!
# Verification of the marina-operator reconciliation core

Shallow embedding of the reconcilers of the `joshmeranda/marina-operator`
repository.  The repository contains two generations of controllers:

* `internal/controller` (Go package `controller`): `TerminalReconciler` and
  `UserReconciler`, the ones registered with the manager in `cmd/app.go`;
* `controllers` (Go package `controllers`): the legacy `TerminalReconciler`
  and `UserReconciler` reached only by the ginkgo tests.

The object store (controller-runtime client against the API server) is
modelled as per-kind key → object maps with Kubernetes-style semantics:
`Create` fails with `alreadyExists` on a present key, `Delete` and `Get`
fail with `notFound` on an absent key, `Update` of a primary object whose
deletion timestamp is set and whose finalizer list is empty erases it from
the store.  A fault schedule (one optional injected error popped per store
call) models all other store failures, and a ghost log records every store
call together with its outcome.
-/

namespace Marina

/-- Namespaced name keying every object in the store. -/
structure ObjKey where
  nspace : String
  name : String
deriving DecidableEq, Repr

/-- Store-level errors distinguished by the Go code via
`errors.IsNotFound` / `errors.IsAlreadyExists`; `internalError` stands for
any other API error. -/
inductive StoreErr where
  | notFound
  | alreadyExists
  | conflict
  | internalError
deriving DecidableEq, Repr

/-- Error values returned by the reconcilers: either a store error
propagated as-is, or one wrapped by `fmt.Errorf("<msg>: %w", err)`. -/
inductive RErr where
  | store (e : StoreErr)
  | wrapped (msg : String) (e : StoreErr)
deriving DecidableEq, Repr

/-- `ctrl.Result`: the Go struct has a `Requeue` flag and a `RequeueAfter`
duration; every return site in the source is the zero value `ctrl.Result{}`. -/
structure CtrlResult where
  requeue : Bool
  requeueAfterNanos : Nat
deriving DecidableEq, Repr

def CtrlResult.zero : CtrlResult := ⟨false, 0⟩

/-- `ctrl.Request`: the namespaced name of the primary object. -/
structure Request where
  nspace : String
  name : String
deriving DecidableEq, Repr

/-- `api/v1.Terminal`: metadata plus `spec.image`. -/
structure Terminal where
  name : String
  nspace : String
  image : String
  deletionTimestamp : Option Nat
  finalizers : List String
deriving DecidableEq, Repr

/-- `api/v1.User`: metadata plus `spec.roles`. -/
structure User where
  name : String
  nspace : String
  roles : List String
  deletionTimestamp : Option Nat
  finalizers : List String
deriving DecidableEq, Repr

structure Container where
  name : String
  image : String
  command : List String
deriving DecidableEq, Repr

/-- `appsv1.Deployment`, restricted to the fields the builders set. -/
structure Deployment where
  name : String
  nspace : String
  labels : List (String × String)
  replicas : Int
  selector : List (String × String)
  templateLabels : List (String × String)
  containers : List Container
deriving DecidableEq, Repr

/-- `intstr.IntOrString`. -/
inductive IntOrString where
  | int (i : Int)
  | str (s : String)
deriving DecidableEq, Repr

structure ServicePort where
  name : String
  protocol : String
  port : Int
  targetPort : IntOrString
deriving DecidableEq, Repr

/-- `corev1.Service`, restricted to the fields the builders set. -/
structure Service where
  name : String
  nspace : String
  ports : List ServicePort
  selector : List (String × String)
deriving DecidableEq, Repr

structure ServiceAccount where
  name : String
  nspace : String
deriving DecidableEq, Repr

structure Subject where
  kind : String
  name : String
  nspace : String
deriving DecidableEq, Repr

structure RoleRef where
  apiGroup : String
  kind : String
  name : String
deriving DecidableEq, Repr

structure RoleBinding where
  name : String
  nspace : String
  subjects : List Subject
  roleRef : RoleRef
deriving DecidableEq, Repr

structure Role where
  name : String
  nspace : String
deriving DecidableEq, Repr

/-! ## controllerutil finalizer helpers -/

def containsFinalizer (fins : List String) (f : String) : Bool :=
  fins.contains f

def addFinalizer (fins : List String) (f : String) : List String :=
  if fins.contains f then fins else fins ++ [f]

def removeFinalizer (fins : List String) (f : String) : List String :=
  fins.filter (fun x => x ≠ f)

/-- `client.IgnoreNotFound`. -/
def ignoreNotFound : Option StoreErr → Option StoreErr
  | some .notFound => none
  | e => e

/-- `client.IgnoreAlreadyExists`. -/
def ignoreAlreadyExists : Option StoreErr → Option StoreErr
  | some .alreadyExists => none
  | e => e

/-! ## The object store -/

def KMap (V : Type) := ObjKey → Option V

def KMap.empty {V : Type} : KMap V := fun _ => none

def KMap.insert {V : Type} (m : KMap V) (k : ObjKey) (v : V) : KMap V :=
  fun k' => if k' = k then some v else m k'

def KMap.erase {V : Type} (m : KMap V) (k : ObjKey) : KMap V :=
  fun k' => if k' = k then none else m k'

/-- Which store call a ghost-log entry records. -/
inductive OpKind where
  | getTerminal
  | getUser
  | getServiceAccount
  | getRole
  | getRoleBinding
  | createDeployment
  | createService
  | createServiceAccount
  | createRoleBinding
  | deleteDeployment
  | deleteService
  | deleteServiceAccount
  | deleteRoleBinding
  | updateTerminal
  | updateUser
deriving DecidableEq, Repr

/-- Ghost log entry: the call made, its key, and the error it returned. -/
structure LogEntry where
  op : OpKind
  key : ObjKey
  res : Option StoreErr
deriving DecidableEq, Repr

/-- The cluster state seen through the typed client, together with a fault
schedule (one optional injected error consumed per store call) and a ghost
log of the calls issued. -/
structure KState where
  terminals : KMap Terminal
  users : KMap User
  deployments : KMap Deployment
  services : KMap Service
  serviceAccounts : KMap ServiceAccount
  roles : KMap Role
  roleBindings : KMap RoleBinding
  faults : List (Option StoreErr)
  log : List LogEntry

def KState.popFault (s : KState) : Option StoreErr × KState :=
  match s.faults with
  | [] => (none, s)
  | f :: rest => (f, { s with faults := rest })

def KState.logged (s : KState) (op : OpKind) (k : ObjKey) (e : Option StoreErr) :
    KState :=
  { s with log := s.log ++ [⟨op, k, e⟩] }

/-! Store calls.  Each call first consumes the head of the fault schedule;
an injected fault is returned without touching any map.  Otherwise the call
has honest Kubernetes semantics.  Every call appends one log entry. -/

def getTerminalOp (s : KState) (k : ObjKey) : KState × Except StoreErr Terminal :=
  match s.popFault with
  | (some e, s₁) => (s₁.logged .getTerminal k (some e), .error e)
  | (none, s₁) =>
    match s₁.terminals k with
    | some t => (s₁.logged .getTerminal k none, .ok t)
    | none => (s₁.logged .getTerminal k (some .notFound), .error .notFound)

def getUserOp (s : KState) (k : ObjKey) : KState × Except StoreErr User :=
  match s.popFault with
  | (some e, s₁) => (s₁.logged .getUser k (some e), .error e)
  | (none, s₁) =>
    match s₁.users k with
    | some u => (s₁.logged .getUser k none, .ok u)
    | none => (s₁.logged .getUser k (some .notFound), .error .notFound)

def getServiceAccountOp (s : KState) (k : ObjKey) :
    KState × Except StoreErr ServiceAccount :=
  match s.popFault with
  | (some e, s₁) => (s₁.logged .getServiceAccount k (some e), .error e)
  | (none, s₁) =>
    match s₁.serviceAccounts k with
    | some a => (s₁.logged .getServiceAccount k none, .ok a)
    | none => (s₁.logged .getServiceAccount k (some .notFound), .error .notFound)

def getRoleOp (s : KState) (k : ObjKey) : KState × Except StoreErr Role :=
  match s.popFault with
  | (some e, s₁) => (s₁.logged .getRole k (some e), .error e)
  | (none, s₁) =>
    match s₁.roles k with
    | some r => (s₁.logged .getRole k none, .ok r)
    | none => (s₁.logged .getRole k (some .notFound), .error .notFound)

def getRoleBindingOp (s : KState) (k : ObjKey) :
    KState × Except StoreErr RoleBinding :=
  match s.popFault with
  | (some e, s₁) => (s₁.logged .getRoleBinding k (some e), .error e)
  | (none, s₁) =>
    match s₁.roleBindings k with
    | some b => (s₁.logged .getRoleBinding k none, .ok b)
    | none => (s₁.logged .getRoleBinding k (some .notFound), .error .notFound)

def createDeploymentOp (s : KState) (d : Deployment) : KState × Option StoreErr :=
  let k : ObjKey := ⟨d.nspace, d.name⟩
  match s.popFault with
  | (some e, s₁) => (s₁.logged .createDeployment k (some e), some e)
  | (none, s₁) =>
    if (s₁.deployments k).isSome then
      (s₁.logged .createDeployment k (some .alreadyExists), some .alreadyExists)
    else
      ({ s₁ with deployments := s₁.deployments.insert k d }.logged
        .createDeployment k none, none)

def createServiceOp (s : KState) (v : Service) : KState × Option StoreErr :=
  let k : ObjKey := ⟨v.nspace, v.name⟩
  match s.popFault with
  | (some e, s₁) => (s₁.logged .createService k (some e), some e)
  | (none, s₁) =>
    if (s₁.services k).isSome then
      (s₁.logged .createService k (some .alreadyExists), some .alreadyExists)
    else
      ({ s₁ with services := s₁.services.insert k v }.logged
        .createService k none, none)

def createServiceAccountOp (s : KState) (a : ServiceAccount) :
    KState × Option StoreErr :=
  let k : ObjKey := ⟨a.nspace, a.name⟩
  match s.popFault with
  | (some e, s₁) => (s₁.logged .createServiceAccount k (some e), some e)
  | (none, s₁) =>
    if (s₁.serviceAccounts k).isSome then
      (s₁.logged .createServiceAccount k (some .alreadyExists),
        some .alreadyExists)
    else
      ({ s₁ with serviceAccounts := s₁.serviceAccounts.insert k a }.logged
        .createServiceAccount k none, none)

def createRoleBindingOp (s : KState) (b : RoleBinding) :
    KState × Option StoreErr :=
  let k : ObjKey := ⟨b.nspace, b.name⟩
  match s.popFault with
  | (some e, s₁) => (s₁.logged .createRoleBinding k (some e), some e)
  | (none, s₁) =>
    if (s₁.roleBindings k).isSome then
      (s₁.logged .createRoleBinding k (some .alreadyExists), some .alreadyExists)
    else
      ({ s₁ with roleBindings := s₁.roleBindings.insert k b }.logged
        .createRoleBinding k none, none)

def deleteDeploymentOp (s : KState) (d : Deployment) : KState × Option StoreErr :=
  let k : ObjKey := ⟨d.nspace, d.name⟩
  match s.popFault with
  | (some e, s₁) => (s₁.logged .deleteDeployment k (some e), some e)
  | (none, s₁) =>
    if (s₁.deployments k).isSome then
      ({ s₁ with deployments := s₁.deployments.erase k }.logged
        .deleteDeployment k none, none)
    else
      (s₁.logged .deleteDeployment k (some .notFound), some .notFound)

def deleteServiceOp (s : KState) (v : Service) : KState × Option StoreErr :=
  let k : ObjKey := ⟨v.nspace, v.name⟩
  match s.popFault with
  | (some e, s₁) => (s₁.logged .deleteService k (some e), some e)
  | (none, s₁) =>
    if (s₁.services k).isSome then
      ({ s₁ with services := s₁.services.erase k }.logged
        .deleteService k none, none)
    else
      (s₁.logged .deleteService k (some .notFound), some .notFound)

def deleteServiceAccountOp (s : KState) (a : ServiceAccount) :
    KState × Option StoreErr :=
  let k : ObjKey := ⟨a.nspace, a.name⟩
  match s.popFault with
  | (some e, s₁) => (s₁.logged .deleteServiceAccount k (some e), some e)
  | (none, s₁) =>
    if (s₁.serviceAccounts k).isSome then
      ({ s₁ with serviceAccounts := s₁.serviceAccounts.erase k }.logged
        .deleteServiceAccount k none, none)
    else
      (s₁.logged .deleteServiceAccount k (some .notFound), some .notFound)

def deleteRoleBindingOp (s : KState) (b : RoleBinding) :
    KState × Option StoreErr :=
  let k : ObjKey := ⟨b.nspace, b.name⟩
  match s.popFault with
  | (some e, s₁) => (s₁.logged .deleteRoleBinding k (some e), some e)
  | (none, s₁) =>
    if (s₁.roleBindings k).isSome then
      ({ s₁ with roleBindings := s₁.roleBindings.erase k }.logged
        .deleteRoleBinding k none, none)
    else
      (s₁.logged .deleteRoleBinding k (some .notFound), some .notFound)

/-- `Update` of a Terminal: replace the stored object; per Kubernetes
finalizer semantics, updating an object that has a deletion timestamp and
no remaining finalizers erases it from the store. -/
def updateTerminalOp (s : KState) (t : Terminal) : KState × Option StoreErr :=
  let k : ObjKey := ⟨t.nspace, t.name⟩
  match s.popFault with
  | (some e, s₁) => (s₁.logged .updateTerminal k (some e), some e)
  | (none, s₁) =>
    match s₁.terminals k with
    | none => (s₁.logged .updateTerminal k (some .notFound), some .notFound)
    | some _ =>
      if t.deletionTimestamp.isSome ∧ t.finalizers = [] then
        ({ s₁ with terminals := s₁.terminals.erase k }.logged
          .updateTerminal k none, none)
      else
        ({ s₁ with terminals := s₁.terminals.insert k t }.logged
          .updateTerminal k none, none)

/-- `Update` of a User, with the same finalizer semantics. -/
def updateUserOp (s : KState) (u : User) : KState × Option StoreErr :=
  let k : ObjKey := ⟨u.nspace, u.name⟩
  match s.popFault with
  | (some e, s₁) => (s₁.logged .updateUser k (some e), some e)
  | (none, s₁) =>
    match s₁.users k with
    | none => (s₁.logged .updateUser k (some .notFound), some .notFound)
    | some _ =>
      if u.deletionTimestamp.isSome ∧ u.finalizers = [] then
        ({ s₁ with users := s₁.users.erase k }.logged .updateUser k none, none)
      else
        ({ s₁ with users := s₁.users.insert k u }.logged .updateUser k none, none)

/-! ## Finalizer constants (identical strings in both Go packages) -/

def TerminalDeploymentFinalizer : String := "marina.io.deployment/finalizer"

def TerminalServiceFinalizer : String := "marina.io.service/finalizer"

def UserServiceAccountFinalizer : String := "marina.io.serviceaccount/finalizer"

def UserRoleBindingFinalizer : String := "marina.io.rolebinding/finalizer"

/-! ## Go package `controller` (`internal/controller`), the reconcilers
registered with the manager in `cmd/app.go` -/

namespace controller

def CommonLabels : List (String × String) := [("app", "marina-terminal")]

/-- `deploymentForTerminal` (internal/controller/terminal_controller.go). -/
def deploymentForTerminal (terminal : Terminal) : Deployment :=
  { name := "marina-terminal-" ++ terminal.name
    nspace := terminal.nspace
    labels := CommonLabels
    replicas := 1
    selector := CommonLabels
    templateLabels := CommonLabels
    containers := [{ name := "exec-shell"
                     image := terminal.image
                     command := ["/bin/sh", "-ec",
                       "trap : TERM INT; sleep infinity & wait"] }] }

/-- `serviceForTerminal` (internal/controller/terminal_controller.go). -/
def serviceForTerminal (terminal : Terminal) : Service :=
  { name := "marina-terminal-" ++ terminal.name
    nspace := terminal.nspace
    ports := [{ name := "ssh"
                protocol := "TCP"
                port := 22
                targetPort := .str "ssh" }]
    selector := CommonLabels }

/-- `TerminalReconciler.reconcileDeployment`.  Returns the state, the
(possibly finalizer-mutated) in-memory terminal, and the Go return value. -/
def TerminalReconciler.reconcileDeployment (s : KState) (terminal : Terminal) :
    KState × Terminal × Option RErr :=
  let deployment := deploymentForTerminal terminal
  if terminal.deletionTimestamp.isSome then
    if containsFinalizer terminal.finalizers TerminalDeploymentFinalizer then
      match deleteDeploymentOp s deployment with
      | (s₁, some e) => (s₁, terminal, some (.wrapped "could not delete deployment" e))
      | (s₁, none) =>
        (s₁, { terminal with
                finalizers := removeFinalizer terminal.finalizers
                  TerminalDeploymentFinalizer }, none)
    else
      (s, terminal, none)
  else
    let terminal₁ := { terminal with
      finalizers := addFinalizer terminal.finalizers TerminalDeploymentFinalizer }
    match createDeploymentOp s deployment with
    | (s₁, e) => (s₁, terminal₁, (ignoreAlreadyExists e).map .store)

/-- `TerminalReconciler.reconcileService`. -/
def TerminalReconciler.reconcileService (s : KState) (terminal : Terminal) :
    KState × Terminal × Option RErr :=
  let service := serviceForTerminal terminal
  if terminal.deletionTimestamp.isSome then
    if containsFinalizer terminal.finalizers TerminalServiceFinalizer then
      match deleteServiceOp s service with
      | (s₁, some e) => (s₁, terminal, some (.wrapped "could not delete service" e))
      | (s₁, none) =>
        (s₁, { terminal with
                finalizers := removeFinalizer terminal.finalizers
                  TerminalServiceFinalizer }, none)
    else
      (s, terminal, none)
  else
    let terminal₁ := { terminal with
      finalizers := addFinalizer terminal.finalizers TerminalServiceFinalizer }
    match createServiceOp s service with
    | (s₁, e) => (s₁, terminal₁, (ignoreAlreadyExists e).map .store)

/-- `TerminalReconciler.Reconcile`. -/
def TerminalReconciler.Reconcile (s : KState) (req : Request) :
    KState × CtrlResult × Option RErr :=
  match getTerminalOp s ⟨req.nspace, req.name⟩ with
  | (s₁, .error e) => (s₁, CtrlResult.zero, (ignoreNotFound (some e)).map .store)
  | (s₁, .ok terminal) =>
    match TerminalReconciler.reconcileDeployment s₁ terminal with
    | (s₂, _, some e) => (s₂, CtrlResult.zero, some e)
    | (s₂, terminal₁, none) =>
      match TerminalReconciler.reconcileService s₂ terminal₁ with
      | (s₃, _, some e) => (s₃, CtrlResult.zero, some e)
      | (s₃, terminal₂, none) =>
        match updateTerminalOp s₃ terminal₂ with
        | (s₄, some e) => (s₄, CtrlResult.zero, some (.store e))
        | (s₄, none) => (s₄, CtrlResult.zero, none)

/-- `serviceAccountForUser` (internal/controller/user_controller.go). -/
def serviceAccountForUser (user : User) : ServiceAccount :=
  { name := user.name, nspace := user.nspace }

/-- `userRoleBindingForRole` (internal/controller/user_controller.go). -/
def userRoleBindingForRole (user : User) (role : String) : RoleBinding :=
  { name := user.name ++ "-" ++ role
    nspace := user.nspace
    subjects := [{ kind := "ServiceAccount", name := user.name, nspace := user.nspace }]
    roleRef := { apiGroup := "rbac.authorization.k8s.io", kind := "Role", name := role } }

/-- `UserReconciler.reconcileServiceAccount`. -/
def UserReconciler.reconcileServiceAccount (s : KState) (user : User) :
    KState × User × Option RErr :=
  let serviceAccount := serviceAccountForUser user
  if user.deletionTimestamp.isSome then
    if containsFinalizer user.finalizers UserServiceAccountFinalizer then
      match deleteServiceAccountOp s serviceAccount with
      | (s₁, some e) => (s₁, user, some (.store e))
      | (s₁, none) =>
        (s₁, { user with
                finalizers := removeFinalizer user.finalizers
                  UserServiceAccountFinalizer }, none)
    else
      (s, user, none)
  else
    let user₁ := { user with
      finalizers := addFinalizer user.finalizers UserServiceAccountFinalizer }
    match createServiceAccountOp s serviceAccount with
    | (s₁, e) => (s₁, user₁, (ignoreAlreadyExists e).map .store)

/-- The `for _, role := range user.Spec.Roles` loop of
`UserReconciler.reconcileRoleBindings`.  On the create path a create error
returns `client.IgnoreAlreadyExists(err)` from the whole function, so an
`alreadyExists` stops the loop with a nil error. -/
def UserReconciler.roleBindingLoop (s : KState) (user : User) (isDeleting : Bool) :
    List String → KState × Option RErr
  | [] => (s, none)
  | role :: rest =>
    let binding := userRoleBindingForRole user role
    if isDeleting then
      if containsFinalizer user.finalizers UserRoleBindingFinalizer then
        match deleteRoleBindingOp s binding with
        | (s₁, some e) => (s₁, some (.store e))
        | (s₁, none) => UserReconciler.roleBindingLoop s₁ user isDeleting rest
      else
        UserReconciler.roleBindingLoop s user isDeleting rest
    else
      match createRoleBindingOp s binding with
      | (s₁, some e) => (s₁, (ignoreAlreadyExists (some e)).map .store)
      | (s₁, none) => UserReconciler.roleBindingLoop s₁ user isDeleting rest

/-- `UserReconciler.reconcileRoleBindings`. -/
def UserReconciler.reconcileRoleBindings (s : KState) (user : User) :
    KState × User × Option RErr :=
  let isDeleting := user.deletionTimestamp.isSome
  let user₁ :=
    if isDeleting then user
    else { user with
            finalizers := addFinalizer user.finalizers UserRoleBindingFinalizer }
  match UserReconciler.roleBindingLoop s user₁ isDeleting user₁.roles with
  | (s₁, some e) => (s₁, user₁, some e)
  | (s₁, none) =>
    if isDeleting then
      (s₁, { user₁ with
              finalizers := removeFinalizer user₁.finalizers
                UserRoleBindingFinalizer }, none)
    else
      (s₁, user₁, none)

/-- `UserReconciler.Reconcile` (internal/controller/user_controller.go). -/
def UserReconciler.Reconcile (s : KState) (req : Request) :
    KState × CtrlResult × Option RErr :=
  match getUserOp s ⟨req.nspace, req.name⟩ with
  | (s₁, .error e) => (s₁, CtrlResult.zero, (ignoreNotFound (some e)).map .store)
  | (s₁, .ok user) =>
    match UserReconciler.reconcileServiceAccount s₁ user with
    | (s₂, _, some e) => (s₂, CtrlResult.zero, some e)
    | (s₂, user₁, none) =>
      match UserReconciler.reconcileRoleBindings s₂ user₁ with
      | (s₃, _, some e) => (s₃, CtrlResult.zero, some e)
      | (s₃, user₂, none) =>
        match updateUserOp s₃ user₂ with
        | (s₄, some e) => (s₄, CtrlResult.zero, some (.store e))
        | (s₄, none) => (s₄, CtrlResult.zero, none)

end controller

/-! ## Go package `controllers` (legacy), reached by the ginkgo tests -/

namespace controllers

/-- The service account built inline in the legacy
`UserReconciler.reconcileServiceAccount`. -/
def desiredServiceAccountForUser (user : User) : ServiceAccount :=
  { name := "user-" ++ user.name, nspace := user.nspace }

/-- The role binding built inline in the legacy
`UserReconciler.reconcileRoleBindingss`. -/
def desiredRoleBindingForRole (user : User) (role : String) : RoleBinding :=
  { name := "user-" ++ user.name ++ "-" ++ role
    nspace := user.nspace
    subjects := [{ kind := "ServiceAccount"
                   name := "user-" ++ user.name
                   nspace := user.nspace }]
    roleRef := { apiGroup := "rbac.authorization.k8s.io", kind := "Role", name := role } }

/-- Legacy `UserReconciler.reconcileServiceAccount`: on the create path it
first `Get`s the account; the Go code reads
`if err != nil && errors.IsNotFound(err) { create } else { return err }`,
so a found account (err = nil) returns nil and any non-NotFound Get error
is returned. -/
def UserReconciler.reconcileServiceAccount (s : KState) (user : User) :
    KState × User × Option RErr :=
  let desired := desiredServiceAccountForUser user
  if user.deletionTimestamp.isSome then
    if containsFinalizer user.finalizers UserServiceAccountFinalizer then
      match deleteServiceAccountOp s desired with
      | (s₁, some e) => (s₁, user, some (.store e))
      | (s₁, none) =>
        (s₁, { user with
                finalizers := removeFinalizer user.finalizers
                  UserServiceAccountFinalizer }, none)
    else
      (s, user, none)
  else
    match getServiceAccountOp s ⟨desired.nspace, desired.name⟩ with
    | (s₁, .error .notFound) =>
      match createServiceAccountOp s₁ desired with
      | (s₂, some e) => (s₂, user, some (.store e))
      | (s₂, none) =>
        (s₂, { user with
                finalizers := addFinalizer user.finalizers
                  UserServiceAccountFinalizer }, none)
    | (s₁, .error e) => (s₁, user, some (.store e))
    | (s₁, .ok _) => (s₁, user, none)

/-- The role loop of the legacy `UserReconciler.reconcileRoleBindingss`.
On the delete path the Go code reads
`if err := r.Delete(...); err != nil && errors.IsNotFound(err) { return err }`:
a NotFound delete error is returned, every other delete error falls through
and is discarded.  On the create path the referenced Role must exist
(`role does not exist` otherwise), the binding is created only when a Get
reports it absent, and the finalizer is added once per iteration. -/
def UserReconciler.roleBindingssLoop (s : KState) (user : User) (isDeleting : Bool) :
    List String → KState × User × Option RErr
  | [] => (s, user, none)
  | role :: rest =>
    let desired := desiredRoleBindingForRole user role
    if isDeleting then
      if containsFinalizer user.finalizers UserRoleBindingFinalizer then
        match deleteRoleBindingOp s desired with
        | (s₁, some .notFound) => (s₁, user, some (.store .notFound))
        | (s₁, _) => UserReconciler.roleBindingssLoop s₁ user isDeleting rest
      else
        UserReconciler.roleBindingssLoop s user isDeleting rest
    else
      match getRoleOp s ⟨user.nspace, role⟩ with
      | (s₁, .error .notFound) =>
        (s₁, user, some (.wrapped "role does not exist" .notFound))
      | (s₁, .error e) => (s₁, user, some (.wrapped "could not fetch role" e))
      | (s₁, .ok _) =>
        match getRoleBindingOp s₁ ⟨desired.nspace, desired.name⟩ with
        | (s₂, .error .notFound) =>
          match createRoleBindingOp s₂ desired with
          | (s₃, some e) => (s₃, user, some (.store e))
          | (s₃, none) =>
            UserReconciler.roleBindingssLoop s₃
              { user with
                finalizers := addFinalizer user.finalizers UserRoleBindingFinalizer }
              isDeleting rest
        | (s₂, .error e) => (s₂, user, some (.store e))
        | (s₂, .ok _) =>
          UserReconciler.roleBindingssLoop s₂
            { user with
              finalizers := addFinalizer user.finalizers UserRoleBindingFinalizer }
            isDeleting rest

/-- Legacy `UserReconciler.reconcileRoleBindingss`. -/
def UserReconciler.reconcileRoleBindingss (s : KState) (user : User) :
    KState × User × Option RErr :=
  let isDeleting := user.deletionTimestamp.isSome
  match UserReconciler.roleBindingssLoop s user isDeleting user.roles with
  | (s₁, user₁, some e) => (s₁, user₁, some e)
  | (s₁, user₁, none) =>
    if isDeleting then
      (s₁, { user₁ with
              finalizers := removeFinalizer user₁.finalizers
                UserRoleBindingFinalizer }, none)
    else
      (s₁, user₁, none)

/-- Legacy `UserReconciler.Reconcile` (controllers/user_controller.go). -/
def UserReconciler.Reconcile (s : KState) (req : Request) :
    KState × CtrlResult × Option RErr :=
  match getUserOp s ⟨req.nspace, req.name⟩ with
  | (s₁, .error .notFound) => (s₁, CtrlResult.zero, none)
  | (s₁, .error e) => (s₁, CtrlResult.zero, some (.store e))
  | (s₁, .ok user) =>
    match UserReconciler.reconcileServiceAccount s₁ user with
    | (s₂, _, some e) => (s₂, CtrlResult.zero, some e)
    | (s₂, user₁, none) =>
      match UserReconciler.reconcileRoleBindingss s₂ user₁ with
      | (s₃, _, some e) => (s₃, CtrlResult.zero, some e)
      | (s₃, user₂, none) =>
        match updateUserOp s₃ user₂ with
        | (s₄, some e) => (s₄, CtrlResult.zero, some (.store e))
        | (s₄, none) => (s₄, CtrlResult.zero, none)

end controllers

/-! ## Basic lemmas about the store model -/

theorem KMap.insert_self {V : Type} (m : KMap V) (k : ObjKey) (v : V) :
    (m.insert k v) k = some v := by
  simp [KMap.insert]

theorem KMap.insert_ne {V : Type} (m : KMap V) (k k' : ObjKey) (v : V)
    (h : k' ≠ k) : (m.insert k v) k' = m k' := by
  simp [KMap.insert, h]

theorem KMap.insert_eq_self {V : Type} (m : KMap V) (k : ObjKey) (v : V)
    (h : m k = some v) : m.insert k v = m := by
  funext k'
  by_cases hk : k' = k
  · subst hk; simp [KMap.insert, h]
  · simp [KMap.insert, hk]

theorem KMap.erase_eq_self {V : Type} (m : KMap V) (k : ObjKey)
    (h : m k = none) : m.erase k = m := by
  funext k'
  by_cases hk : k' = k
  · subst hk; simp [KMap.erase, h]
  · simp [KMap.erase, hk]

theorem addFinalizer_contains (l : List String) (f : String) :
    containsFinalizer (addFinalizer l f) f = true := by
  by_cases h : f ∈ l <;> simp [addFinalizer, containsFinalizer, h]

theorem addFinalizer_of_contains (l : List String) (f : String)
    (h : containsFinalizer l f = true) : addFinalizer l f = l := by
  simp [containsFinalizer] at h
  simp [addFinalizer, h]

theorem removeFinalizer_not_contains (l : List String) (f : String) :
    containsFinalizer (removeFinalizer l f) f = false := by
  simp [containsFinalizer, removeFinalizer]

theorem removeFinalizer_of_not_contains (l : List String) (f : String)
    (h : containsFinalizer l f = false) : removeFinalizer l f = l := by
  simp [containsFinalizer] at h
  apply List.filter_eq_self.mpr
  intro x hx
  simp only [ne_eq, decide_eq_true_eq]
  rintro rfl
  exact h hx

theorem addFinalizer_contains_other (l : List String) (f g : String)
    (h : containsFinalizer l g = true) :
    containsFinalizer (addFinalizer l f) g = true := by
  by_cases hf : f ∈ l <;>
    simp_all [addFinalizer, containsFinalizer]

theorem removeFinalizer_contains_other (l : List String) (f g : String)
    (hne : g ≠ f) :
    containsFinalizer (removeFinalizer l f) g = containsFinalizer l g := by
  simp only [containsFinalizer]
  by_cases h : g ∈ l
  · have hm : g ∈ removeFinalizer l f := by simp [removeFinalizer, h, hne]
    simp [h, hm]
  · have hm : g ∉ removeFinalizer l f := by simp [removeFinalizer, h]
    simp [h, hm]

/-! Shape lemmas: each store call changes at most its own kind's map, pops
the head of the fault schedule, and appends one log entry. -/

theorem getTerminalOp_state (s : KState) (k : ObjKey) :
    ∃ en, (getTerminalOp s k).1 =
      { s with faults := s.faults.tail, log := s.log ++ [en] } := by
  rcases s with ⟨tm, um, dm, sm, am, rm, bm, _ | ⟨_ | e, rest⟩, lg⟩ <;>
    (simp only [getTerminalOp, KState.popFault, KState.logged]) <;>
    (repeat' split) <;> exact ⟨_, rfl⟩

theorem getUserOp_state (s : KState) (k : ObjKey) :
    ∃ en, (getUserOp s k).1 =
      { s with faults := s.faults.tail, log := s.log ++ [en] } := by
  rcases s with ⟨tm, um, dm, sm, am, rm, bm, _ | ⟨_ | e, rest⟩, lg⟩ <;>
    (simp only [getUserOp, KState.popFault, KState.logged]) <;>
    (repeat' split) <;> exact ⟨_, rfl⟩

theorem getServiceAccountOp_state (s : KState) (k : ObjKey) :
    ∃ en, (getServiceAccountOp s k).1 =
      { s with faults := s.faults.tail, log := s.log ++ [en] } := by
  rcases s with ⟨tm, um, dm, sm, am, rm, bm, _ | ⟨_ | e, rest⟩, lg⟩ <;>
    (simp only [getServiceAccountOp, KState.popFault, KState.logged]) <;>
    (repeat' split) <;> exact ⟨_, rfl⟩

theorem getRoleOp_state (s : KState) (k : ObjKey) :
    ∃ en, (getRoleOp s k).1 =
      { s with faults := s.faults.tail, log := s.log ++ [en] } := by
  rcases s with ⟨tm, um, dm, sm, am, rm, bm, _ | ⟨_ | e, rest⟩, lg⟩ <;>
    (simp only [getRoleOp, KState.popFault, KState.logged]) <;>
    (repeat' split) <;> exact ⟨_, rfl⟩

theorem getRoleBindingOp_state (s : KState) (k : ObjKey) :
    ∃ en, (getRoleBindingOp s k).1 =
      { s with faults := s.faults.tail, log := s.log ++ [en] } := by
  rcases s with ⟨tm, um, dm, sm, am, rm, bm, _ | ⟨_ | e, rest⟩, lg⟩ <;>
    (simp only [getRoleBindingOp, KState.popFault, KState.logged]) <;>
    (repeat' split) <;> exact ⟨_, rfl⟩

theorem createDeploymentOp_state (s : KState) (d : Deployment) :
    ∃ en m, (createDeploymentOp s d).1 =
      { s with deployments := m, faults := s.faults.tail, log := s.log ++ [en] } := by
  rcases s with ⟨tm, um, dm, sm, am, rm, bm, _ | ⟨_ | e, rest⟩, lg⟩ <;>
    (simp only [createDeploymentOp, KState.popFault, KState.logged]) <;>
    (repeat' split) <;> exact ⟨_, _, rfl⟩

theorem createServiceOp_state (s : KState) (v : Service) :
    ∃ en m, (createServiceOp s v).1 =
      { s with services := m, faults := s.faults.tail, log := s.log ++ [en] } := by
  rcases s with ⟨tm, um, dm, sm, am, rm, bm, _ | ⟨_ | e, rest⟩, lg⟩ <;>
    (simp only [createServiceOp, KState.popFault, KState.logged]) <;>
    (repeat' split) <;> exact ⟨_, _, rfl⟩

theorem createServiceAccountOp_state (s : KState) (a : ServiceAccount) :
    ∃ en m, (createServiceAccountOp s a).1 =
      { s with serviceAccounts := m, faults := s.faults.tail, log := s.log ++ [en] } := by
  rcases s with ⟨tm, um, dm, sm, am, rm, bm, _ | ⟨_ | e, rest⟩, lg⟩ <;>
    (simp only [createServiceAccountOp, KState.popFault, KState.logged]) <;>
    (repeat' split) <;> exact ⟨_, _, rfl⟩

theorem createRoleBindingOp_state (s : KState) (b : RoleBinding) :
    ∃ en m, (createRoleBindingOp s b).1 =
      { s with roleBindings := m, faults := s.faults.tail, log := s.log ++ [en] } := by
  rcases s with ⟨tm, um, dm, sm, am, rm, bm, _ | ⟨_ | e, rest⟩, lg⟩ <;>
    (simp only [createRoleBindingOp, KState.popFault, KState.logged]) <;>
    (repeat' split) <;> exact ⟨_, _, rfl⟩

theorem deleteDeploymentOp_state (s : KState) (d : Deployment) :
    ∃ en m, (deleteDeploymentOp s d).1 =
      { s with deployments := m, faults := s.faults.tail, log := s.log ++ [en] } := by
  rcases s with ⟨tm, um, dm, sm, am, rm, bm, _ | ⟨_ | e, rest⟩, lg⟩ <;>
    (simp only [deleteDeploymentOp, KState.popFault, KState.logged]) <;>
    (repeat' split) <;> exact ⟨_, _, rfl⟩

theorem deleteServiceOp_state (s : KState) (v : Service) :
    ∃ en m, (deleteServiceOp s v).1 =
      { s with services := m, faults := s.faults.tail, log := s.log ++ [en] } := by
  rcases s with ⟨tm, um, dm, sm, am, rm, bm, _ | ⟨_ | e, rest⟩, lg⟩ <;>
    (simp only [deleteServiceOp, KState.popFault, KState.logged]) <;>
    (repeat' split) <;> exact ⟨_, _, rfl⟩

theorem deleteServiceAccountOp_state (s : KState) (a : ServiceAccount) :
    ∃ en m, (deleteServiceAccountOp s a).1 =
      { s with serviceAccounts := m, faults := s.faults.tail, log := s.log ++ [en] } := by
  rcases s with ⟨tm, um, dm, sm, am, rm, bm, _ | ⟨_ | e, rest⟩, lg⟩ <;>
    (simp only [deleteServiceAccountOp, KState.popFault, KState.logged]) <;>
    (repeat' split) <;> exact ⟨_, _, rfl⟩

theorem deleteRoleBindingOp_state (s : KState) (b : RoleBinding) :
    ∃ en m, (deleteRoleBindingOp s b).1 =
      { s with roleBindings := m, faults := s.faults.tail, log := s.log ++ [en] } := by
  rcases s with ⟨tm, um, dm, sm, am, rm, bm, _ | ⟨_ | e, rest⟩, lg⟩ <;>
    (simp only [deleteRoleBindingOp, KState.popFault, KState.logged]) <;>
    (repeat' split) <;> exact ⟨_, _, rfl⟩

theorem updateTerminalOp_state (s : KState) (t : Terminal) :
    ∃ en m, (updateTerminalOp s t).1 =
      { s with terminals := m, faults := s.faults.tail, log := s.log ++ [en] } := by
  rcases s with ⟨tm, um, dm, sm, am, rm, bm, _ | ⟨_ | e, rest⟩, lg⟩ <;>
    (simp only [updateTerminalOp, KState.popFault, KState.logged]) <;>
    (repeat' split) <;> exact ⟨_, _, rfl⟩

theorem updateUserOp_state (s : KState) (u : User) :
    ∃ en m, (updateUserOp s u).1 =
      { s with users := m, faults := s.faults.tail, log := s.log ++ [en] } := by
  rcases s with ⟨tm, um, dm, sm, am, rm, bm, _ | ⟨_ | e, rest⟩, lg⟩ <;>
    (simp only [updateUserOp, KState.popFault, KState.logged]) <;>
    (repeat' split) <;> exact ⟨_, _, rfl⟩

/-! A failed `Update` of a primary object leaves its map untouched. -/

theorem updateTerminalOp_error_terminals (s : KState) (t : Terminal)
    (h : (updateTerminalOp s t).2.isSome) :
    ((updateTerminalOp s t).1).terminals = s.terminals := by
  rcases s with ⟨ts, u, dp, sv, sa, ro, rb, _ | ⟨_ | e, rest⟩, log⟩ <;>
    (simp only [updateTerminalOp, KState.popFault, KState.logged] at h ⊢) <;>
    (repeat' split) <;> simp_all

theorem updateUserOp_error_users (s : KState) (u : User)
    (h : (updateUserOp s u).2.isSome) :
    ((updateUserOp s u).1).users = s.users := by
  rcases s with ⟨ts, us, dp, sv, sa, ro, rb, _ | ⟨_ | e, rest⟩, log⟩ <;>
    (simp only [updateUserOp, KState.popFault, KState.logged] at h ⊢) <;>
    (repeat' split) <;> simp_all

/-! Honest characterizations: with an empty fault schedule the store calls
follow map content exactly. -/

theorem getTerminalOp_found (s : KState) (k : ObjKey) (t : Terminal)
    (hf : s.faults = []) (h : s.terminals k = some t) :
    getTerminalOp s k = (s.logged .getTerminal k none, Except.ok t) := by
  simp [getTerminalOp, KState.popFault, hf, h]

theorem getTerminalOp_missing (s : KState) (k : ObjKey)
    (hf : s.faults = []) (h : s.terminals k = none) :
    getTerminalOp s k =
      (s.logged .getTerminal k (some .notFound), Except.error .notFound) := by
  simp [getTerminalOp, KState.popFault, hf, h]

theorem getUserOp_found (s : KState) (k : ObjKey) (u : User)
    (hf : s.faults = []) (h : s.users k = some u) :
    getUserOp s k = (s.logged .getUser k none, Except.ok u) := by
  simp [getUserOp, KState.popFault, hf, h]

theorem getUserOp_missing (s : KState) (k : ObjKey)
    (hf : s.faults = []) (h : s.users k = none) :
    getUserOp s k =
      (s.logged .getUser k (some .notFound), Except.error .notFound) := by
  simp [getUserOp, KState.popFault, hf, h]

theorem getServiceAccountOp_found (s : KState) (k : ObjKey) (a : ServiceAccount)
    (hf : s.faults = []) (h : s.serviceAccounts k = some a) :
    getServiceAccountOp s k = (s.logged .getServiceAccount k none, Except.ok a) := by
  simp [getServiceAccountOp, KState.popFault, hf, h]

theorem getServiceAccountOp_missing (s : KState) (k : ObjKey)
    (hf : s.faults = []) (h : s.serviceAccounts k = none) :
    getServiceAccountOp s k =
      (s.logged .getServiceAccount k (some .notFound), Except.error .notFound) := by
  simp [getServiceAccountOp, KState.popFault, hf, h]

theorem getRoleOp_found (s : KState) (k : ObjKey) (r : Role)
    (hf : s.faults = []) (h : s.roles k = some r) :
    getRoleOp s k = (s.logged .getRole k none, Except.ok r) := by
  simp [getRoleOp, KState.popFault, hf, h]

theorem getRoleOp_missing (s : KState) (k : ObjKey)
    (hf : s.faults = []) (h : s.roles k = none) :
    getRoleOp s k =
      (s.logged .getRole k (some .notFound), Except.error .notFound) := by
  simp [getRoleOp, KState.popFault, hf, h]

theorem getRoleBindingOp_found (s : KState) (k : ObjKey) (b : RoleBinding)
    (hf : s.faults = []) (h : s.roleBindings k = some b) :
    getRoleBindingOp s k = (s.logged .getRoleBinding k none, Except.ok b) := by
  simp [getRoleBindingOp, KState.popFault, hf, h]

theorem getRoleBindingOp_missing (s : KState) (k : ObjKey)
    (hf : s.faults = []) (h : s.roleBindings k = none) :
    getRoleBindingOp s k =
      (s.logged .getRoleBinding k (some .notFound), Except.error .notFound) := by
  simp [getRoleBindingOp, KState.popFault, hf, h]

theorem createDeploymentOp_absent (s : KState) (d : Deployment)
    (hf : s.faults = []) (h : s.deployments ⟨d.nspace, d.name⟩ = none) :
    createDeploymentOp s d =
      ({ s with deployments := s.deployments.insert ⟨d.nspace, d.name⟩ d }.logged
        .createDeployment ⟨d.nspace, d.name⟩ none, none) := by
  simp [createDeploymentOp, KState.popFault, hf, h]

theorem createDeploymentOp_present (s : KState) (d : Deployment)
    (hf : s.faults = []) (h : (s.deployments ⟨d.nspace, d.name⟩).isSome = true) :
    createDeploymentOp s d =
      (s.logged .createDeployment ⟨d.nspace, d.name⟩ (some .alreadyExists),
        some .alreadyExists) := by
  simp [createDeploymentOp, KState.popFault, hf, h]

theorem createServiceOp_absent (s : KState) (v : Service)
    (hf : s.faults = []) (h : s.services ⟨v.nspace, v.name⟩ = none) :
    createServiceOp s v =
      ({ s with services := s.services.insert ⟨v.nspace, v.name⟩ v }.logged
        .createService ⟨v.nspace, v.name⟩ none, none) := by
  simp [createServiceOp, KState.popFault, hf, h]

theorem createServiceOp_present (s : KState) (v : Service)
    (hf : s.faults = []) (h : (s.services ⟨v.nspace, v.name⟩).isSome = true) :
    createServiceOp s v =
      (s.logged .createService ⟨v.nspace, v.name⟩ (some .alreadyExists),
        some .alreadyExists) := by
  simp [createServiceOp, KState.popFault, hf, h]

theorem createServiceAccountOp_absent (s : KState) (a : ServiceAccount)
    (hf : s.faults = []) (h : s.serviceAccounts ⟨a.nspace, a.name⟩ = none) :
    createServiceAccountOp s a =
      ({ s with serviceAccounts := s.serviceAccounts.insert ⟨a.nspace, a.name⟩ a }.logged
        .createServiceAccount ⟨a.nspace, a.name⟩ none, none) := by
  simp [createServiceAccountOp, KState.popFault, hf, h]

theorem createServiceAccountOp_present (s : KState) (a : ServiceAccount)
    (hf : s.faults = []) (h : (s.serviceAccounts ⟨a.nspace, a.name⟩).isSome = true) :
    createServiceAccountOp s a =
      (s.logged .createServiceAccount ⟨a.nspace, a.name⟩ (some .alreadyExists),
        some .alreadyExists) := by
  simp [createServiceAccountOp, KState.popFault, hf, h]

theorem createRoleBindingOp_absent (s : KState) (b : RoleBinding)
    (hf : s.faults = []) (h : s.roleBindings ⟨b.nspace, b.name⟩ = none) :
    createRoleBindingOp s b =
      ({ s with roleBindings := s.roleBindings.insert ⟨b.nspace, b.name⟩ b }.logged
        .createRoleBinding ⟨b.nspace, b.name⟩ none, none) := by
  simp [createRoleBindingOp, KState.popFault, hf, h]

theorem createRoleBindingOp_present (s : KState) (b : RoleBinding)
    (hf : s.faults = []) (h : (s.roleBindings ⟨b.nspace, b.name⟩).isSome = true) :
    createRoleBindingOp s b =
      (s.logged .createRoleBinding ⟨b.nspace, b.name⟩ (some .alreadyExists),
        some .alreadyExists) := by
  simp [createRoleBindingOp, KState.popFault, hf, h]

theorem deleteDeploymentOp_present (s : KState) (d : Deployment)
    (hf : s.faults = []) (h : (s.deployments ⟨d.nspace, d.name⟩).isSome = true) :
    deleteDeploymentOp s d =
      ({ s with deployments := s.deployments.erase ⟨d.nspace, d.name⟩ }.logged
        .deleteDeployment ⟨d.nspace, d.name⟩ none, none) := by
  simp [deleteDeploymentOp, KState.popFault, hf, h]

theorem deleteDeploymentOp_absent (s : KState) (d : Deployment)
    (hf : s.faults = []) (h : s.deployments ⟨d.nspace, d.name⟩ = none) :
    deleteDeploymentOp s d =
      (s.logged .deleteDeployment ⟨d.nspace, d.name⟩ (some .notFound),
        some .notFound) := by
  simp [deleteDeploymentOp, KState.popFault, hf, h]

theorem deleteServiceOp_present (s : KState) (v : Service)
    (hf : s.faults = []) (h : (s.services ⟨v.nspace, v.name⟩).isSome = true) :
    deleteServiceOp s v =
      ({ s with services := s.services.erase ⟨v.nspace, v.name⟩ }.logged
        .deleteService ⟨v.nspace, v.name⟩ none, none) := by
  simp [deleteServiceOp, KState.popFault, hf, h]

theorem deleteServiceOp_absent (s : KState) (v : Service)
    (hf : s.faults = []) (h : s.services ⟨v.nspace, v.name⟩ = none) :
    deleteServiceOp s v =
      (s.logged .deleteService ⟨v.nspace, v.name⟩ (some .notFound),
        some .notFound) := by
  simp [deleteServiceOp, KState.popFault, hf, h]

theorem deleteServiceAccountOp_present (s : KState) (a : ServiceAccount)
    (hf : s.faults = []) (h : (s.serviceAccounts ⟨a.nspace, a.name⟩).isSome = true) :
    deleteServiceAccountOp s a =
      ({ s with serviceAccounts := s.serviceAccounts.erase ⟨a.nspace, a.name⟩ }.logged
        .deleteServiceAccount ⟨a.nspace, a.name⟩ none, none) := by
  simp [deleteServiceAccountOp, KState.popFault, hf, h]

theorem deleteServiceAccountOp_absent (s : KState) (a : ServiceAccount)
    (hf : s.faults = []) (h : s.serviceAccounts ⟨a.nspace, a.name⟩ = none) :
    deleteServiceAccountOp s a =
      (s.logged .deleteServiceAccount ⟨a.nspace, a.name⟩ (some .notFound),
        some .notFound) := by
  simp [deleteServiceAccountOp, KState.popFault, hf, h]

theorem deleteRoleBindingOp_present (s : KState) (b : RoleBinding)
    (hf : s.faults = []) (h : (s.roleBindings ⟨b.nspace, b.name⟩).isSome = true) :
    deleteRoleBindingOp s b =
      ({ s with roleBindings := s.roleBindings.erase ⟨b.nspace, b.name⟩ }.logged
        .deleteRoleBinding ⟨b.nspace, b.name⟩ none, none) := by
  simp [deleteRoleBindingOp, KState.popFault, hf, h]

theorem deleteRoleBindingOp_absent (s : KState) (b : RoleBinding)
    (hf : s.faults = []) (h : s.roleBindings ⟨b.nspace, b.name⟩ = none) :
    deleteRoleBindingOp s b =
      (s.logged .deleteRoleBinding ⟨b.nspace, b.name⟩ (some .notFound),
        some .notFound) := by
  simp [deleteRoleBindingOp, KState.popFault, hf, h]

theorem updateTerminalOp_write (s : KState) (t : Terminal) (t₀ : Terminal)
    (hf : s.faults = []) (h : s.terminals ⟨t.nspace, t.name⟩ = some t₀)
    (hc : ¬(t.deletionTimestamp.isSome ∧ t.finalizers = [])) :
    updateTerminalOp s t =
      ({ s with terminals := s.terminals.insert ⟨t.nspace, t.name⟩ t }.logged
        .updateTerminal ⟨t.nspace, t.name⟩ none, none) := by
  simp [updateTerminalOp, KState.popFault, hf, h, hc]

theorem updateTerminalOp_erase (s : KState) (t : Terminal) (t₀ : Terminal)
    (hf : s.faults = []) (h : s.terminals ⟨t.nspace, t.name⟩ = some t₀)
    (hd : t.deletionTimestamp.isSome = true) (hfin : t.finalizers = []) :
    updateTerminalOp s t =
      ({ s with terminals := s.terminals.erase ⟨t.nspace, t.name⟩ }.logged
        .updateTerminal ⟨t.nspace, t.name⟩ none, none) := by
  simp [updateTerminalOp, KState.popFault, hf, h, hd, hfin]

theorem updateUserOp_write (s : KState) (u : User) (u₀ : User)
    (hf : s.faults = []) (h : s.users ⟨u.nspace, u.name⟩ = some u₀)
    (hc : ¬(u.deletionTimestamp.isSome ∧ u.finalizers = [])) :
    updateUserOp s u =
      ({ s with users := s.users.insert ⟨u.nspace, u.name⟩ u }.logged
        .updateUser ⟨u.nspace, u.name⟩ none, none) := by
  simp [updateUserOp, KState.popFault, hf, h, hc]

theorem updateUserOp_erase (s : KState) (u : User) (u₀ : User)
    (hf : s.faults = []) (h : s.users ⟨u.nspace, u.name⟩ = some u₀)
    (hd : u.deletionTimestamp.isSome = true) (hfin : u.finalizers = []) :
    updateUserOp s u =
      ({ s with users := s.users.erase ⟨u.nspace, u.name⟩ }.logged
        .updateUser ⟨u.nspace, u.name⟩ none, none) := by
  simp [updateUserOp, KState.popFault, hf, h, hd, hfin]

/-- An empty cluster with an empty fault schedule and log; the base for
every concrete scenario. -/
def emptyState : KState :=
  { terminals := KMap.empty
    users := KMap.empty
    deployments := KMap.empty
    services := KMap.empty
    serviceAccounts := KMap.empty
    roles := KMap.empty
    roleBindings := KMap.empty
    faults := []
    log := [] }

/-! ## Per-op log equations: each store call appends exactly one entry whose
recorded result mirrors the op result. -/

def exceptErr {α : Type} : Except StoreErr α → Option StoreErr
  | .error e => some e
  | .ok _ => none

theorem getTerminalOp_log_eq (s : KState) (k : ObjKey) :
    ((getTerminalOp s k).1).log =
      s.log ++ [⟨OpKind.getTerminal, k, exceptErr (getTerminalOp s k).2⟩] := by
  rcases s with ⟨tm, um, dm, sm, am, rm, bm, _ | ⟨_ | e, rest⟩, lg⟩ <;>
    (simp only [getTerminalOp, KState.popFault, KState.logged, exceptErr]) <;>
    (repeat' split) <;> (try rfl) <;> simp_all

theorem getUserOp_log_eq (s : KState) (k : ObjKey) :
    ((getUserOp s k).1).log =
      s.log ++ [⟨OpKind.getUser, k, exceptErr (getUserOp s k).2⟩] := by
  rcases s with ⟨tm, um, dm, sm, am, rm, bm, _ | ⟨_ | e, rest⟩, lg⟩ <;>
    (simp only [getUserOp, KState.popFault, KState.logged, exceptErr]) <;>
    (repeat' split) <;> (try rfl) <;> simp_all

theorem createDeploymentOp_log_eq (s : KState) (d : Deployment) :
    ((createDeploymentOp s d).1).log =
      s.log ++ [⟨OpKind.createDeployment, ⟨d.nspace, d.name⟩,
        (createDeploymentOp s d).2⟩] := by
  rcases s with ⟨tm, um, dm, sm, am, rm, bm, _ | ⟨_ | e, rest⟩, lg⟩ <;>
    (simp only [createDeploymentOp, KState.popFault, KState.logged]) <;>
    (repeat' split) <;> (try rfl) <;> simp_all

theorem createServiceOp_log_eq (s : KState) (v : Service) :
    ((createServiceOp s v).1).log =
      s.log ++ [⟨OpKind.createService, ⟨v.nspace, v.name⟩,
        (createServiceOp s v).2⟩] := by
  rcases s with ⟨tm, um, dm, sm, am, rm, bm, _ | ⟨_ | e, rest⟩, lg⟩ <;>
    (simp only [createServiceOp, KState.popFault, KState.logged]) <;>
    (repeat' split) <;> (try rfl) <;> simp_all

theorem createServiceAccountOp_log_eq (s : KState) (a : ServiceAccount) :
    ((createServiceAccountOp s a).1).log =
      s.log ++ [⟨OpKind.createServiceAccount, ⟨a.nspace, a.name⟩,
        (createServiceAccountOp s a).2⟩] := by
  rcases s with ⟨tm, um, dm, sm, am, rm, bm, _ | ⟨_ | e, rest⟩, lg⟩ <;>
    (simp only [createServiceAccountOp, KState.popFault, KState.logged]) <;>
    (repeat' split) <;> (try rfl) <;> simp_all

theorem createRoleBindingOp_log_eq (s : KState) (b : RoleBinding) :
    ((createRoleBindingOp s b).1).log =
      s.log ++ [⟨OpKind.createRoleBinding, ⟨b.nspace, b.name⟩,
        (createRoleBindingOp s b).2⟩] := by
  rcases s with ⟨tm, um, dm, sm, am, rm, bm, _ | ⟨_ | e, rest⟩, lg⟩ <;>
    (simp only [createRoleBindingOp, KState.popFault, KState.logged]) <;>
    (repeat' split) <;> (try rfl) <;> simp_all

theorem deleteDeploymentOp_log_eq (s : KState) (d : Deployment) :
    ((deleteDeploymentOp s d).1).log =
      s.log ++ [⟨OpKind.deleteDeployment, ⟨d.nspace, d.name⟩,
        (deleteDeploymentOp s d).2⟩] := by
  rcases s with ⟨tm, um, dm, sm, am, rm, bm, _ | ⟨_ | e, rest⟩, lg⟩ <;>
    (simp only [deleteDeploymentOp, KState.popFault, KState.logged]) <;>
    (repeat' split) <;> (try rfl) <;> simp_all

theorem deleteServiceOp_log_eq (s : KState) (v : Service) :
    ((deleteServiceOp s v).1).log =
      s.log ++ [⟨OpKind.deleteService, ⟨v.nspace, v.name⟩,
        (deleteServiceOp s v).2⟩] := by
  rcases s with ⟨tm, um, dm, sm, am, rm, bm, _ | ⟨_ | e, rest⟩, lg⟩ <;>
    (simp only [deleteServiceOp, KState.popFault, KState.logged]) <;>
    (repeat' split) <;> (try rfl) <;> simp_all

theorem deleteServiceAccountOp_log_eq (s : KState) (a : ServiceAccount) :
    ((deleteServiceAccountOp s a).1).log =
      s.log ++ [⟨OpKind.deleteServiceAccount, ⟨a.nspace, a.name⟩,
        (deleteServiceAccountOp s a).2⟩] := by
  rcases s with ⟨tm, um, dm, sm, am, rm, bm, _ | ⟨_ | e, rest⟩, lg⟩ <;>
    (simp only [deleteServiceAccountOp, KState.popFault, KState.logged]) <;>
    (repeat' split) <;> (try rfl) <;> simp_all

theorem deleteRoleBindingOp_log_eq (s : KState) (b : RoleBinding) :
    ((deleteRoleBindingOp s b).1).log =
      s.log ++ [⟨OpKind.deleteRoleBinding, ⟨b.nspace, b.name⟩,
        (deleteRoleBindingOp s b).2⟩] := by
  rcases s with ⟨tm, um, dm, sm, am, rm, bm, _ | ⟨_ | e, rest⟩, lg⟩ <;>
    (simp only [deleteRoleBindingOp, KState.popFault, KState.logged]) <;>
    (repeat' split) <;> (try rfl) <;> simp_all

theorem updateTerminalOp_log_eq (s : KState) (t : Terminal) :
    ((updateTerminalOp s t).1).log =
      s.log ++ [⟨OpKind.updateTerminal, ⟨t.nspace, t.name⟩,
        (updateTerminalOp s t).2⟩] := by
  rcases s with ⟨tm, um, dm, sm, am, rm, bm, _ | ⟨_ | e, rest⟩, lg⟩ <;>
    (simp only [updateTerminalOp, KState.popFault, KState.logged]) <;>
    (repeat' split) <;> (try rfl) <;> simp_all

theorem updateUserOp_log_eq (s : KState) (u : User) :
    ((updateUserOp s u).1).log =
      s.log ++ [⟨OpKind.updateUser, ⟨u.nspace, u.name⟩,
        (updateUserOp s u).2⟩] := by
  rcases s with ⟨tm, um, dm, sm, am, rm, bm, _ | ⟨_ | e, rest⟩, lg⟩ <;>
    (simp only [updateUserOp, KState.popFault, KState.logged]) <;>
    (repeat' split) <;> (try rfl) <;> simp_all

/-! ## Claim C1 -/

/-- Claim C1: for every new Terminal with `spec.image I` (no deletion
timestamp, derived objects absent), one successful
`TerminalReconciler.Reconcile` leaves the store containing a Deployment and
a Service both named `marina-terminal-` + the Terminal's name in the
Terminal's namespace, where the Deployment's single container image equals
`I`, its replica count is 1, and the Service has exactly one TCP port 22
routed to a named target port. -/
theorem claim1_creation_converges (s : KState) (ns n : String) (t : Terminal)
    (hfaults : s.faults = [])
    (ht : s.terminals ⟨ns, n⟩ = some t)
    (hname : t.name = n) (hns : t.nspace = ns)
    (hdel : t.deletionTimestamp = none)
    (hdep : s.deployments ⟨ns, "marina-terminal-" ++ n⟩ = none)
    (hsvc : s.services ⟨ns, "marina-terminal-" ++ n⟩ = none) :
    (controller.TerminalReconciler.Reconcile s ⟨ns, n⟩).2.2 = none ∧
    (∃ d, (controller.TerminalReconciler.Reconcile s ⟨ns, n⟩).1.deployments
        ⟨ns, "marina-terminal-" ++ n⟩ = some d ∧
      d.replicas = 1 ∧ d.containers.map Container.image = [t.image]) ∧
    (∃ v, (controller.TerminalReconciler.Reconcile s ⟨ns, n⟩).1.services
        ⟨ns, "marina-terminal-" ++ n⟩ = some v ∧
      v.ports.map ServicePort.port = [22] ∧
      ∀ p ∈ v.ports, p.protocol = "TCP" ∧ ∃ nm, p.targetPort = IntOrString.str nm) := by
  subst hname hns
  rcases s with ⟨tm, um, dm, sm, am, rm, bm, fl, lg⟩
  simp only at hfaults ht hdep hsvc
  subst hfaults
  simp [controller.TerminalReconciler.Reconcile,
    controller.TerminalReconciler.reconcileDeployment,
    controller.TerminalReconciler.reconcileService,
    controller.deploymentForTerminal, controller.serviceForTerminal,
    getTerminalOp, createDeploymentOp, createServiceOp, updateTerminalOp,
    KState.popFault, KState.logged, ht, hdep, hsvc, hdel,
    ignoreAlreadyExists, ignoreNotFound, KMap.insert_self, KMap.insert]

def c1Terminal : Terminal :=
  { name := "terminal-test", nspace := "marina-system", image := "busybox:1.36",
    deletionTimestamp := none, finalizers := [] }

def c1State : KState :=
  { emptyState with
    terminals := KMap.empty.insert ⟨"marina-system", "terminal-test"⟩ c1Terminal }

theorem claim1_creation_converges_witness :
    c1State.terminals ⟨"marina-system", "terminal-test"⟩ = some c1Terminal ∧
    ((controller.TerminalReconciler.Reconcile c1State
        ⟨"marina-system", "terminal-test"⟩).2.2 = none ∧
    (∃ d, (controller.TerminalReconciler.Reconcile c1State
        ⟨"marina-system", "terminal-test"⟩).1.deployments
        ⟨"marina-system", "marina-terminal-" ++ "terminal-test"⟩ = some d ∧
      d.replicas = 1 ∧ d.containers.map Container.image = [c1Terminal.image]) ∧
    (∃ v, (controller.TerminalReconciler.Reconcile c1State
        ⟨"marina-system", "terminal-test"⟩).1.services
        ⟨"marina-system", "marina-terminal-" ++ "terminal-test"⟩ = some v ∧
      v.ports.map ServicePort.port = [22] ∧
      ∀ p ∈ v.ports, p.protocol = "TCP" ∧ ∃ nm, p.targetPort = IntOrString.str nm)) :=
  ⟨by decide,
    claim1_creation_converges c1State "marina-system" "terminal-test" c1Terminal
      rfl (by decide) rfl rfl rfl (by decide) (by decide)⟩

/-! ## Claim C2 -/

def c2Terminal : Terminal :=
  { name := "terminal-test", nspace := "marina-system", image := "busybox:1.36",
    deletionTimestamp := some 0,
    finalizers := [TerminalDeploymentFinalizer, TerminalServiceFinalizer] }

def c2State : KState :=
  { emptyState with
    terminals := KMap.empty.insert ⟨"marina-system", "terminal-test"⟩ c2Terminal }

/-- Claim C2 counterexample: a Terminal being deleted whose finalizer is
present while the Deployment is already gone.  `Delete` returns NotFound,
yet `Reconcile` returns a non-nil error and the stored Terminal keeps its
finalizers — NotFound on a derived delete is not treated as benign. -/
theorem claim2_counterexample :
    (controller.TerminalReconciler.Reconcile c2State
        ⟨"marina-system", "terminal-test"⟩).2.2 =
      some (RErr.wrapped "could not delete deployment" StoreErr.notFound) ∧
    (controller.TerminalReconciler.Reconcile c2State
        ⟨"marina-system", "terminal-test"⟩).1.terminals
        ⟨"marina-system", "terminal-test"⟩ = some c2Terminal := by
  constructor <;> decide

/-- Claim C2 amended: for every primary object carrying a deletion
timestamp and the relevant finalizer, if the store's Delete of the derived
object (Deployment, Service, ServiceAccount, or first-role RoleBinding)
returns NotFound, the reconcile function returns a non-nil error and
finalizer removal does not proceed (the in-memory object still carries the
finalizer). -/
theorem claim2_amended :
    (∀ (s : KState) (t : Terminal),
      s.faults = [] →
      t.deletionTimestamp.isSome = true →
      containsFinalizer t.finalizers TerminalDeploymentFinalizer = true →
      s.deployments ⟨t.nspace, "marina-terminal-" ++ t.name⟩ = none →
      (controller.TerminalReconciler.reconcileDeployment s t).2.2 =
          some (RErr.wrapped "could not delete deployment" StoreErr.notFound) ∧
        containsFinalizer
          (controller.TerminalReconciler.reconcileDeployment s t).2.1.finalizers
          TerminalDeploymentFinalizer = true) ∧
    (∀ (s : KState) (t : Terminal),
      s.faults = [] →
      t.deletionTimestamp.isSome = true →
      containsFinalizer t.finalizers TerminalServiceFinalizer = true →
      s.services ⟨t.nspace, "marina-terminal-" ++ t.name⟩ = none →
      (controller.TerminalReconciler.reconcileService s t).2.2 =
          some (RErr.wrapped "could not delete service" StoreErr.notFound) ∧
        containsFinalizer
          (controller.TerminalReconciler.reconcileService s t).2.1.finalizers
          TerminalServiceFinalizer = true) ∧
    (∀ (s : KState) (u : User),
      s.faults = [] →
      u.deletionTimestamp.isSome = true →
      containsFinalizer u.finalizers UserServiceAccountFinalizer = true →
      s.serviceAccounts ⟨u.nspace, u.name⟩ = none →
      (controller.UserReconciler.reconcileServiceAccount s u).2.2 =
          some (RErr.store StoreErr.notFound) ∧
        containsFinalizer
          (controller.UserReconciler.reconcileServiceAccount s u).2.1.finalizers
          UserServiceAccountFinalizer = true) ∧
    (∀ (s : KState) (u : User) (r : String) (rest : List String),
      s.faults = [] →
      u.roles = r :: rest →
      u.deletionTimestamp.isSome = true →
      containsFinalizer u.finalizers UserRoleBindingFinalizer = true →
      s.roleBindings ⟨u.nspace, u.name ++ "-" ++ r⟩ = none →
      (controller.UserReconciler.reconcileRoleBindings s u).2.2 =
          some (RErr.store StoreErr.notFound) ∧
        containsFinalizer
          (controller.UserReconciler.reconcileRoleBindings s u).2.1.finalizers
          UserRoleBindingFinalizer = true) := by
  refine ⟨?_, ?_, ?_, ?_⟩
  · intro s t hfaults hdel hfin habs
    rcases s with ⟨tm, um, dm, sm, am, rm, bm, fl, lg⟩
    simp only at hfaults habs
    subst hfaults
    simp [controller.TerminalReconciler.reconcileDeployment,
      controller.deploymentForTerminal, deleteDeploymentOp,
      KState.popFault, KState.logged, hdel, hfin, habs]
  · intro s t hfaults hdel hfin habs
    rcases s with ⟨tm, um, dm, sm, am, rm, bm, fl, lg⟩
    simp only at hfaults habs
    subst hfaults
    simp [controller.TerminalReconciler.reconcileService,
      controller.serviceForTerminal, deleteServiceOp,
      KState.popFault, KState.logged, hdel, hfin, habs]
  · intro s u hfaults hdel hfin habs
    rcases s with ⟨tm, um, dm, sm, am, rm, bm, fl, lg⟩
    simp only at hfaults habs
    subst hfaults
    simp [controller.UserReconciler.reconcileServiceAccount,
      controller.serviceAccountForUser, deleteServiceAccountOp,
      KState.popFault, KState.logged, hdel, hfin, habs]
  · intro s u r rest hfaults hroles hdel hfin habs
    rcases s with ⟨tm, um, dm, sm, am, rm, bm, fl, lg⟩
    simp only at hfaults habs
    subst hfaults
    simp [controller.UserReconciler.reconcileRoleBindings,
      controller.UserReconciler.roleBindingLoop,
      controller.userRoleBindingForRole, deleteRoleBindingOp,
      KState.popFault, KState.logged, hdel, hfin, habs, hroles]

def c2User : User :=
  { name := "user-test", nspace := "marina-system", roles := ["SomeRole"],
    deletionTimestamp := some 0,
    finalizers := [UserServiceAccountFinalizer, UserRoleBindingFinalizer] }

def c2UserState : KState :=
  { emptyState with
    users := KMap.empty.insert ⟨"marina-system", "user-test"⟩ c2User }

theorem claim2_amended_witness :
    ((controller.TerminalReconciler.reconcileDeployment c2State c2Terminal).2.2 =
        some (RErr.wrapped "could not delete deployment" StoreErr.notFound) ∧
      containsFinalizer
        (controller.TerminalReconciler.reconcileDeployment c2State c2Terminal).2.1.finalizers
        TerminalDeploymentFinalizer = true) ∧
    ((controller.TerminalReconciler.reconcileService c2State c2Terminal).2.2 =
        some (RErr.wrapped "could not delete service" StoreErr.notFound) ∧
      containsFinalizer
        (controller.TerminalReconciler.reconcileService c2State c2Terminal).2.1.finalizers
        TerminalServiceFinalizer = true) ∧
    ((controller.UserReconciler.reconcileServiceAccount c2UserState c2User).2.2 =
        some (RErr.store StoreErr.notFound) ∧
      containsFinalizer
        (controller.UserReconciler.reconcileServiceAccount c2UserState c2User).2.1.finalizers
        UserServiceAccountFinalizer = true) ∧
    ((controller.UserReconciler.reconcileRoleBindings c2UserState c2User).2.2 =
        some (RErr.store StoreErr.notFound) ∧
      containsFinalizer
        (controller.UserReconciler.reconcileRoleBindings c2UserState c2User).2.1.finalizers
        UserRoleBindingFinalizer = true) :=
  ⟨claim2_amended.1 c2State c2Terminal rfl (by decide) (by decide) (by decide),
    claim2_amended.2.1 c2State c2Terminal rfl (by decide) (by decide) (by decide),
    claim2_amended.2.2.1 c2UserState c2User rfl (by decide) (by decide) (by decide),
    claim2_amended.2.2.2 c2UserState c2User "SomeRole" [] rfl rfl (by decide)
      (by decide) (by decide)⟩

/-! ## Claim C4 -/

/-- Helper for C4: on the create path of the legacy role-binding loop, if
any role in the list has no Role object, the loop returns the wrapped
`role does not exist` error. -/
theorem roleBindingssLoop_missing_role (roles : List String) :
    ∀ (s : KState) (u : User),
      s.faults = [] →
      (∃ r ∈ roles, s.roles ⟨u.nspace, r⟩ = none) →
      (controllers.UserReconciler.roleBindingssLoop s u false roles).2.2 =
        some (RErr.wrapped "role does not exist" StoreErr.notFound) := by
  induction roles with
  | nil =>
    rintro s u hf ⟨r, hr, _⟩
    cases hr
  | cons a as ih =>
    rintro s u hf ⟨r, hr, habs⟩
    simp only [controllers.UserReconciler.roleBindingssLoop, Bool.false_eq_true,
      if_false]
    cases hA : s.roles ⟨u.nspace, a⟩ with
    | none =>
      rw [getRoleOp_missing s _ hf hA]
    | some ra =>
      have hr' : r ∈ as := by
        rcases List.mem_cons.mp hr with rfl | h
        · rw [hA] at habs; cases habs
        · exact h
      set s₁ := s.logged .getRole ⟨u.nspace, a⟩ none with hs₁
      have hf₁ : s₁.faults = [] := by simp [hs₁, KState.logged, hf]
      set bk : ObjKey := ⟨(controllers.desiredRoleBindingForRole u a).nspace,
        (controllers.desiredRoleBindingForRole u a).name⟩ with hbk
      cases hB : s₁.roleBindings bk with
      | some b =>
        simp only [getRoleOp_found s _ ra hf hA,
          getRoleBindingOp_found s₁ bk b hf₁ hB]
        exact ih _ _ (by simp [KState.logged, hf₁])
          ⟨r, hr', by simp [hs₁, KState.logged, habs]⟩
      | none =>
        set s₂ := s₁.logged .getRoleBinding bk (some .notFound) with hs₂
        have hf₂ : s₂.faults = [] := by simp [hs₂, KState.logged, hf₁]
        have habs₂ : s₂.roleBindings
            ⟨(controllers.desiredRoleBindingForRole u a).nspace,
              (controllers.desiredRoleBindingForRole u a).name⟩ = none := by
          simpa [hs₂, KState.logged] using hB
        simp only [getRoleOp_found s _ ra hf hA,
          getRoleBindingOp_missing s₁ bk hf₁ hB,
          createRoleBindingOp_absent s₂ (controllers.desiredRoleBindingForRole u a)
            hf₂ habs₂]
        exact ih _ _ (by simp [KState.logged, hf₂])
          ⟨r, hr', by simp [hs₂, hs₁, KState.logged, KMap.insert, habs]⟩

/-- Helper for C4: the legacy service-account step always succeeds on an
honest store when the user is not being deleted, touching neither the
`users` nor the `roles` map nor the user's identity and role list. -/
theorem old_reconcileServiceAccount_ok (s : KState) (u : User)
    (hf : s.faults = []) (hdel : u.deletionTimestamp = none) :
    ∃ s₂ u₁, controllers.UserReconciler.reconcileServiceAccount s u = (s₂, u₁, none) ∧
      s₂.faults = [] ∧ s₂.roles = s.roles ∧ s₂.users = s.users ∧
      u₁.nspace = u.nspace ∧ u₁.roles = u.roles ∧
      u₁.deletionTimestamp = none := by
  simp only [controllers.UserReconciler.reconcileServiceAccount,
    controllers.desiredServiceAccountForUser, hdel, Option.isSome_none,
    Bool.false_eq_true, if_false]
  cases hsa : s.serviceAccounts ⟨u.nspace, "user-" ++ u.name⟩ with
  | some a =>
    simp only [getServiceAccountOp_found s _ a hf hsa]
    exact ⟨_, _, rfl, by simp [KState.logged, hf], by simp [KState.logged],
      by simp [KState.logged], rfl, rfl, hdel⟩
  | none =>
    set k : ObjKey := ⟨u.nspace, "user-" ++ u.name⟩ with hk
    set s₁ := s.logged .getServiceAccount k (some .notFound) with hs₁
    have hf₁ : s₁.faults = [] := by simp [hs₁, KState.logged, hf]
    have habs₁ : s₁.serviceAccounts
        ⟨({ name := "user-" ++ u.name, nspace := u.nspace } : ServiceAccount).nspace,
          ({ name := "user-" ++ u.name, nspace := u.nspace } : ServiceAccount).name⟩ =
        none := by
      simpa [hs₁, KState.logged] using hsa
    simp only [getServiceAccountOp_missing s k hf hsa,
      createServiceAccountOp_absent s₁
        { name := "user-" ++ u.name, nspace := u.nspace } hf₁ habs₁]
    exact ⟨_, _, rfl, by simp [KState.logged, hf₁],
      by simp [hs₁, KState.logged], by simp [hs₁, KState.logged], rfl, rfl, rfl⟩

def c4User : User :=
  { name := "user-test", nspace := "marina-system", roles := ["missing"],
    deletionTimestamp := none, finalizers := [] }

def c4State : KState :=
  { emptyState with
    users := KMap.empty.insert ⟨"marina-system", "user-test"⟩ c4User }

/-- Claim C4 counterexample: the `internal/controller`
`UserReconciler.reconcileRoleBindings` create path never checks that the
referenced Role exists.  For a User whose only role has no Role object,
`Reconcile` succeeds, the binding is created anyway, and no Role `Get` is
ever issued. -/
theorem claim4_counterexample :
    (controller.UserReconciler.Reconcile c4State
        ⟨"marina-system", "user-test"⟩).2.2 = none ∧
    ((controller.UserReconciler.Reconcile c4State
        ⟨"marina-system", "user-test"⟩).1.roleBindings
        ⟨"marina-system", "user-test-missing"⟩).isSome = true ∧
    ((controller.UserReconciler.Reconcile c4State
        ⟨"marina-system", "user-test"⟩).1.log.filter
        (fun en => en.op == OpKind.getRole)).length = 0 := by
  refine ⟨?_, ?_, ?_⟩ <;> decide

/-- Claim C4 amended: only the legacy `controllers` package verifies roles:
on the create/update path of the legacy `UserReconciler.reconcileRoleBindingss`
(and hence of the legacy `Reconcile`), a role in `user.spec.roles` whose
Role object is absent makes the pass abort with a fatal error whose message
is `role does not exist`; the `internal/controller` reconciler performs no
such check. -/
theorem claim4_amended :
    (∀ (s : KState) (u : User) (r : String),
      s.faults = [] → u.deletionTimestamp = none →
      r ∈ u.roles → s.roles ⟨u.nspace, r⟩ = none →
      (controllers.UserReconciler.reconcileRoleBindingss s u).2.2 =
        some (RErr.wrapped "role does not exist" StoreErr.notFound)) ∧
    (∀ (s : KState) (ns n : String) (u : User) (r : String),
      s.faults = [] → s.users ⟨ns, n⟩ = some u → u.deletionTimestamp = none →
      r ∈ u.roles → s.roles ⟨u.nspace, r⟩ = none →
      (controllers.UserReconciler.Reconcile s ⟨ns, n⟩).2.2 =
        some (RErr.wrapped "role does not exist" StoreErr.notFound)) := by
  have hrb : ∀ (s : KState) (u : User) (r : String),
      s.faults = [] → u.deletionTimestamp = none →
      r ∈ u.roles → s.roles ⟨u.nspace, r⟩ = none →
      (controllers.UserReconciler.reconcileRoleBindingss s u).2.2 =
        some (RErr.wrapped "role does not exist" StoreErr.notFound) := by
    intro s u r hf hdel hmem habs
    have hloop := roleBindingssLoop_missing_role u.roles s u hf ⟨r, hmem, habs⟩
    simp only [controllers.UserReconciler.reconcileRoleBindingss, hdel,
      Option.isSome_none, Bool.false_eq_true, if_false]
    rcases hl : controllers.UserReconciler.roleBindingssLoop s u false u.roles
      with ⟨s₁, u₁, e⟩
    rw [hl] at hloop
    simp only at hloop
    subst hloop
    simp
  refine ⟨hrb, ?_⟩
  intro s ns n u r hf hu hdel hmem habs
  simp only [controllers.UserReconciler.Reconcile, getUserOp_found s _ u hf hu]
  obtain ⟨s₂, u₁, hsa, hf₂, hroles₂, husers₂, hns₁, hroles₁, hdel₁⟩ :=
    old_reconcileServiceAccount_ok (s.logged .getUser ⟨ns, n⟩ none) u
      (by simp [KState.logged, hf]) hdel
  simp only [hsa]
  have hrb₂ := hrb s₂ u₁ r hf₂ hdel₁
    (by rw [hroles₁]; exact hmem)
    (by rw [hns₁, hroles₂]; simpa [KState.logged] using habs)
  rcases hl : controllers.UserReconciler.reconcileRoleBindingss s₂ u₁
    with ⟨s₃, u₂, e⟩
  rw [hl] at hrb₂
  simp only at hrb₂
  subst hrb₂
  simp

theorem claim4_amended_witness :
    (controllers.UserReconciler.reconcileRoleBindingss c4State c4User).2.2 =
      some (RErr.wrapped "role does not exist" StoreErr.notFound) ∧
    (controllers.UserReconciler.Reconcile c4State
        ⟨"marina-system", "user-test"⟩).2.2 =
      some (RErr.wrapped "role does not exist" StoreErr.notFound) :=
  ⟨claim4_amended.1 c4State c4User "missing" rfl rfl (by decide) (by decide),
    claim4_amended.2 c4State "marina-system" "user-test" c4User "missing"
      rfl (by decide) rfl (by decide) (by decide)⟩

/-! ## Claim C5 -/

def c5User : User :=
  { name := "user-test", nspace := "marina-system", roles := ["A", "missing", "B"],
    deletionTimestamp := none, finalizers := [] }

def c5RoleMap : KMap Role :=
  (KMap.empty.insert ⟨"marina-system", "A"⟩ ⟨"A", "marina-system"⟩).insert
    ⟨"marina-system", "B"⟩ ⟨"B", "marina-system"⟩

def c5StateNew : KState :=
  { emptyState with
    users := KMap.empty.insert ⟨"marina-system", "user-test"⟩ c5User
    roles := c5RoleMap }

/-- Claim C5 counterexample: on the `internal/controller` reconciler the
scenario fails at its first step: with roles `["A", "missing", "B"]` and no
Role `missing`, `Reconcile` returns no error (instead of the claimed
error) and even creates the binding for `missing`. -/
theorem claim5_counterexample :
    (controller.UserReconciler.Reconcile c5StateNew
        ⟨"marina-system", "user-test"⟩).2.2 = none ∧
    ((controller.UserReconciler.Reconcile c5StateNew
        ⟨"marina-system", "user-test"⟩).1.roleBindings
        ⟨"marina-system", "user-test-missing"⟩).isSome = true := by
  constructor <;> decide

def c5StateOld : KState :=
  { emptyState with
    users := KMap.empty.insert ⟨"marina-system", "user-test"⟩ c5User
    roles := c5RoleMap }

def c5Run1 : KState × CtrlResult × Option RErr :=
  controllers.UserReconciler.Reconcile c5StateOld ⟨"marina-system", "user-test"⟩

def c5StateMid : KState :=
  { c5Run1.1 with
    roles := c5Run1.1.roles.insert ⟨"marina-system", "missing"⟩
      ⟨"missing", "marina-system"⟩ }

def c5Run2 : KState × CtrlResult × Option RErr :=
  controllers.UserReconciler.Reconcile c5StateMid ⟨"marina-system", "user-test"⟩

/-- Claim C5 amended: for the legacy `controllers` package `UserReconciler`,
with `spec.roles = ["A", "missing", "B"]` where Roles `A` and `B` exist and
`missing` does not, `Reconcile` returns the `role does not exist` error with
the binding for `A` created and the binding for `B` absent; after Role
`missing` is created, a second `Reconcile` succeeds, creates the bindings
for `missing` and `B`, leaves `A`'s binding unchanged, and issues exactly
one create for `A` across both passes. -/
theorem claim5_amended_legacy :
    c5Run1.2.2 = some (RErr.wrapped "role does not exist" StoreErr.notFound) ∧
    (c5Run1.1.roleBindings ⟨"marina-system", "user-user-test-A"⟩).isSome = true ∧
    c5Run1.1.roleBindings ⟨"marina-system", "user-user-test-B"⟩ = none ∧
    c5Run2.2.2 = none ∧
    (c5Run2.1.roleBindings ⟨"marina-system", "user-user-test-missing"⟩).isSome = true ∧
    (c5Run2.1.roleBindings ⟨"marina-system", "user-user-test-B"⟩).isSome = true ∧
    c5Run2.1.roleBindings ⟨"marina-system", "user-user-test-A"⟩ =
      c5Run1.1.roleBindings ⟨"marina-system", "user-user-test-A"⟩ ∧
    (c5Run2.1.log.filter (fun en =>
        en.op == OpKind.createRoleBinding &&
        en.key == (⟨"marina-system", "user-user-test-A"⟩ : ObjKey))).length = 1 := by
  refine ⟨?_, ?_, ?_, ?_, ?_, ?_, ?_, ?_⟩ <;> decide


/-! ## Claim C6 -/

/-- Helper for C6 and C9: neither branch of the terminal deployment step
writes the `terminals` map. -/
theorem reconcileDeployment_terminals (s : KState) (t : Terminal) :
    ((controller.TerminalReconciler.reconcileDeployment s t).1).terminals =
      s.terminals := by
  rcases s with ⟨tm, um, dm, sm, am, rm, bm, _ | ⟨_ | e, rest⟩, lg⟩ <;>
    (simp only [controller.TerminalReconciler.reconcileDeployment,
      deleteDeploymentOp, createDeploymentOp, KState.popFault, KState.logged]) <;>
    (repeat' split) <;>
    (try rfl) <;>
    (rename_i heq; split at heq <;>
      (injection heq with h1 h2; first | (subst h1; rfl) | simp at h2))

theorem reconcileService_terminals (s : KState) (t : Terminal) :
    ((controller.TerminalReconciler.reconcileService s t).1).terminals =
      s.terminals := by
  rcases s with ⟨tm, um, dm, sm, am, rm, bm, _ | ⟨_ | e, rest⟩, lg⟩ <;>
    (simp only [controller.TerminalReconciler.reconcileService,
      deleteServiceOp, createServiceOp, KState.popFault, KState.logged]) <;>
    (repeat' split) <;>
    (try rfl) <;>
    (rename_i heq; split at heq <;>
      (injection heq with h1 h2; first | (subst h1; rfl) | simp at h2))

theorem reconcileServiceAccount_users (s : KState) (u : User) :
    ((controller.UserReconciler.reconcileServiceAccount s u).1).users =
      s.users := by
  rcases s with ⟨tm, um, dm, sm, am, rm, bm, _ | ⟨_ | e, rest⟩, lg⟩ <;>
    (simp only [controller.UserReconciler.reconcileServiceAccount,
      deleteServiceAccountOp, createServiceAccountOp, KState.popFault,
      KState.logged]) <;>
    (repeat' split) <;>
    (try rfl) <;>
    (rename_i heq; split at heq <;>
      (injection heq with h1 h2; first | (subst h1; rfl) | simp at h2))

end Marina

namespace Marina

theorem roleBindingLoop_users (roles : List String) :
    ∀ (s : KState) (u : User) (d : Bool),
      ((controller.UserReconciler.roleBindingLoop s u d roles).1).users =
        s.users := by
  induction roles with
  | nil => intro s u d; rfl
  | cons a as ih =>
    intro s u d
    simp only [controller.UserReconciler.roleBindingLoop]
    split
    · split
      · obtain ⟨en, m, hs⟩ :=
          deleteRoleBindingOp_state s (controller.userRoleBindingForRole u a)
        rcases heq : deleteRoleBindingOp s (controller.userRoleBindingForRole u a)
          with ⟨s₁, res⟩
        rw [heq] at hs
        simp only at hs
        cases res with
        | some e => simp [hs]
        | none => rw [ih]; simp [hs]
      · exact ih s u d
    · obtain ⟨en, m, hs⟩ :=
        createRoleBindingOp_state s (controller.userRoleBindingForRole u a)
      rcases heq : createRoleBindingOp s (controller.userRoleBindingForRole u a)
        with ⟨s₁, res⟩
      rw [heq] at hs
      simp only at hs
      cases res with
      | some e => simp [hs]
      | none => rw [ih]; simp [hs]

theorem reconcileRoleBindings_users (s : KState) (u : User) :
    ((controller.UserReconciler.reconcileRoleBindings s u).1).users =
      s.users := by
  unfold controller.UserReconciler.reconcileRoleBindings
  set u₁ := if u.deletionTimestamp.isSome then u
    else { u with finalizers := addFinalizer u.finalizers UserRoleBindingFinalizer }
    with hu₁
  have hloop := roleBindingLoop_users u₁.roles s u₁ u.deletionTimestamp.isSome
  rcases hl : controller.UserReconciler.roleBindingLoop s u₁
      u.deletionTimestamp.isSome u₁.roles with ⟨s₁, e⟩
  rw [hl] at hloop
  simp only at hloop
  simp only [hl]
  cases e with
  | some e => simp [hloop]
  | none =>
    split
    · rename_i heq
      injection heq with h1 h2
      exact absurd h2 (by simp)
    · rename_i heq
      injection heq with h1 h2
      subst h1
      split <;> simp [hloop]

end Marina

namespace Marina


end Marina

namespace Marina



/-- Claim C6: whenever a reconcile pass of the `internal/controller`
reconcilers returns an error (in particular when it fails at a
derived-object create/update/delete step), the primary object's map — and
hence its persisted finalizer list — is exactly what it was before the
pass: the in-memory finalizer mutations are only written back by the final
`Update`, which runs only when every prior step succeeded. -/
theorem claim6_error_leaves_primary_untouched (s : KState) (req : Request) :
    (∀ e, (controller.TerminalReconciler.Reconcile s req).2.2 = some e →
      (controller.TerminalReconciler.Reconcile s req).1.terminals = s.terminals) ∧
    (∀ e, (controller.UserReconciler.Reconcile s req).2.2 = some e →
      (controller.UserReconciler.Reconcile s req).1.users = s.users) := by
  constructor
  · intro e he
    unfold controller.TerminalReconciler.Reconcile at he ⊢
    obtain ⟨en, hg⟩ := getTerminalOp_state s ⟨req.nspace, req.name⟩
    rcases hget : getTerminalOp s ⟨req.nspace, req.name⟩ with ⟨s₁, res⟩
    rw [hget] at hg he
    simp only at hg
    cases res with
    | error e₁ => simp [hg]
    | ok t =>
      simp only at he ⊢
      have hd := reconcileDeployment_terminals s₁ t
      rcases hdep : controller.TerminalReconciler.reconcileDeployment s₁ t
        with ⟨s₂, t₁, e₂⟩
      rw [hdep] at hd he
      simp only at hd
      cases e₂ with
      | some e₂ => simp [hd, hg]
      | none =>
        simp only at he ⊢
        have hv := reconcileService_terminals s₂ t₁
        rcases hsvc : controller.TerminalReconciler.reconcileService s₂ t₁
          with ⟨s₃, t₂, e₃⟩
        rw [hsvc] at hv he
        simp only at hv
        cases e₃ with
        | some e₃ => simp [hv, hd, hg]
        | none =>
          simp only at he ⊢
          rcases hup : updateTerminalOp s₃ t₂ with ⟨s₄, r₄⟩
          rw [hup] at he
          cases r₄ with
          | some e₄ =>
            have h4 := updateTerminalOp_error_terminals s₃ t₂ (by rw [hup]; rfl)
            rw [hup] at h4
            simp only at h4
            simp [h4, hv, hd, hg]
          | none => simp at he
  · intro e he
    unfold controller.UserReconciler.Reconcile at he ⊢
    obtain ⟨en, hg⟩ := getUserOp_state s ⟨req.nspace, req.name⟩
    rcases hget : getUserOp s ⟨req.nspace, req.name⟩ with ⟨s₁, res⟩
    rw [hget] at hg he
    simp only at hg
    cases res with
    | error e₁ => simp [hg]
    | ok u =>
      simp only at he ⊢
      have hd := reconcileServiceAccount_users s₁ u
      rcases hsa : controller.UserReconciler.reconcileServiceAccount s₁ u
        with ⟨s₂, u₁, e₂⟩
      rw [hsa] at hd he
      simp only at hd
      cases e₂ with
      | some e₂ => simp [hd, hg]
      | none =>
        simp only at he ⊢
        have hv := reconcileRoleBindings_users s₂ u₁
        rcases hrb : controller.UserReconciler.reconcileRoleBindings s₂ u₁
          with ⟨s₃, u₂, e₃⟩
        rw [hrb] at hv he
        simp only at hv
        cases e₃ with
        | some e₃ => simp [hv, hd, hg]
        | none =>
          simp only at he ⊢
          rcases hup : updateUserOp s₃ u₂ with ⟨s₄, r₄⟩
          rw [hup] at he
          cases r₄ with
          | some e₄ =>
            have h4 := updateUserOp_error_users s₃ u₂ (by rw [hup]; rfl)
            rw [hup] at h4
            simp only at h4
            simp [h4, hv, hd, hg]
          | none => simp at he

def c6Terminal : Terminal :=
  { name := "terminal-test", nspace := "marina-system", image := "busybox:1.36",
    deletionTimestamp := some 0, finalizers := [TerminalDeploymentFinalizer] }

def c6State : KState :=
  { emptyState with
    terminals := KMap.empty.insert ⟨"marina-system", "terminal-test"⟩ c6Terminal }

def c6User : User :=
  { name := "user-test", nspace := "marina-system", roles := [],
    deletionTimestamp := some 0, finalizers := [UserServiceAccountFinalizer] }

def c6UserState : KState :=
  { emptyState with
    users := KMap.empty.insert ⟨"marina-system", "user-test"⟩ c6User }

theorem claim6_error_leaves_primary_untouched_witness :
    (controller.TerminalReconciler.Reconcile c6State
        ⟨"marina-system", "terminal-test"⟩).1.terminals = c6State.terminals ∧
    (controller.UserReconciler.Reconcile c6UserState
        ⟨"marina-system", "user-test"⟩).1.users = c6UserState.users :=
  ⟨(claim6_error_leaves_primary_untouched c6State ⟨"marina-system", "terminal-test"⟩).1
      (RErr.wrapped "could not delete deployment" StoreErr.notFound) (by decide),
    (claim6_error_leaves_primary_untouched c6UserState ⟨"marina-system", "user-test"⟩).2
      (RErr.store StoreErr.notFound) (by decide)⟩


/-! ## Claim C7 -/

theorem KMap.erase_self {V : Type} (m : KMap V) (k : ObjKey) :
    (m.erase k) k = none := by
  simp [KMap.erase]

theorem reconcileDeployment_skip (s : KState) (t : Terminal)
    (hd : t.deletionTimestamp.isSome = true)
    (hc : containsFinalizer t.finalizers TerminalDeploymentFinalizer = false) :
    controller.TerminalReconciler.reconcileDeployment s t = (s, t, none) := by
  simp [controller.TerminalReconciler.reconcileDeployment, hd, hc]

theorem reconcileService_skip (s : KState) (t : Terminal)
    (hd : t.deletionTimestamp.isSome = true)
    (hc : containsFinalizer t.finalizers TerminalServiceFinalizer = false) :
    controller.TerminalReconciler.reconcileService s t = (s, t, none) := by
  simp [controller.TerminalReconciler.reconcileService, hd, hc]

theorem reconcileDeployment_deleting_ok_no_finalizer (s : KState) (t : Terminal)
    (hd : t.deletionTimestamp.isSome = true)
    (he : (controller.TerminalReconciler.reconcileDeployment s t).2.2 = none) :
    containsFinalizer
      (controller.TerminalReconciler.reconcileDeployment s t).2.1.finalizers
      TerminalDeploymentFinalizer = false := by
  unfold controller.TerminalReconciler.reconcileDeployment at he ⊢
  simp only [hd, if_true] at he ⊢
  by_cases hc : containsFinalizer t.finalizers TerminalDeploymentFinalizer
  · simp only [hc, if_true] at he ⊢
    rcases hdel : deleteDeploymentOp s (controller.deploymentForTerminal t)
      with ⟨s₁, r⟩
    rw [hdel] at he
    cases r with
    | some e => exact Option.noConfusion he
    | none => exact removeFinalizer_not_contains t.finalizers _
  · simp only [hc, if_false] at he ⊢
    simp [Bool.not_eq_true] at hc
    simp [hc]

theorem reconcileService_deleting_ok_no_finalizer (s : KState) (t : Terminal)
    (hd : t.deletionTimestamp.isSome = true)
    (he : (controller.TerminalReconciler.reconcileService s t).2.2 = none) :
    containsFinalizer
      (controller.TerminalReconciler.reconcileService s t).2.1.finalizers
      TerminalServiceFinalizer = false ∧
    containsFinalizer
      (controller.TerminalReconciler.reconcileService s t).2.1.finalizers
      TerminalDeploymentFinalizer =
      containsFinalizer t.finalizers TerminalDeploymentFinalizer := by
  unfold controller.TerminalReconciler.reconcileService at he ⊢
  simp only [hd, if_true] at he ⊢
  by_cases hc : containsFinalizer t.finalizers TerminalServiceFinalizer
  · simp only [hc, if_true] at he ⊢
    rcases hdel : deleteServiceOp s (controller.serviceForTerminal t) with ⟨s₁, r⟩
    rw [hdel] at he
    cases r with
    | some e => exact Option.noConfusion he
    | none =>
      constructor
      · exact removeFinalizer_not_contains t.finalizers _
      · exact removeFinalizer_contains_other t.finalizers _ _ (by decide)
  · simp only [hc, if_false] at he ⊢
    simp only [Bool.not_eq_true] at hc
    exact ⟨hc, rfl⟩

theorem reconcileDeployment_meta (s : KState) (t : Terminal) :
    (controller.TerminalReconciler.reconcileDeployment s t).2.1.name = t.name ∧
    (controller.TerminalReconciler.reconcileDeployment s t).2.1.nspace = t.nspace ∧
    (controller.TerminalReconciler.reconcileDeployment s t).2.1.deletionTimestamp =
      t.deletionTimestamp := by
  unfold controller.TerminalReconciler.reconcileDeployment
  rcases hdel : deleteDeploymentOp s (controller.deploymentForTerminal t) with ⟨s₁, _ | e⟩ <;>
    (repeat' split) <;> simp [hdel]

theorem reconcileService_meta (s : KState) (t : Terminal) :
    (controller.TerminalReconciler.reconcileService s t).2.1.name = t.name ∧
    (controller.TerminalReconciler.reconcileService s t).2.1.nspace = t.nspace ∧
    (controller.TerminalReconciler.reconcileService s t).2.1.deletionTimestamp =
      t.deletionTimestamp := by
  unfold controller.TerminalReconciler.reconcileService
  rcases hdel : deleteServiceOp s (controller.serviceForTerminal t) with ⟨s₁, _ | e⟩ <;>
    (repeat' split) <;> simp [hdel]

theorem updateTerminalOp_ok_lookup (s : KState) (t : Terminal)
    (he : (updateTerminalOp s t).2 = none) :
    ((updateTerminalOp s t).1).terminals ⟨t.nspace, t.name⟩ = none ∨
    ((updateTerminalOp s t).1).terminals ⟨t.nspace, t.name⟩ = some t := by
  rcases s with ⟨tm, um, dm, sm, am, rm, bm, _ | ⟨_ | e, rest⟩, lg⟩ <;>
    (simp only [updateTerminalOp, KState.popFault, KState.logged] at he ⊢) <;>
    (repeat' split) <;>
    simp_all [KMap.erase_self, KMap.insert_self, KMap.erase, KMap.insert]

theorem getTerminalOp_ok_eq (s : KState) (k : ObjKey) (t : Terminal)
    (h : (getTerminalOp s k).2 = .ok t) : s.terminals k = some t := by
  rcases s with ⟨tm, um, dm, sm, am, rm, bm, _ | ⟨_ | e, rest⟩, lg⟩ <;>
    (simp only [getTerminalOp, KState.popFault, KState.logged] at h ⊢) <;>
    (repeat' split at h) <;> simp_all

theorem getTerminalOp_log_ops (s : KState) (k : ObjKey) :
    ∀ en ∈ ((getTerminalOp s k).1).log, en ∈ s.log ∨ en.op = OpKind.getTerminal := by
  rcases s with ⟨tm, um, dm, sm, am, rm, bm, _ | ⟨_ | e, rest⟩, lg⟩ <;>
    (simp only [getTerminalOp, KState.popFault, KState.logged]) <;>
    (repeat' split) <;>
    (intro en hen; simp only [List.mem_append, List.mem_singleton] at hen;
      rcases hen with h | rfl; exacts [Or.inl h, Or.inr rfl])

theorem updateTerminalOp_log_ops (s : KState) (t : Terminal) :
    ∀ en ∈ ((updateTerminalOp s t).1).log,
      en ∈ s.log ∨ en.op = OpKind.updateTerminal := by
  rcases s with ⟨tm, um, dm, sm, am, rm, bm, _ | ⟨_ | e, rest⟩, lg⟩ <;>
    (simp only [updateTerminalOp, KState.popFault, KState.logged]) <;>
    (repeat' split) <;>
    (intro en hen; simp only [List.mem_append, List.mem_singleton] at hen;
      rcases hen with h | rfl; exacts [Or.inl h, Or.inr rfl])

theorem deleteDeploymentOp_log (s : KState) (d : Deployment) :
    ∀ en ∈ ((deleteDeploymentOp s d).1).log,
      en ∈ s.log ∨ en.op = OpKind.deleteDeployment := by
  rcases s with ⟨tm, um, dm, sm, am, rm, bm, _ | ⟨_ | e, rest⟩, lg⟩ <;>
    (simp only [deleteDeploymentOp, KState.popFault, KState.logged]) <;>
    (repeat' split) <;>
    (intro en hen; simp only [List.mem_append, List.mem_singleton] at hen;
      rcases hen with h | rfl; exacts [Or.inl h, Or.inr rfl])

theorem createDeploymentOp_log (s : KState) (d : Deployment) :
    ∀ en ∈ ((createDeploymentOp s d).1).log,
      en ∈ s.log ∨ en.op = OpKind.createDeployment := by
  rcases s with ⟨tm, um, dm, sm, am, rm, bm, _ | ⟨_ | e, rest⟩, lg⟩ <;>
    (simp only [createDeploymentOp, KState.popFault, KState.logged]) <;>
    (repeat' split) <;>
    (intro en hen; simp only [List.mem_append, List.mem_singleton] at hen;
      rcases hen with h | rfl; exacts [Or.inl h, Or.inr rfl])

theorem deleteServiceOp_log (s : KState) (v : Service) :
    ∀ en ∈ ((deleteServiceOp s v).1).log,
      en ∈ s.log ∨ en.op = OpKind.deleteService := by
  rcases s with ⟨tm, um, dm, sm, am, rm, bm, _ | ⟨_ | e, rest⟩, lg⟩ <;>
    (simp only [deleteServiceOp, KState.popFault, KState.logged]) <;>
    (repeat' split) <;>
    (intro en hen; simp only [List.mem_append, List.mem_singleton] at hen;
      rcases hen with h | rfl; exacts [Or.inl h, Or.inr rfl])

theorem createServiceOp_log (s : KState) (v : Service) :
    ∀ en ∈ ((createServiceOp s v).1).log,
      en ∈ s.log ∨ en.op = OpKind.createService := by
  rcases s with ⟨tm, um, dm, sm, am, rm, bm, _ | ⟨_ | e, rest⟩, lg⟩ <;>
    (simp only [createServiceOp, KState.popFault, KState.logged]) <;>
    (repeat' split) <;>
    (intro en hen; simp only [List.mem_append, List.mem_singleton] at hen;
      rcases hen with h | rfl; exacts [Or.inl h, Or.inr rfl])

theorem reconcileDeployment_log_ops (s : KState) (t : Terminal) :
    ∀ en ∈ ((controller.TerminalReconciler.reconcileDeployment s t).1).log,
      en ∈ s.log ∨ en.op = OpKind.deleteDeployment ∨
        en.op = OpKind.createDeployment := by
  intro en hen
  unfold controller.TerminalReconciler.reconcileDeployment at hen
  by_cases hd : t.deletionTimestamp.isSome
  · simp only [hd, if_true] at hen
    by_cases hc : containsFinalizer t.finalizers TerminalDeploymentFinalizer
    · simp only [hc, if_true] at hen
      have hlog := deleteDeploymentOp_log s (controller.deploymentForTerminal t)
      rcases hdel : deleteDeploymentOp s (controller.deploymentForTerminal t)
        with ⟨s₁, _ | e⟩ <;>
        (rw [hdel] at hen hlog; simp only at hen;
          rcases hlog en hen with h | h)
      · exact Or.inl h
      · simp [h]
      · exact Or.inl h
      · simp [h]
    · simp only [hc, if_false] at hen
      exact Or.inl hen
  · simp only [hd, if_false] at hen
    have hlog := createDeploymentOp_log s (controller.deploymentForTerminal t)
    rcases hcr : createDeploymentOp s (controller.deploymentForTerminal t)
      with ⟨s₁, r⟩
    rw [hcr] at hen hlog
    simp only at hen
    rcases hlog en hen with h | h
    · exact Or.inl h
    · simp [h]

theorem reconcileService_log_ops (s : KState) (t : Terminal) :
    ∀ en ∈ ((controller.TerminalReconciler.reconcileService s t).1).log,
      en ∈ s.log ∨ en.op = OpKind.deleteService ∨
        en.op = OpKind.createService := by
  intro en hen
  unfold controller.TerminalReconciler.reconcileService at hen
  by_cases hd : t.deletionTimestamp.isSome
  · simp only [hd, if_true] at hen
    by_cases hc : containsFinalizer t.finalizers TerminalServiceFinalizer
    · simp only [hc, if_true] at hen
      have hlog := deleteServiceOp_log s (controller.serviceForTerminal t)
      rcases hdel : deleteServiceOp s (controller.serviceForTerminal t)
        with ⟨s₁, _ | e⟩ <;>
        (rw [hdel] at hen hlog; simp only at hen;
          rcases hlog en hen with h | h)
      · exact Or.inl h
      · simp [h]
      · exact Or.inl h
      · simp [h]
    · simp only [hc, if_false] at hen
      exact Or.inl hen
  · simp only [hd, if_false] at hen
    have hlog := createServiceOp_log s (controller.serviceForTerminal t)
    rcases hcr : createServiceOp s (controller.serviceForTerminal t)
      with ⟨s₁, r⟩
    rw [hcr] at hen hlog
    simp only at hen
    rcases hlog en hen with h | h
    · exact Or.inl h
    · simp [h]


/-- Claim C7: during teardown of a Terminal, each derived resource is
deleted at most once across repeated `Reconcile` invocations.  Part one: a
successful pass on a deleting Terminal leaves the stored Terminal (if it
still exists) without the deployment and service finalizers.  Parts two and
three: on a deleting Terminal whose per-kind finalizer is absent, a pass —
under any fault schedule — never issues a Delete for that kind. -/
theorem claim7_finalizer_gating (s : KState) (ns n : String) (t : Terminal) :
    (s.faults = [] → s.terminals ⟨ns, n⟩ = some t → t.name = n → t.nspace = ns →
      t.deletionTimestamp.isSome = true →
      (controller.TerminalReconciler.Reconcile s ⟨ns, n⟩).2.2 = none →
      ∀ t', (controller.TerminalReconciler.Reconcile s ⟨ns, n⟩).1.terminals
          ⟨ns, n⟩ = some t' →
        containsFinalizer t'.finalizers TerminalDeploymentFinalizer = false ∧
        containsFinalizer t'.finalizers TerminalServiceFinalizer = false) ∧
    (s.log = [] → s.terminals ⟨ns, n⟩ = some t →
      t.deletionTimestamp.isSome = true →
      containsFinalizer t.finalizers TerminalDeploymentFinalizer = false →
      ∀ en ∈ (controller.TerminalReconciler.Reconcile s ⟨ns, n⟩).1.log,
        en.op ≠ OpKind.deleteDeployment) ∧
    (s.log = [] → s.terminals ⟨ns, n⟩ = some t →
      t.deletionTimestamp.isSome = true →
      containsFinalizer t.finalizers TerminalServiceFinalizer = false →
      ∀ en ∈ (controller.TerminalReconciler.Reconcile s ⟨ns, n⟩).1.log,
        en.op ≠ OpKind.deleteService) := by
  refine ⟨?_, ?_, ?_⟩
  · -- (a) a successful pass persists removal of both finalizers
    intro hf ht hname hns hd he t' hlookup
    subst hname hns
    unfold controller.TerminalReconciler.Reconcile at he hlookup
    rw [getTerminalOp_found s _ t hf ht] at he hlookup
    simp only at he hlookup
    have hdfin := reconcileDeployment_deleting_ok_no_finalizer
      (s.logged .getTerminal ⟨t.nspace, t.name⟩ none) t hd
    have hdmeta := reconcileDeployment_meta
      (s.logged .getTerminal ⟨t.nspace, t.name⟩ none) t
    rcases hdep : controller.TerminalReconciler.reconcileDeployment
        (s.logged .getTerminal ⟨t.nspace, t.name⟩ none) t with ⟨s₂, t₁, e₂⟩
    rw [hdep] at he hlookup hdfin hdmeta
    simp only at hdfin hdmeta
    obtain ⟨hdm1, hdm2, hdm3⟩ := hdmeta
    cases e₂ with
    | some e₂ => exact Option.noConfusion he
    | none =>
      simp only at he hlookup
      have hdfin := hdfin rfl
      have hd₁ : t₁.deletionTimestamp.isSome = true := by rw [hdm3]; exact hd
      have hsfin := reconcileService_deleting_ok_no_finalizer s₂ t₁ hd₁
      have hsmeta := reconcileService_meta s₂ t₁
      rcases hsvc : controller.TerminalReconciler.reconcileService s₂ t₁
        with ⟨s₃, t₂, e₃⟩
      rw [hsvc] at he hlookup hsfin hsmeta
      simp only at hsfin hsmeta
      obtain ⟨hsm1, hsm2, hsm3⟩ := hsmeta
      cases e₃ with
      | some e₃ => exact Option.noConfusion he
      | none =>
        simp only at he hlookup
        obtain ⟨hsf1, hsf2⟩ := hsfin rfl
        rcases hup : updateTerminalOp s₃ t₂ with ⟨s₄, r₄⟩
        rw [hup] at he hlookup
        cases r₄ with
        | some e₄ => exact Option.noConfusion he
        | none =>
          simp only at hlookup
          have hlook := updateTerminalOp_ok_lookup s₃ t₂ (by rw [hup])
          rw [hup] at hlook
          simp only at hlook
          have hkey : (⟨t₂.nspace, t₂.name⟩ : ObjKey) = ⟨t.nspace, t.name⟩ := by
            rw [hsm2, hsm1, hdm2, hdm1]
          rw [hkey] at hlook
          cases hlook with
          | inl hnone => rw [hnone] at hlookup; exact Option.noConfusion hlookup
          | inr hsome =>
            rw [hsome] at hlookup
            injection hlookup with ht'
            subst ht'
            exact ⟨hsf2.trans hdfin, hsf1⟩
  · -- (b) deployment finalizer absent: no deployment delete is issued
    intro hlog ht hd hc en hen
    unfold controller.TerminalReconciler.Reconcile at hen
    have hglog := getTerminalOp_log_ops s ⟨ns, n⟩
    rcases hget : getTerminalOp s ⟨ns, n⟩ with ⟨s₁, res⟩
    rw [hget] at hen hglog
    cases res with
    | error e₁ =>
      simp only at hen
      rcases hglog en hen with h | h
      · rw [hlog] at h; cases h
      · rw [h]; intro hcon; cases hcon
    | ok t₀ =>
      have ht₀ : t₀ = t := by
        have := getTerminalOp_ok_eq s ⟨ns, n⟩ t₀ (by rw [hget])
        rw [ht] at this
        injection this with h
        exact h.symm
      subst ht₀
      simp only at hen
      rw [reconcileDeployment_skip s₁ t₀ hd hc] at hen
      simp only at hen
      have hslog := reconcileService_log_ops s₁ t₀
      rcases hsvc : controller.TerminalReconciler.reconcileService s₁ t₀
        with ⟨s₃, t₂, e₃⟩
      rw [hsvc] at hen hslog
      have hs₁log : ∀ en ∈ s₁.log, en.op = OpKind.getTerminal := by
        intro en' hen'
        rcases hglog en' hen' with h | h
        · rw [hlog] at h; cases h
        · exact h
      cases e₃ with
      | some e₃ =>
        simp only at hen
        rcases hslog en hen with h | h | h
        · rw [hs₁log en h]; intro hcon; cases hcon
        · rw [h]; intro hcon; cases hcon
        · rw [h]; intro hcon; cases hcon
      | none =>
        simp only at hen
        have hulog := updateTerminalOp_log_ops s₃ t₂
        rcases hup : updateTerminalOp s₃ t₂ with ⟨s₄, r₄⟩
        rw [hup] at hen hulog
        have hs₃log : ∀ en' ∈ s₃.log, en'.op ≠ OpKind.deleteDeployment := by
          intro en' hen'
          rcases hslog en' hen' with h | h | h
          · rw [hs₁log en' h]; intro hcon; cases hcon
          · rw [h]; intro hcon; cases hcon
          · rw [h]; intro hcon; cases hcon
        cases r₄ with
        | some e₄ =>
          simp only at hen
          rcases hulog en hen with h | h
          · exact hs₃log en h
          · rw [h]; intro hcon; cases hcon
        | none =>
          simp only at hen
          rcases hulog en hen with h | h
          · exact hs₃log en h
          · rw [h]; intro hcon; cases hcon
  · -- (b') service finalizer absent: no service delete is issued
    intro hlog ht hd hc en hen
    unfold controller.TerminalReconciler.Reconcile at hen
    have hglog := getTerminalOp_log_ops s ⟨ns, n⟩
    rcases hget : getTerminalOp s ⟨ns, n⟩ with ⟨s₁, res⟩
    rw [hget] at hen hglog
    cases res with
    | error e₁ =>
      simp only at hen
      rcases hglog en hen with h | h
      · rw [hlog] at h; cases h
      · rw [h]; intro hcon; cases hcon
    | ok t₀ =>
      have ht₀ : t₀ = t := by
        have := getTerminalOp_ok_eq s ⟨ns, n⟩ t₀ (by rw [hget])
        rw [ht] at this
        injection this with h
        exact h.symm
      subst ht₀
      simp only at hen
      have hs₁log : ∀ en' ∈ s₁.log, en'.op = OpKind.getTerminal := by
        intro en' hen'
        rcases hglog en' hen' with h | h
        · rw [hlog] at h; cases h
        · exact h
      have hdlog := reconcileDeployment_log_ops s₁ t₀
      have hdmeta := reconcileDeployment_meta s₁ t₀
      rcases hdep : controller.TerminalReconciler.reconcileDeployment s₁ t₀
        with ⟨s₂, t₁, e₂⟩
      rw [hdep] at hen hdlog hdmeta
      simp only at hdmeta
      obtain ⟨hdm1, hdm2, hdm3⟩ := hdmeta
      have hs₂log : ∀ en' ∈ s₂.log, en'.op ≠ OpKind.deleteService := by
        intro en' hen'
        rcases hdlog en' hen' with h | h | h
        · rw [hs₁log en' h]; intro hcon; cases hcon
        · rw [h]; intro hcon; cases hcon
        · rw [h]; intro hcon; cases hcon
      cases e₂ with
      | some e₂ =>
        simp only at hen
        exact hs₂log en hen
      | none =>
        simp only at hen
        have hc₁ : containsFinalizer t₁.finalizers TerminalServiceFinalizer = false := by
          have hfin : t₁.finalizers = t₀.finalizers ∨
              t₁.finalizers =
                removeFinalizer t₀.finalizers TerminalDeploymentFinalizer := by
            unfold controller.TerminalReconciler.reconcileDeployment at hdep
            simp only [hd, if_true] at hdep
            by_cases hcd : containsFinalizer t₀.finalizers TerminalDeploymentFinalizer
            · simp only [hcd, if_true] at hdep
              rcases hdd : deleteDeploymentOp s₁
                  (controller.deploymentForTerminal t₀) with ⟨sx, _ | ex⟩ <;>
                rw [hdd] at hdep <;> simp only at hdep
              · injection hdep with h1 h2
                injection h2 with h2a h2b
                right; rw [← h2a]
              · injection hdep with h1 h2
                injection h2 with h2a h2b
                left; rw [← h2a]
            · simp only [hcd, if_false] at hdep
              injection hdep with h1 h2
              injection h2 with h2a h2b
              left; rw [← h2a]
          rcases hfin with h | h
          · rw [h]; exact hc
          · rw [h, removeFinalizer_contains_other _ _ _ (by decide)]; exact hc
        have hd₁ : t₁.deletionTimestamp.isSome = true := by rw [hdm3]; exact hd
        rw [reconcileService_skip s₂ t₁ hd₁ hc₁] at hen
        simp only at hen
        have hulog := updateTerminalOp_log_ops s₂ t₁
        rcases hup : updateTerminalOp s₂ t₁ with ⟨s₄, r₄⟩
        rw [hup] at hen hulog
        cases r₄ with
        | some e₄ =>
          simp only at hen
          rcases hulog en hen with h | h
          · exact hs₂log en h
          · rw [h]; intro hcon; cases hcon
        | none =>
          simp only at hen
          rcases hulog en hen with h | h
          · exact hs₂log en h
          · rw [h]; intro hcon; cases hcon

def c7Terminal : Terminal :=
  { name := "terminal-test", nspace := "marina-system", image := "busybox:1.36",
    deletionTimestamp := some 0,
    finalizers := [TerminalDeploymentFinalizer, TerminalServiceFinalizer] }

def c7State : KState :=
  { emptyState with
    terminals := KMap.empty.insert ⟨"marina-system", "terminal-test"⟩ c7Terminal
    deployments := KMap.empty.insert ⟨"marina-system", "marina-terminal-terminal-test"⟩
      (controller.deploymentForTerminal c7Terminal)
    services := KMap.empty.insert ⟨"marina-system", "marina-terminal-terminal-test"⟩
      (controller.serviceForTerminal c7Terminal) }

def c7bTerminal : Terminal :=
  { name := "terminal-test", nspace := "marina-system", image := "busybox:1.36",
    deletionTimestamp := some 0, finalizers := [] }

def c7bState : KState :=
  { emptyState with
    terminals := KMap.empty.insert ⟨"marina-system", "terminal-test"⟩ c7bTerminal }

theorem claim7_finalizer_gating_witness :
    (∀ t', (controller.TerminalReconciler.Reconcile c7State
        ⟨"marina-system", "terminal-test"⟩).1.terminals
        ⟨"marina-system", "terminal-test"⟩ = some t' →
      containsFinalizer t'.finalizers TerminalDeploymentFinalizer = false ∧
      containsFinalizer t'.finalizers TerminalServiceFinalizer = false) ∧
    (∀ en ∈ (controller.TerminalReconciler.Reconcile c7bState
        ⟨"marina-system", "terminal-test"⟩).1.log,
      en.op ≠ OpKind.deleteDeployment) ∧
    (∀ en ∈ (controller.TerminalReconciler.Reconcile c7bState
        ⟨"marina-system", "terminal-test"⟩).1.log,
      en.op ≠ OpKind.deleteService) :=
  ⟨(claim7_finalizer_gating c7State "marina-system" "terminal-test" c7Terminal).1
      rfl (by decide) rfl rfl (by decide) (by decide),
    (claim7_finalizer_gating c7bState "marina-system" "terminal-test" c7bTerminal).2.1
      rfl (by decide) (by decide) (by decide),
    (claim7_finalizer_gating c7bState "marina-system" "terminal-test" c7bTerminal).2.2
      rfl (by decide) (by decide) (by decide)⟩


/-! ## Claim C8 -/

theorem string_append_left_cancel (a b c : String) (h : a ++ b = a ++ c) :
    b = c := by
  have hd := congrArg String.data h
  simp only [String.data_append] at hd
  exact String.ext (List.append_cancel_left hd)

theorem createRoleBindingOp_frame (s : KState) (b : RoleBinding) (k : ObjKey)
    (h : k ≠ ⟨b.nspace, b.name⟩) :
    ((createRoleBindingOp s b).1).roleBindings k = s.roleBindings k := by
  rcases s with ⟨tm, um, dm, sm, am, rm, bm, _ | ⟨_ | e, rest⟩, lg⟩ <;>
    (simp only [createRoleBindingOp, KState.popFault, KState.logged]) <;>
    (repeat' split) <;> simp [KMap.insert, h]

theorem createRoleBindingOp_log (s : KState) (b : RoleBinding) :
    ∀ en ∈ ((createRoleBindingOp s b).1).log,
      en ∈ s.log ∨ en.op = OpKind.createRoleBinding := by
  rcases s with ⟨tm, um, dm, sm, am, rm, bm, _ | ⟨_ | e, rest⟩, lg⟩ <;>
    (simp only [createRoleBindingOp, KState.popFault, KState.logged]) <;>
    (repeat' split) <;>
    (intro en hen; simp only [List.mem_append, List.mem_singleton] at hen;
      rcases hen with h | rfl; exacts [Or.inl h, Or.inr rfl])

theorem createRoleBindingOp_faults (s : KState) (b : RoleBinding)
    (hf : s.faults = []) : ((createRoleBindingOp s b).1).faults = [] := by
  rcases s with ⟨tm, um, dm, sm, am, rm, bm, fl, lg⟩
  simp only at hf
  subst hf
  simp only [createRoleBindingOp, KState.popFault, KState.logged]
  (repeat' split) <;> rfl

theorem roleBindingLoop_honest_frame (roles : List String) :
    ∀ (s : KState) (u : User), s.faults = [] →
      ((controller.UserReconciler.roleBindingLoop s u false roles).1).faults = [] ∧
      (∀ key, (∀ r ∈ roles, key ≠ ⟨u.nspace, u.name ++ "-" ++ r⟩) →
        ((controller.UserReconciler.roleBindingLoop s u false roles).1).roleBindings key =
          s.roleBindings key) ∧
      (∀ en ∈ ((controller.UserReconciler.roleBindingLoop s u false roles).1).log,
        en ∈ s.log ∨ en.op = OpKind.createRoleBinding) := by
  induction roles with
  | nil =>
    intro s u hf
    exact ⟨hf, fun key _ => rfl, fun en hen => Or.inl hen⟩
  | cons a as ih =>
    intro s u hf
    simp only [controller.UserReconciler.roleBindingLoop, Bool.false_eq_true,
      if_false]
    have hfr := createRoleBindingOp_frame s (controller.userRoleBindingForRole u a)
    have hlg := createRoleBindingOp_log s (controller.userRoleBindingForRole u a)
    have hfl := createRoleBindingOp_faults s (controller.userRoleBindingForRole u a) hf
    rcases hc : createRoleBindingOp s (controller.userRoleBindingForRole u a)
      with ⟨s₁, res⟩
    rw [hc] at hfr hlg hfl
    simp only at hfr hlg hfl
    cases res with
    | some e =>
      refine ⟨hfl, ?_, ?_⟩
      · intro key hkey
        exact hfr key (hkey a (List.mem_cons_self a as))
      · exact hlg
    | none =>
      obtain ⟨ihf, ihframe, ihlog⟩ := ih s₁ u hfl
      refine ⟨ihf, ?_, ?_⟩
      · intro key hkey
        rw [ihframe key (fun r hr => hkey r (List.mem_cons_of_mem a hr))]
        exact hfr key (hkey a (List.mem_cons_self a as))
      · intro en hen
        rcases ihlog en hen with h | h
        · exact hlg en h
        · exact Or.inr h

theorem getUserOp_ok_eq (s : KState) (k : ObjKey) (u : User)
    (h : (getUserOp s k).2 = .ok u) : s.users k = some u := by
  rcases s with ⟨tm, um, dm, sm, am, rm, bm, _ | ⟨_ | e, rest⟩, lg⟩ <;>
    (simp only [getUserOp, KState.popFault, KState.logged] at h ⊢) <;>
    (repeat' split at h) <;> simp_all

theorem getUserOp_roleBindings (s : KState) (k : ObjKey) :
    ((getUserOp s k).1).roleBindings = s.roleBindings := by
  rcases s with ⟨tm, um, dm, sm, am, rm, bm, _ | ⟨_ | e, rest⟩, lg⟩ <;>
    (simp only [getUserOp, KState.popFault, KState.logged]) <;>
    (repeat' split) <;> rfl

theorem getUserOp_log_nodrb (s : KState) (k : ObjKey) :
    ∀ en ∈ ((getUserOp s k).1).log,
      en ∈ s.log ∨ en.op ≠ OpKind.deleteRoleBinding := by
  rcases s with ⟨tm, um, dm, sm, am, rm, bm, _ | ⟨_ | e, rest⟩, lg⟩ <;>
    (simp only [getUserOp, KState.popFault, KState.logged]) <;>
    (repeat' split) <;>
    (intro en hen; simp only [List.mem_append, List.mem_singleton] at hen;
      rcases hen with h | rfl;
      exacts [Or.inl h, Or.inr (fun hc => OpKind.noConfusion hc)])

theorem getUserOp_faults (s : KState) (k : ObjKey) (hf : s.faults = []) :
    ((getUserOp s k).1).faults = [] := by
  rcases s with ⟨tm, um, dm, sm, am, rm, bm, fl, lg⟩
  simp only at hf
  subst hf
  simp only [getUserOp, KState.popFault, KState.logged]
  (repeat' split) <;> rfl

theorem getServiceAccountOp_log_nodrb (s : KState) (k : ObjKey) :
    ∀ en ∈ ((getServiceAccountOp s k).1).log,
      en ∈ s.log ∨ en.op ≠ OpKind.deleteRoleBinding := by
  rcases s with ⟨tm, um, dm, sm, am, rm, bm, _ | ⟨_ | e, rest⟩, lg⟩ <;>
    (simp only [getServiceAccountOp, KState.popFault, KState.logged]) <;>
    (repeat' split) <;>
    (intro en hen; simp only [List.mem_append, List.mem_singleton] at hen;
      rcases hen with h | rfl;
      exacts [Or.inl h, Or.inr (fun hc => OpKind.noConfusion hc)])

theorem createServiceAccountOp_log_nodrb (s : KState) (a : ServiceAccount) :
    ∀ en ∈ ((createServiceAccountOp s a).1).log,
      en ∈ s.log ∨ en.op ≠ OpKind.deleteRoleBinding := by
  rcases s with ⟨tm, um, dm, sm, am, rm, bm, _ | ⟨_ | e, rest⟩, lg⟩ <;>
    (simp only [createServiceAccountOp, KState.popFault, KState.logged]) <;>
    (repeat' split) <;>
    (intro en hen; simp only [List.mem_append, List.mem_singleton] at hen;
      rcases hen with h | rfl;
      exacts [Or.inl h, Or.inr (fun hc => OpKind.noConfusion hc)])

theorem deleteServiceAccountOp_log_nodrb (s : KState) (a : ServiceAccount) :
    ∀ en ∈ ((deleteServiceAccountOp s a).1).log,
      en ∈ s.log ∨ en.op ≠ OpKind.deleteRoleBinding := by
  rcases s with ⟨tm, um, dm, sm, am, rm, bm, _ | ⟨_ | e, rest⟩, lg⟩ <;>
    (simp only [deleteServiceAccountOp, KState.popFault, KState.logged]) <;>
    (repeat' split) <;>
    (intro en hen; simp only [List.mem_append, List.mem_singleton] at hen;
      rcases hen with h | rfl;
      exacts [Or.inl h, Or.inr (fun hc => OpKind.noConfusion hc)])

theorem updateUserOp_roleBindings (s : KState) (u : User) :
    ((updateUserOp s u).1).roleBindings = s.roleBindings := by
  rcases s with ⟨tm, um, dm, sm, am, rm, bm, _ | ⟨_ | e, rest⟩, lg⟩ <;>
    (simp only [updateUserOp, KState.popFault, KState.logged]) <;>
    (repeat' split) <;> rfl

theorem updateUserOp_log_nodrb (s : KState) (u : User) :
    ∀ en ∈ ((updateUserOp s u).1).log,
      en ∈ s.log ∨ en.op ≠ OpKind.deleteRoleBinding := by
  rcases s with ⟨tm, um, dm, sm, am, rm, bm, _ | ⟨_ | e, rest⟩, lg⟩ <;>
    (simp only [updateUserOp, KState.popFault, KState.logged]) <;>
    (repeat' split) <;>
    (intro en hen; simp only [List.mem_append, List.mem_singleton] at hen;
      rcases hen with h | rfl;
      exacts [Or.inl h, Or.inr (fun hc => OpKind.noConfusion hc)])

theorem new_reconcileServiceAccount_roleBindings (s : KState) (u : User) :
    ((controller.UserReconciler.reconcileServiceAccount s u).1).roleBindings =
      s.roleBindings := by
  rcases s with ⟨tm, um, dm, sm, am, rm, bm, _ | ⟨_ | e, rest⟩, lg⟩ <;>
    (simp only [controller.UserReconciler.reconcileServiceAccount,
      controller.serviceAccountForUser, deleteServiceAccountOp,
      createServiceAccountOp, KState.popFault, KState.logged]) <;>
    (repeat' split) <;>
    (try rfl) <;>
    (rename_i heq; split at heq <;>
      (injection heq with h1 h2; first | (subst h1; rfl) | simp at h2))

theorem new_reconcileServiceAccount_faults (s : KState) (u : User)
    (hf : s.faults = []) :
    ((controller.UserReconciler.reconcileServiceAccount s u).1).faults = [] := by
  rcases s with ⟨tm, um, dm, sm, am, rm, bm, fl, lg⟩
  simp only at hf
  subst hf
  simp only [controller.UserReconciler.reconcileServiceAccount,
    controller.serviceAccountForUser, deleteServiceAccountOp,
    createServiceAccountOp, KState.popFault, KState.logged]
  (repeat' split) <;>
    (try rfl) <;>
    (rename_i heq; split at heq <;>
      (injection heq with h1 h2; first | (subst h1; rfl) | simp at h2))

theorem new_reconcileServiceAccount_log_nodrb (s : KState) (u : User) :
    ∀ en ∈ ((controller.UserReconciler.reconcileServiceAccount s u).1).log,
      en ∈ s.log ∨ en.op ≠ OpKind.deleteRoleBinding := by
  intro en hen
  unfold controller.UserReconciler.reconcileServiceAccount at hen
  by_cases hd : u.deletionTimestamp.isSome
  · simp only [hd, if_true] at hen
    by_cases hc : containsFinalizer u.finalizers UserServiceAccountFinalizer
    · simp only [hc, if_true] at hen
      have hlog := deleteServiceAccountOp_log_nodrb s
        (controller.serviceAccountForUser u)
      rcases hdel : deleteServiceAccountOp s (controller.serviceAccountForUser u)
        with ⟨s₁, _ | e⟩ <;>
        (rw [hdel] at hen hlog; simp only at hen; exact hlog en hen)
    · simp only [hc, if_false] at hen
      exact Or.inl hen
  · simp only [hd, if_false] at hen
    have hlog := createServiceAccountOp_log_nodrb s
      (controller.serviceAccountForUser u)
    rcases hcr : createServiceAccountOp s (controller.serviceAccountForUser u)
      with ⟨s₁, r⟩
    rw [hcr] at hen hlog
    simp only at hen
    exact hlog en hen

theorem deleteServiceAccountOp_roleBindings (s : KState) (a : ServiceAccount) :
    ((deleteServiceAccountOp s a).1).roleBindings = s.roleBindings := by
  rcases s with ⟨tm, um, dm, sm, am, rm, bm, _ | ⟨_ | e, rest⟩, lg⟩ <;>
    (simp only [deleteServiceAccountOp, KState.popFault, KState.logged]) <;>
    (repeat' split) <;> rfl

theorem createServiceAccountOp_roleBindings (s : KState) (a : ServiceAccount) :
    ((createServiceAccountOp s a).1).roleBindings = s.roleBindings := by
  rcases s with ⟨tm, um, dm, sm, am, rm, bm, _ | ⟨_ | e, rest⟩, lg⟩ <;>
    (simp only [createServiceAccountOp, KState.popFault, KState.logged]) <;>
    (repeat' split) <;> rfl

theorem getServiceAccountOp_roleBindings (s : KState) (k : ObjKey) :
    ((getServiceAccountOp s k).1).roleBindings = s.roleBindings := by
  rcases s with ⟨tm, um, dm, sm, am, rm, bm, _ | ⟨_ | e, rest⟩, lg⟩ <;>
    (simp only [getServiceAccountOp, KState.popFault, KState.logged]) <;>
    (repeat' split) <;> rfl

theorem deleteServiceAccountOp_faults (s : KState) (a : ServiceAccount)
    (hf : s.faults = []) : ((deleteServiceAccountOp s a).1).faults = [] := by
  rcases s with ⟨tm, um, dm, sm, am, rm, bm, fl, lg⟩
  simp only at hf
  subst hf
  simp only [deleteServiceAccountOp, KState.popFault, KState.logged]
  (repeat' split) <;> rfl

theorem createServiceAccountOp_faults (s : KState) (a : ServiceAccount)
    (hf : s.faults = []) : ((createServiceAccountOp s a).1).faults = [] := by
  rcases s with ⟨tm, um, dm, sm, am, rm, bm, fl, lg⟩
  simp only at hf
  subst hf
  simp only [createServiceAccountOp, KState.popFault, KState.logged]
  (repeat' split) <;> rfl

theorem getServiceAccountOp_faults (s : KState) (k : ObjKey)
    (hf : s.faults = []) : ((getServiceAccountOp s k).1).faults = [] := by
  rcases s with ⟨tm, um, dm, sm, am, rm, bm, fl, lg⟩
  simp only at hf
  subst hf
  simp only [getServiceAccountOp, KState.popFault, KState.logged]
  (repeat' split) <;> rfl

theorem old_reconcileServiceAccount_log_nodrb (s : KState) (u : User) :
    ∀ en ∈ ((controllers.UserReconciler.reconcileServiceAccount s u).1).log,
      en ∈ s.log ∨ en.op ≠ OpKind.deleteRoleBinding := by
  intro en hen
  unfold controllers.UserReconciler.reconcileServiceAccount at hen
  by_cases hd : u.deletionTimestamp.isSome
  · simp only [hd, if_true] at hen
    by_cases hc : containsFinalizer u.finalizers UserServiceAccountFinalizer
    · simp only [hc, if_true] at hen
      have hlog := deleteServiceAccountOp_log_nodrb s
        (controllers.desiredServiceAccountForUser u)
      rcases hdel : deleteServiceAccountOp s
          (controllers.desiredServiceAccountForUser u) with ⟨s₁, _ | e⟩ <;>
        (rw [hdel] at hen hlog; simp only at hen; exact hlog en hen)
    · simp only [hc, Bool.false_eq_true, if_false] at hen
      exact Or.inl hen
  · simp only [hd, Bool.false_eq_true, if_false] at hen
    have hglog := getServiceAccountOp_log_nodrb s
      ⟨(controllers.desiredServiceAccountForUser u).nspace,
        (controllers.desiredServiceAccountForUser u).name⟩
    rcases hget : getServiceAccountOp s
        ⟨(controllers.desiredServiceAccountForUser u).nspace,
          (controllers.desiredServiceAccountForUser u).name⟩ with ⟨s₁, res⟩
    rw [hget] at hen hglog
    cases res with
    | ok a =>
      simp only at hen
      exact hglog en hen
    | error e =>
      cases e with
      | notFound =>
        simp only at hen
        have hclog := createServiceAccountOp_log_nodrb s₁
          (controllers.desiredServiceAccountForUser u)
        rcases hcr : createServiceAccountOp s₁
            (controllers.desiredServiceAccountForUser u) with ⟨s₂, r⟩
        rw [hcr] at hen hclog
        cases r <;>
          (rcases hclog en hen with h | h; exacts [hglog en h, Or.inr h])
      | alreadyExists => simp only at hen; exact hglog en hen
      | conflict => simp only at hen; exact hglog en hen
      | internalError => simp only at hen; exact hglog en hen

theorem getRoleOp_faults (s : KState) (k : ObjKey) (hf : s.faults = []) :
    ((getRoleOp s k).1).faults = [] := by
  rcases s with ⟨tm, um, dm, sm, am, rm, bm, fl, lg⟩
  simp only at hf
  subst hf
  simp only [getRoleOp, KState.popFault, KState.logged]
  (repeat' split) <;> rfl

theorem roleBindingssLoop_honest_frame (roles : List String) :
    ∀ (s : KState) (u : User), s.faults = [] →
      ((controllers.UserReconciler.roleBindingssLoop s u false roles).1).faults = [] ∧
      (∀ key, (∀ r ∈ roles, key ≠ ⟨u.nspace, "user-" ++ u.name ++ "-" ++ r⟩) →
        ((controllers.UserReconciler.roleBindingssLoop s u false roles).1).roleBindings
          key = s.roleBindings key) ∧
      (∀ en ∈ ((controllers.UserReconciler.roleBindingssLoop s u false roles).1).log,
        en ∈ s.log ∨ en.op ≠ OpKind.deleteRoleBinding) := by
  induction roles with
  | nil =>
    intro s u hf
    exact ⟨hf, fun key _ => rfl, fun en hen => Or.inl hen⟩
  | cons a as ih =>
    intro s u hf
    simp only [controllers.UserReconciler.roleBindingssLoop, Bool.false_eq_true,
      if_false]
    cases hA : s.roles ⟨u.nspace, a⟩ with
    | none =>
      rw [getRoleOp_missing s _ hf hA]
      refine ⟨by simp [KState.logged, hf], fun key _ => by simp [KState.logged], ?_⟩
      intro en hen
      simp only [KState.logged, List.mem_append, List.mem_singleton] at hen
      rcases hen with h | rfl
      exacts [Or.inl h, Or.inr (fun hc => OpKind.noConfusion hc)]
    | some ra =>
      set s₁ := s.logged .getRole ⟨u.nspace, a⟩ none with hs₁
      have hf₁ : s₁.faults = [] := by simp [hs₁, KState.logged, hf]
      set bk : ObjKey := ⟨(controllers.desiredRoleBindingForRole u a).nspace,
        (controllers.desiredRoleBindingForRole u a).name⟩ with hbk
      have hbk' : bk = ⟨u.nspace, "user-" ++ u.name ++ "-" ++ a⟩ := rfl
      cases hB : s₁.roleBindings bk with
      | some b =>
        simp only [getRoleOp_found s _ ra hf hA,
          getRoleBindingOp_found s₁ bk b hf₁ hB]
        set u' : User := { u with
          finalizers := addFinalizer u.finalizers UserRoleBindingFinalizer }
          with hu'
        obtain ⟨ihf, ihframe, ihlog⟩ := ih (s₁.logged .getRoleBinding bk none) u'
          (by simp [KState.logged, hf₁])
        refine ⟨ihf, ?_, ?_⟩
        · intro key hkey
          rw [ihframe key (fun r hr => by
            simpa [hu'] using hkey r (List.mem_cons_of_mem a hr))]
          simp [hs₁, KState.logged]
        · intro en hen
          rcases ihlog en hen with h | h
          · simp only [KState.logged, hs₁, List.append_assoc, List.mem_append,
              List.mem_singleton] at h
            rcases h with h | rfl | rfl
            exacts [Or.inl h, Or.inr (fun hc => OpKind.noConfusion hc),
              Or.inr (fun hc => OpKind.noConfusion hc)]
          · exact Or.inr h
      | none =>
        set s₂ := s₁.logged .getRoleBinding bk (some .notFound) with hs₂
        have hf₂ : s₂.faults = [] := by simp [hs₂, KState.logged, hf₁]
        have habs₂ : s₂.roleBindings
            ⟨(controllers.desiredRoleBindingForRole u a).nspace,
              (controllers.desiredRoleBindingForRole u a).name⟩ = none := by
          simpa [hs₂, KState.logged] using hB
        simp only [getRoleOp_found s _ ra hf hA,
          getRoleBindingOp_missing s₁ bk hf₁ hB,
          createRoleBindingOp_absent s₂ (controllers.desiredRoleBindingForRole u a)
            hf₂ habs₂]
        set u' : User := { u with
          finalizers := addFinalizer u.finalizers UserRoleBindingFinalizer }
          with hu'
        set s₃ := ({ s₂ with
          roleBindings := s₂.roleBindings.insert
            ⟨(controllers.desiredRoleBindingForRole u a).nspace,
              (controllers.desiredRoleBindingForRole u a).name⟩
            (controllers.desiredRoleBindingForRole u a) }.logged
          .createRoleBinding
          ⟨(controllers.desiredRoleBindingForRole u a).nspace,
            (controllers.desiredRoleBindingForRole u a).name⟩ none) with hs₃
        obtain ⟨ihf, ihframe, ihlog⟩ := ih s₃ u'
          (by simp [hs₃, hs₂, hs₁, KState.logged, hf])
        refine ⟨ihf, ?_, ?_⟩
        · intro key hkey
          rw [ihframe key (fun r hr => by
            simpa [hu'] using hkey r (List.mem_cons_of_mem a hr))]
          have hkeya := hkey a (List.mem_cons_self a as)
          simp only [hs₃, hs₂, hs₁, KState.logged]
          rw [KMap.insert_ne _ _ _ _ (by rw [← hbk'] at hkeya; exact hkeya)]
        · intro en hen
          rcases ihlog en hen with h | h
          · simp only [hs₃, hs₂, hs₁, KState.logged, List.append_assoc,
              List.mem_append, List.mem_singleton] at h
            rcases h with h | rfl | rfl | rfl
            exacts [Or.inl h, Or.inr (fun hc => OpKind.noConfusion hc),
              Or.inr (fun hc => OpKind.noConfusion hc),
              Or.inr (fun hc => OpKind.noConfusion hc)]
          · exact Or.inr h

theorem objkey_ne_of_role_ne (ns nm R r : String) (h : r ≠ R) :
    (⟨ns, nm ++ "-" ++ R⟩ : ObjKey) ≠ ⟨ns, nm ++ "-" ++ r⟩ := by
  intro hc
  injection hc with h1 h2
  exact h (string_append_left_cancel (nm ++ "-") r R h2.symm)

theorem new_reconcileServiceAccount_honest_rb (s : KState) (u : User)
    (hf : s.faults = []) (hdel : u.deletionTimestamp = none) :
    ∃ s₂ u₁, controller.UserReconciler.reconcileServiceAccount s u = (s₂, u₁, none) ∧
      s₂.faults = [] ∧ s₂.roleBindings = s.roleBindings ∧
      u₁.name = u.name ∧ u₁.nspace = u.nspace ∧
      u₁.deletionTimestamp = none ∧ u₁.roles = u.roles ∧
      (∀ en ∈ s₂.log, en ∈ s.log ∨ en.op ≠ OpKind.deleteRoleBinding) := by
  simp only [controller.UserReconciler.reconcileServiceAccount,
    controller.serviceAccountForUser, hdel, Option.isSome_none,
    Bool.false_eq_true, if_false]
  cases hsa : s.serviceAccounts ⟨u.nspace, u.name⟩ with
  | some a =>
    have hsa' : (s.serviceAccounts
        ⟨({ name := u.name, nspace := u.nspace } : ServiceAccount).nspace,
          ({ name := u.name, nspace := u.nspace } : ServiceAccount).name⟩).isSome =
        true := by simpa using congrArg Option.isSome hsa
    simp only [createServiceAccountOp_present s
      { name := u.name, nspace := u.nspace } hf hsa']
    refine ⟨_, _, rfl, by simp [KState.logged, hf], by simp [KState.logged],
      rfl, rfl, rfl, rfl, ?_⟩
    intro en hen
    simp only [KState.logged, List.mem_append, List.mem_singleton] at hen
    rcases hen with h | rfl
    exacts [Or.inl h, Or.inr (fun hc => OpKind.noConfusion hc)]
  | none =>
    have hsa' : s.serviceAccounts
        ⟨({ name := u.name, nspace := u.nspace } : ServiceAccount).nspace,
          ({ name := u.name, nspace := u.nspace } : ServiceAccount).name⟩ =
        none := hsa
    simp only [createServiceAccountOp_absent s
      { name := u.name, nspace := u.nspace } hf hsa']
    refine ⟨_, _, rfl, by simp [KState.logged, hf], by simp [KState.logged],
      rfl, rfl, rfl, rfl, ?_⟩
    intro en hen
    simp only [KState.logged, List.mem_append, List.mem_singleton] at hen
    rcases hen with h | rfl
    exacts [Or.inl h, Or.inr (fun hc => OpKind.noConfusion hc)]

theorem old_reconcileServiceAccount_honest_rb (s : KState) (u : User)
    (hf : s.faults = []) (hdel : u.deletionTimestamp = none) :
    ∃ s₂ u₁, controllers.UserReconciler.reconcileServiceAccount s u = (s₂, u₁, none) ∧
      s₂.faults = [] ∧ s₂.roleBindings = s.roleBindings ∧
      u₁.name = u.name ∧ u₁.nspace = u.nspace ∧
      u₁.deletionTimestamp = none ∧ u₁.roles = u.roles ∧
      (∀ en ∈ s₂.log, en ∈ s.log ∨ en.op ≠ OpKind.deleteRoleBinding) := by
  simp only [controllers.UserReconciler.reconcileServiceAccount,
    controllers.desiredServiceAccountForUser, hdel, Option.isSome_none,
    Bool.false_eq_true, if_false]
  cases hsa : s.serviceAccounts ⟨u.nspace, "user-" ++ u.name⟩ with
  | some a =>
    simp only [getServiceAccountOp_found s _ a hf hsa]
    refine ⟨_, _, rfl, by simp [KState.logged, hf], by simp [KState.logged],
      rfl, rfl, hdel, rfl, ?_⟩
    intro en hen
    simp only [KState.logged, List.mem_append, List.mem_singleton] at hen
    rcases hen with h | rfl
    exacts [Or.inl h, Or.inr (fun hc => OpKind.noConfusion hc)]
  | none =>
    set k : ObjKey := ⟨u.nspace, "user-" ++ u.name⟩ with hk
    set s₁ := s.logged .getServiceAccount k (some .notFound) with hs₁
    have hf₁ : s₁.faults = [] := by simp [hs₁, KState.logged, hf]
    have habs₁ : s₁.serviceAccounts
        ⟨({ name := "user-" ++ u.name, nspace := u.nspace } : ServiceAccount).nspace,
          ({ name := "user-" ++ u.name, nspace := u.nspace } : ServiceAccount).name⟩ =
        none := by
      simpa [hs₁, KState.logged] using hsa
    simp only [getServiceAccountOp_missing s k hf hsa,
      createServiceAccountOp_absent s₁
        { name := "user-" ++ u.name, nspace := u.nspace } hf₁ habs₁]
    refine ⟨_, _, rfl, by simp [hs₁, KState.logged, hf],
      by simp [hs₁, KState.logged], rfl, rfl, rfl, rfl, ?_⟩
    intro en hen
    simp only [hs₁, KState.logged, List.append_assoc, List.mem_append,
      List.mem_singleton] at hen
    rcases hen with h | rfl | rfl
    exacts [Or.inl h, Or.inr (fun hc => OpKind.noConfusion hc),
      Or.inr (fun hc => OpKind.noConfusion hc)]

theorem new_reconcileRoleBindings_honest_frame (s : KState) (u : User)
    (hf : s.faults = []) (hdel : u.deletionTimestamp = none) :
    (∀ key, (∀ r ∈ u.roles, key ≠ ⟨u.nspace, u.name ++ "-" ++ r⟩) →
      ((controller.UserReconciler.reconcileRoleBindings s u).1).roleBindings key =
        s.roleBindings key) ∧
    (∀ en ∈ ((controller.UserReconciler.reconcileRoleBindings s u).1).log,
      en ∈ s.log ∨ en.op ≠ OpKind.deleteRoleBinding) := by
  rcases u with ⟨un, uns, urs, udt, ufs⟩
  simp only at hdel
  subst hdel
  unfold controller.UserReconciler.reconcileRoleBindings
  simp only [Option.isSome_none, Bool.false_eq_true, if_false]
  obtain ⟨lf, lframe, llog⟩ := roleBindingLoop_honest_frame urs s
    ⟨un, uns, urs, none, addFinalizer ufs UserRoleBindingFinalizer⟩ hf
  rcases hl : controller.UserReconciler.roleBindingLoop s
      ⟨un, uns, urs, none, addFinalizer ufs UserRoleBindingFinalizer⟩ false urs
    with ⟨s₁, e⟩
  rw [hl] at lframe llog
  simp only at lframe llog
  cases e with
  | some e =>
    refine ⟨?_, fun en hen => (llog en hen).imp id (fun h => by rw [h]; intro hc; cases hc)⟩
    intro key hkey
    exact lframe key (fun r hr => hkey r hr)
  | none =>
    refine ⟨?_, fun en hen => (llog en hen).imp id (fun h => by rw [h]; intro hc; cases hc)⟩
    intro key hkey
    exact lframe key (fun r hr => hkey r hr)

theorem old_reconcileRoleBindingss_honest_frame (s : KState) (u : User)
    (hf : s.faults = []) (hdel : u.deletionTimestamp = none) :
    (∀ key, (∀ r ∈ u.roles, key ≠ ⟨u.nspace, "user-" ++ u.name ++ "-" ++ r⟩) →
      ((controllers.UserReconciler.reconcileRoleBindingss s u).1).roleBindings key =
        s.roleBindings key) ∧
    (∀ en ∈ ((controllers.UserReconciler.reconcileRoleBindingss s u).1).log,
      en ∈ s.log ∨ en.op ≠ OpKind.deleteRoleBinding) := by
  rcases u with ⟨un, uns, urs, udt, ufs⟩
  simp only at hdel
  subst hdel
  unfold controllers.UserReconciler.reconcileRoleBindingss
  simp only [Option.isSome_none, Bool.false_eq_true, if_false]
  obtain ⟨lf, lframe, llog⟩ := roleBindingssLoop_honest_frame urs s
    ⟨un, uns, urs, none, ufs⟩ hf
  rcases hl : controllers.UserReconciler.roleBindingssLoop s
      ⟨un, uns, urs, none, ufs⟩ false urs
    with ⟨s₁, u₁, e⟩
  rw [hl] at lframe llog
  simp only at lframe llog
  cases e with
  | some e =>
    exact ⟨fun key hkey => lframe key (fun r hr => hkey r hr), llog⟩
  | none =>
    exact ⟨fun key hkey => lframe key (fun r hr => hkey r hr), llog⟩


/-- Claim C8: for every User that is not being deleted, a role `R` absent
from `spec.roles` keeps its previously created RoleBinding untouched: one
`Reconcile` of either generation of `UserReconciler` leaves the binding map
at `R`'s key unchanged and never issues any RoleBinding delete (there is no
orphan detection pass). -/
theorem claim8_orphan_binding_persists (s : KState) (ns n R : String) (u : User) :
    (s.faults = [] → s.log = [] → s.users ⟨ns, n⟩ = some u →
      u.name = n → u.nspace = ns → u.deletionTimestamp = none →
      R ∉ u.roles →
      (controller.UserReconciler.Reconcile s ⟨ns, n⟩).1.roleBindings
          ⟨ns, n ++ "-" ++ R⟩ = s.roleBindings ⟨ns, n ++ "-" ++ R⟩ ∧
      (∀ en ∈ (controller.UserReconciler.Reconcile s ⟨ns, n⟩).1.log,
        en.op ≠ OpKind.deleteRoleBinding)) ∧
    (s.faults = [] → s.log = [] → s.users ⟨ns, n⟩ = some u →
      u.name = n → u.nspace = ns → u.deletionTimestamp = none →
      R ∉ u.roles →
      (controllers.UserReconciler.Reconcile s ⟨ns, n⟩).1.roleBindings
          ⟨ns, "user-" ++ n ++ "-" ++ R⟩ =
        s.roleBindings ⟨ns, "user-" ++ n ++ "-" ++ R⟩ ∧
      (∀ en ∈ (controllers.UserReconciler.Reconcile s ⟨ns, n⟩).1.log,
        en.op ≠ OpKind.deleteRoleBinding)) := by
  constructor
  · intro hf hlog hu hname hns hdel hR
    subst hname hns
    unfold controller.UserReconciler.Reconcile
    rw [getUserOp_found s _ u hf hu]
    simp only
    set sg := s.logged .getUser ⟨u.nspace, u.name⟩ none with hsg
    have hfg : sg.faults = [] := by simp [hsg, KState.logged, hf]
    obtain ⟨s₂, u₁, hsa, hf₂, hrb₂, hm1, hm2, hm3, hm4, hlog₂⟩ :=
      new_reconcileServiceAccount_honest_rb sg u hfg hdel
    rw [hsa]
    simp only
    obtain ⟨wframe, wlog⟩ := new_reconcileRoleBindings_honest_frame s₂ u₁ hf₂ hm3
    rcases hrbr : controller.UserReconciler.reconcileRoleBindings s₂ u₁
      with ⟨s₃, u₂, e₃⟩
    rw [hrbr] at wframe wlog
    simp only at wframe wlog
    have hkeyframe : s₃.roleBindings ⟨u.nspace, u.name ++ "-" ++ R⟩ =
        s.roleBindings ⟨u.nspace, u.name ++ "-" ++ R⟩ := by
      rw [wframe ⟨u.nspace, u.name ++ "-" ++ R⟩ ?_]
      · rw [hrb₂]; simp [hsg, KState.logged]
      · intro r hr
        rw [hm2, hm1]
        exact objkey_ne_of_role_ne u.nspace u.name R r
          (fun hc => hR (by subst hc; rw [hm4] at hr; exact hr))
    have hlogchain : ∀ en ∈ s₃.log, en.op ≠ OpKind.deleteRoleBinding := by
      intro en hen
      rcases wlog en hen with h | h
      · rcases hlog₂ en h with h' | h'
        · simp only [hsg, KState.logged, hlog, List.nil_append,
            List.mem_singleton] at h'
          rw [h']; intro hc; cases hc
        · exact h'
      · exact h
    cases e₃ with
    | some e₃ => exact ⟨hkeyframe, hlogchain⟩
    | none =>
      simp only
      rcases hup : updateUserOp s₃ u₂ with ⟨s₄, r₄⟩
      have hurb := updateUserOp_roleBindings s₃ u₂
      have hulog := updateUserOp_log_nodrb s₃ u₂
      rw [hup] at hurb hulog
      simp only at hurb hulog
      cases r₄ with
      | some e₄ =>
        refine ⟨(congrFun hurb _).trans hkeyframe, ?_⟩
        intro en hen
        rcases hulog en hen with h | h
        · exact hlogchain en h
        · exact h
      | none =>
        refine ⟨(congrFun hurb _).trans hkeyframe, ?_⟩
        intro en hen
        rcases hulog en hen with h | h
        · exact hlogchain en h
        · exact h
  · intro hf hlog hu hname hns hdel hR
    subst hname hns
    unfold controllers.UserReconciler.Reconcile
    rw [getUserOp_found s _ u hf hu]
    simp only
    set sg := s.logged .getUser ⟨u.nspace, u.name⟩ none with hsg
    have hfg : sg.faults = [] := by simp [hsg, KState.logged, hf]
    obtain ⟨s₂, u₁, hsa, hf₂, hrb₂, hm1, hm2, hm3, hm4, hlog₂⟩ :=
      old_reconcileServiceAccount_honest_rb sg u hfg hdel
    rw [hsa]
    simp only
    obtain ⟨wframe, wlog⟩ := old_reconcileRoleBindingss_honest_frame s₂ u₁ hf₂ hm3
    rcases hrbr : controllers.UserReconciler.reconcileRoleBindingss s₂ u₁
      with ⟨s₃, u₂, e₃⟩
    rw [hrbr] at wframe wlog
    simp only at wframe wlog
    have hkeyframe : s₃.roleBindings ⟨u.nspace, "user-" ++ u.name ++ "-" ++ R⟩ =
        s.roleBindings ⟨u.nspace, "user-" ++ u.name ++ "-" ++ R⟩ := by
      rw [wframe ⟨u.nspace, "user-" ++ u.name ++ "-" ++ R⟩ ?_]
      · rw [hrb₂]; simp [hsg, KState.logged]
      · intro r hr
        rw [hm2, hm1]
        exact objkey_ne_of_role_ne u.nspace ("user-" ++ u.name) R r
          (fun hc => hR (by subst hc; rw [hm4] at hr; exact hr))
    have hlogchain : ∀ en ∈ s₃.log, en.op ≠ OpKind.deleteRoleBinding := by
      intro en hen
      rcases wlog en hen with h | h
      · rcases hlog₂ en h with h' | h'
        · simp only [hsg, KState.logged, hlog, List.nil_append,
            List.mem_singleton] at h'
          rw [h']; intro hc; cases hc
        · exact h'
      · exact h
    cases e₃ with
    | some e₃ => exact ⟨hkeyframe, hlogchain⟩
    | none =>
      simp only
      rcases hup : updateUserOp s₃ u₂ with ⟨s₄, r₄⟩
      have hurb := updateUserOp_roleBindings s₃ u₂
      have hulog := updateUserOp_log_nodrb s₃ u₂
      rw [hup] at hurb hulog
      simp only at hurb hulog
      cases r₄ with
      | some e₄ =>
        refine ⟨(congrFun hurb _).trans hkeyframe, ?_⟩
        intro en hen
        rcases hulog en hen with h | h
        · exact hlogchain en h
        · exact h
      | none =>
        refine ⟨(congrFun hurb _).trans hkeyframe, ?_⟩
        intro en hen
        rcases hulog en hen with h | h
        · exact hlogchain en h
        · exact h

def c8User : User :=
  { name := "user-test", nspace := "marina-system", roles := ["SomeRole"],
    deletionTimestamp := none, finalizers := [] }

def c8State : KState :=
  { emptyState with
    users := KMap.empty.insert ⟨"marina-system", "user-test"⟩ c8User
    roles := KMap.empty.insert ⟨"marina-system", "SomeRole"⟩
      ⟨"SomeRole", "marina-system"⟩
    roleBindings := (KMap.empty.insert ⟨"marina-system", "user-test-OtherRole"⟩
      (controller.userRoleBindingForRole c8User "OtherRole")).insert
      ⟨"marina-system", "user-user-test-OtherRole"⟩
      (controllers.desiredRoleBindingForRole c8User "OtherRole") }

theorem claim8_orphan_binding_persists_witness :
    ((controller.UserReconciler.Reconcile c8State
        ⟨"marina-system", "user-test"⟩).1.roleBindings
        ⟨"marina-system", "user-test" ++ "-" ++ "OtherRole"⟩ =
      c8State.roleBindings ⟨"marina-system", "user-test" ++ "-" ++ "OtherRole"⟩ ∧
    (∀ en ∈ (controller.UserReconciler.Reconcile c8State
        ⟨"marina-system", "user-test"⟩).1.log,
      en.op ≠ OpKind.deleteRoleBinding)) ∧
    ((controllers.UserReconciler.Reconcile c8State
        ⟨"marina-system", "user-test"⟩).1.roleBindings
        ⟨"marina-system", "user-" ++ "user-test" ++ "-" ++ "OtherRole"⟩ =
      c8State.roleBindings
        ⟨"marina-system", "user-" ++ "user-test" ++ "-" ++ "OtherRole"⟩ ∧
    (∀ en ∈ (controllers.UserReconciler.Reconcile c8State
        ⟨"marina-system", "user-test"⟩).1.log,
      en.op ≠ OpKind.deleteRoleBinding)) :=
  ⟨(claim8_orphan_binding_persists c8State "marina-system" "user-test"
      "OtherRole" c8User).1 rfl rfl (by decide) rfl rfl rfl (by decide),
    (claim8_orphan_binding_persists c8State "marina-system" "user-test"
      "OtherRole" c8User).2 rfl rfl (by decide) rfl rfl rfl (by decide)⟩

/-! ## Claim C3 -/

theorem reconcileDeployment_benign (s : KState) (t : Terminal) (s' : KState)
    (t' : Terminal)
    (h : controller.TerminalReconciler.reconcileDeployment s t = (s', t', none)) :
    ∀ en ∈ s'.log, en ∈ s.log ∨ en.res = none ∨
      (en.op = OpKind.createDeployment ∧ en.res = some StoreErr.alreadyExists) := by
  intro en hen
  by_cases hdel : t.deletionTimestamp.isSome
  · simp only [controller.TerminalReconciler.reconcileDeployment, hdel, if_true] at h
    by_cases hfin : containsFinalizer t.finalizers TerminalDeploymentFinalizer
    · simp only [hfin, if_true] at h
      have hl := deleteDeploymentOp_log_eq s (controller.deploymentForTerminal t)
      rcases hdo : deleteDeploymentOp s (controller.deploymentForTerminal t)
        with ⟨s₁, r⟩
      rw [hdo] at h hl
      cases r with
      | some e => simp at h
      | none =>
        simp only at h hl
        simp only [Prod.mk.injEq] at h
        obtain ⟨rfl, -, -⟩ := h
        rw [hl] at hen
        rcases List.mem_append.mp hen with hm | ho
        · exact Or.inl hm
        · have hx := List.mem_singleton.mp ho; subst hx
          exact Or.inr (Or.inl rfl)
    · simp only [hfin, Bool.false_eq_true, if_false] at h
      simp only [Prod.mk.injEq] at h
      obtain ⟨rfl, -, -⟩ := h
      exact Or.inl hen
  · simp only [controller.TerminalReconciler.reconcileDeployment, hdel,
      Bool.false_eq_true, if_false] at h
    have hl := createDeploymentOp_log_eq s (controller.deploymentForTerminal t)
    rcases hco : createDeploymentOp s (controller.deploymentForTerminal t)
      with ⟨s₁, r⟩
    rw [hco] at h hl
    simp only at h hl
    simp only [Prod.mk.injEq] at h
    obtain ⟨rfl, -, herr⟩ := h
    rw [hl] at hen
    rcases List.mem_append.mp hen with hm | ho
    · exact Or.inl hm
    · have hx := List.mem_singleton.mp ho; subst hx
      cases r with
      | none => exact Or.inr (Or.inl rfl)
      | some e =>
        cases e with
        | alreadyExists => exact Or.inr (Or.inr ⟨rfl, rfl⟩)
        | notFound => simp [ignoreAlreadyExists] at herr
        | conflict => simp [ignoreAlreadyExists] at herr
        | internalError => simp [ignoreAlreadyExists] at herr

theorem reconcileService_benign (s : KState) (t : Terminal) (s' : KState)
    (t' : Terminal)
    (h : controller.TerminalReconciler.reconcileService s t = (s', t', none)) :
    ∀ en ∈ s'.log, en ∈ s.log ∨ en.res = none ∨
      (en.op = OpKind.createService ∧ en.res = some StoreErr.alreadyExists) := by
  intro en hen
  by_cases hdel : t.deletionTimestamp.isSome
  · simp only [controller.TerminalReconciler.reconcileService, hdel, if_true] at h
    by_cases hfin : containsFinalizer t.finalizers TerminalServiceFinalizer
    · simp only [hfin, if_true] at h
      have hl := deleteServiceOp_log_eq s (controller.serviceForTerminal t)
      rcases hdo : deleteServiceOp s (controller.serviceForTerminal t)
        with ⟨s₁, r⟩
      rw [hdo] at h hl
      cases r with
      | some e => simp at h
      | none =>
        simp only at h hl
        simp only [Prod.mk.injEq] at h
        obtain ⟨rfl, -, -⟩ := h
        rw [hl] at hen
        rcases List.mem_append.mp hen with hm | ho
        · exact Or.inl hm
        · have hx := List.mem_singleton.mp ho; subst hx
          exact Or.inr (Or.inl rfl)
    · simp only [hfin, Bool.false_eq_true, if_false] at h
      simp only [Prod.mk.injEq] at h
      obtain ⟨rfl, -, -⟩ := h
      exact Or.inl hen
  · simp only [controller.TerminalReconciler.reconcileService, hdel,
      Bool.false_eq_true, if_false] at h
    have hl := createServiceOp_log_eq s (controller.serviceForTerminal t)
    rcases hco : createServiceOp s (controller.serviceForTerminal t)
      with ⟨s₁, r⟩
    rw [hco] at h hl
    simp only at h hl
    simp only [Prod.mk.injEq] at h
    obtain ⟨rfl, -, herr⟩ := h
    rw [hl] at hen
    rcases List.mem_append.mp hen with hm | ho
    · exact Or.inl hm
    · have hx := List.mem_singleton.mp ho; subst hx
      cases r with
      | none => exact Or.inr (Or.inl rfl)
      | some e =>
        cases e with
        | alreadyExists => exact Or.inr (Or.inr ⟨rfl, rfl⟩)
        | notFound => simp [ignoreAlreadyExists] at herr
        | conflict => simp [ignoreAlreadyExists] at herr
        | internalError => simp [ignoreAlreadyExists] at herr

theorem reconcileServiceAccount_benign (s : KState) (u : User) (s' : KState)
    (u' : User)
    (h : controller.UserReconciler.reconcileServiceAccount s u = (s', u', none)) :
    ∀ en ∈ s'.log, en ∈ s.log ∨ en.res = none ∨
      (en.op = OpKind.createServiceAccount ∧
        en.res = some StoreErr.alreadyExists) := by
  intro en hen
  by_cases hdel : u.deletionTimestamp.isSome
  · simp only [controller.UserReconciler.reconcileServiceAccount, hdel, if_true] at h
    by_cases hfin : containsFinalizer u.finalizers UserServiceAccountFinalizer
    · simp only [hfin, if_true] at h
      have hl := deleteServiceAccountOp_log_eq s (controller.serviceAccountForUser u)
      rcases hdo : deleteServiceAccountOp s (controller.serviceAccountForUser u)
        with ⟨s₁, r⟩
      rw [hdo] at h hl
      cases r with
      | some e => simp at h
      | none =>
        simp only at h hl
        simp only [Prod.mk.injEq] at h
        obtain ⟨rfl, -, -⟩ := h
        rw [hl] at hen
        rcases List.mem_append.mp hen with hm | ho
        · exact Or.inl hm
        · have hx := List.mem_singleton.mp ho; subst hx
          exact Or.inr (Or.inl rfl)
    · simp only [hfin, Bool.false_eq_true, if_false] at h
      simp only [Prod.mk.injEq] at h
      obtain ⟨rfl, -, -⟩ := h
      exact Or.inl hen
  · simp only [controller.UserReconciler.reconcileServiceAccount, hdel,
      Bool.false_eq_true, if_false] at h
    have hl := createServiceAccountOp_log_eq s (controller.serviceAccountForUser u)
    rcases hco : createServiceAccountOp s (controller.serviceAccountForUser u)
      with ⟨s₁, r⟩
    rw [hco] at h hl
    simp only at h hl
    simp only [Prod.mk.injEq] at h
    obtain ⟨rfl, -, herr⟩ := h
    rw [hl] at hen
    rcases List.mem_append.mp hen with hm | ho
    · exact Or.inl hm
    · have hx := List.mem_singleton.mp ho; subst hx
      cases r with
      | none => exact Or.inr (Or.inl rfl)
      | some e =>
        cases e with
        | alreadyExists => exact Or.inr (Or.inr ⟨rfl, rfl⟩)
        | notFound => simp [ignoreAlreadyExists] at herr
        | conflict => simp [ignoreAlreadyExists] at herr
        | internalError => simp [ignoreAlreadyExists] at herr

theorem roleBindingLoop_benign (u : User) (dl : Bool) :
    ∀ (roles : List String) (s s' : KState),
      controller.UserReconciler.roleBindingLoop s u dl roles = (s', none) →
      ∀ en ∈ s'.log, en ∈ s.log ∨ en.res = none ∨
        (en.op = OpKind.createRoleBinding ∧
          en.res = some StoreErr.alreadyExists) := by
  intro roles
  induction roles with
  | nil =>
    intro s s' h en hen
    simp only [controller.UserReconciler.roleBindingLoop, Prod.mk.injEq] at h
    obtain ⟨rfl, -⟩ := h
    exact Or.inl hen
  | cons role rest ih =>
    intro s s' h en hen
    by_cases hdl : dl = true
    · subst hdl
      simp only [controller.UserReconciler.roleBindingLoop, if_true] at h
      by_cases hfin : containsFinalizer u.finalizers UserRoleBindingFinalizer
      · simp only [hfin, if_true] at h
        have hl := deleteRoleBindingOp_log_eq s (controller.userRoleBindingForRole u role)
        rcases hdo : deleteRoleBindingOp s (controller.userRoleBindingForRole u role)
          with ⟨s₁, r⟩
        rw [hdo] at h hl
        cases r with
        | some e => simp at h
        | none =>
          simp only at h hl
          rcases ih s₁ s' h en hen with hm | hr | hae
          · rw [hl] at hm
            rcases List.mem_append.mp hm with hm2 | ho
            · exact Or.inl hm2
            · have hx := List.mem_singleton.mp ho; subst hx
              exact Or.inr (Or.inl rfl)
          · exact Or.inr (Or.inl hr)
          · exact Or.inr (Or.inr hae)
      · simp only [hfin, Bool.false_eq_true, if_false] at h
        exact ih s s' h en hen
    · have hdl2 : dl = false := by
        cases dl
        · rfl
        · exact absurd rfl hdl
      subst hdl2
      simp only [controller.UserReconciler.roleBindingLoop, Bool.false_eq_true,
        if_false] at h
      have hl := createRoleBindingOp_log_eq s (controller.userRoleBindingForRole u role)
      rcases hco : createRoleBindingOp s (controller.userRoleBindingForRole u role)
        with ⟨s₁, r⟩
      rw [hco] at h hl
      cases r with
      | some e =>
        simp only at h hl
        cases e with
        | alreadyExists =>
          simp only [ignoreAlreadyExists, Option.map, Prod.mk.injEq] at h
          obtain ⟨rfl, -⟩ := h
          rw [hl] at hen
          rcases List.mem_append.mp hen with hm | ho
          · exact Or.inl hm
          · have hx := List.mem_singleton.mp ho; subst hx
            exact Or.inr (Or.inr ⟨rfl, rfl⟩)
        | notFound => simp [ignoreAlreadyExists] at h
        | conflict => simp [ignoreAlreadyExists] at h
        | internalError => simp [ignoreAlreadyExists] at h
      | none =>
        simp only at h hl
        rcases ih s₁ s' h en hen with hm | hr | hae
        · rw [hl] at hm
          rcases List.mem_append.mp hm with hm2 | ho
          · exact Or.inl hm2
          · have hx := List.mem_singleton.mp ho; subst hx
            exact Or.inr (Or.inl rfl)
        · exact Or.inr (Or.inl hr)
        · exact Or.inr (Or.inr hae)

theorem reconcileRoleBindings_benign (s : KState) (u : User) (s' : KState)
    (u' : User)
    (h : controller.UserReconciler.reconcileRoleBindings s u = (s', u', none)) :
    ∀ en ∈ s'.log, en ∈ s.log ∨ en.res = none ∨
      (en.op = OpKind.createRoleBinding ∧
        en.res = some StoreErr.alreadyExists) := by
  intro en hen
  rcases u with ⟨un, uns, urs, udt, ufs⟩
  rcases udt with _ | ts
  · simp only [controller.UserReconciler.reconcileRoleBindings, Option.isSome_none,
      Bool.false_eq_true, if_false] at h
    rcases hlp : controller.UserReconciler.roleBindingLoop s
        ⟨un, uns, urs, none, addFinalizer ufs UserRoleBindingFinalizer⟩ false urs
      with ⟨s₁, r⟩
    rw [hlp] at h
    cases r with
    | some e => simp at h
    | none =>
      simp only [Prod.mk.injEq] at h
      obtain ⟨rfl, -, -⟩ := h
      exact roleBindingLoop_benign
        ⟨un, uns, urs, none, addFinalizer ufs UserRoleBindingFinalizer⟩ false urs
        s s₁ hlp en hen
  · simp only [controller.UserReconciler.reconcileRoleBindings, Option.isSome_some,
      if_true] at h
    rcases hlp : controller.UserReconciler.roleBindingLoop s
        ⟨un, uns, urs, some ts, ufs⟩ true urs
      with ⟨s₁, r⟩
    rw [hlp] at h
    cases r with
    | some e => simp at h
    | none =>
      simp only [Prod.mk.injEq] at h
      obtain ⟨rfl, -, -⟩ := h
      exact roleBindingLoop_benign ⟨un, uns, urs, some ts, ufs⟩ true urs
        s s₁ hlp en hen


theorem TerminalReconcile_benign_log (s : KState) (req : Request)
    (h : (controller.TerminalReconciler.Reconcile s req).2.2 = none) :
    ∀ en ∈ ((controller.TerminalReconciler.Reconcile s req).1).log, ∀ e,
      en.res = some e →
      en ∈ s.log ∨
      (en.op = OpKind.getTerminal ∧ e = StoreErr.notFound) ∨
      (en.op = OpKind.createDeployment ∧ e = StoreErr.alreadyExists) ∨
      (en.op = OpKind.createService ∧ e = StoreErr.alreadyExists) := by
  intro en hen e hres
  unfold controller.TerminalReconciler.Reconcile at h hen
  have hgl := getTerminalOp_log_eq s ⟨req.nspace, req.name⟩
  rcases hget : getTerminalOp s ⟨req.nspace, req.name⟩ with ⟨s₁, res⟩
  rw [hget] at h hen hgl
  cases res with
  | error e₁ =>
    simp only at h hen hgl
    cases e₁ with
    | notFound =>
      rw [hgl] at hen
      rcases List.mem_append.mp hen with hm | ho
      · exact Or.inl hm
      · have hx := List.mem_singleton.mp ho; subst hx
        refine Or.inr (Or.inl ⟨rfl, ?_⟩)
        have hy : some StoreErr.notFound = some e := hres
        exact (Option.some.inj hy).symm
    | alreadyExists => simp [ignoreNotFound] at h
    | conflict => simp [ignoreNotFound] at h
    | internalError => simp [ignoreNotFound] at h
  | ok t =>
    simp only at h hen hgl
    rcases hdep : controller.TerminalReconciler.reconcileDeployment s₁ t
      with ⟨s₂, t₁, r₂⟩
    rw [hdep] at h hen
    cases r₂ with
    | some e₂ => simp at h
    | none =>
      simp only at h hen
      rcases hsvc : controller.TerminalReconciler.reconcileService s₂ t₁
        with ⟨s₃, t₂, r₃⟩
      rw [hsvc] at h hen
      cases r₃ with
      | some e₃ => simp at h
      | none =>
        simp only at h hen
        have hul := updateTerminalOp_log_eq s₃ t₂
        rcases hup : updateTerminalOp s₃ t₂ with ⟨s₄, r₄⟩
        rw [hup] at h hen hul
        cases r₄ with
        | some e₄ => simp at h
        | none =>
          simp only at hen hul
          rw [hul] at hen
          rcases List.mem_append.mp hen with h3 | ho
          · rcases reconcileService_benign s₂ t₁ s₃ t₂ hsvc en h3 with h2 | hr | hae
            · rcases reconcileDeployment_benign s₁ t s₂ t₁ hdep en h2
                with h1 | hr | hae
              · rw [hgl] at h1
                rcases List.mem_append.mp h1 with hm | ho2
                · exact Or.inl hm
                · have hx := List.mem_singleton.mp ho2; subst hx
                  exact absurd hres (by simp [exceptErr])
              · rw [hr] at hres; exact Option.noConfusion hres
              · refine Or.inr (Or.inr (Or.inl ⟨hae.1, ?_⟩))
                rw [hae.2] at hres
                exact (Option.some.inj hres).symm
            · rw [hr] at hres; exact Option.noConfusion hres
            · refine Or.inr (Or.inr (Or.inr ⟨hae.1, ?_⟩))
              rw [hae.2] at hres
              exact (Option.some.inj hres).symm
          · have hx := List.mem_singleton.mp ho; subst hx
            exact Option.noConfusion hres

theorem UserReconcile_benign_log (s : KState) (req : Request)
    (h : (controller.UserReconciler.Reconcile s req).2.2 = none) :
    ∀ en ∈ ((controller.UserReconciler.Reconcile s req).1).log, ∀ e,
      en.res = some e →
      en ∈ s.log ∨
      (en.op = OpKind.getUser ∧ e = StoreErr.notFound) ∨
      (en.op = OpKind.createServiceAccount ∧ e = StoreErr.alreadyExists) ∨
      (en.op = OpKind.createRoleBinding ∧ e = StoreErr.alreadyExists) := by
  intro en hen e hres
  unfold controller.UserReconciler.Reconcile at h hen
  have hgl := getUserOp_log_eq s ⟨req.nspace, req.name⟩
  rcases hget : getUserOp s ⟨req.nspace, req.name⟩ with ⟨s₁, res⟩
  rw [hget] at h hen hgl
  cases res with
  | error e₁ =>
    simp only at h hen hgl
    cases e₁ with
    | notFound =>
      rw [hgl] at hen
      rcases List.mem_append.mp hen with hm | ho
      · exact Or.inl hm
      · have hx := List.mem_singleton.mp ho; subst hx
        refine Or.inr (Or.inl ⟨rfl, ?_⟩)
        have hy : some StoreErr.notFound = some e := hres
        exact (Option.some.inj hy).symm
    | alreadyExists => simp [ignoreNotFound] at h
    | conflict => simp [ignoreNotFound] at h
    | internalError => simp [ignoreNotFound] at h
  | ok u =>
    simp only at h hen hgl
    rcases hsa : controller.UserReconciler.reconcileServiceAccount s₁ u
      with ⟨s₂, u₁, r₂⟩
    rw [hsa] at h hen
    cases r₂ with
    | some e₂ => simp at h
    | none =>
      simp only at h hen
      rcases hrb : controller.UserReconciler.reconcileRoleBindings s₂ u₁
        with ⟨s₃, u₂, r₃⟩
      rw [hrb] at h hen
      cases r₃ with
      | some e₃ => simp at h
      | none =>
        simp only at h hen
        have hul := updateUserOp_log_eq s₃ u₂
        rcases hup : updateUserOp s₃ u₂ with ⟨s₄, r₄⟩
        rw [hup] at h hen hul
        cases r₄ with
        | some e₄ => simp at h
        | none =>
          simp only at hen hul
          rw [hul] at hen
          rcases List.mem_append.mp hen with h3 | ho
          · rcases reconcileRoleBindings_benign s₂ u₁ s₃ u₂ hrb en h3
              with h2 | hr | hae
            · rcases reconcileServiceAccount_benign s₁ u s₂ u₁ hsa en h2
                with h1 | hr | hae
              · rw [hgl] at h1
                rcases List.mem_append.mp h1 with hm | ho2
                · exact Or.inl hm
                · have hx := List.mem_singleton.mp ho2; subst hx
                  exact absurd hres (by simp [exceptErr])
              · rw [hr] at hres; exact Option.noConfusion hres
              · refine Or.inr (Or.inr (Or.inl ⟨hae.1, ?_⟩))
                rw [hae.2] at hres
                exact (Option.some.inj hres).symm
            · rw [hr] at hres; exact Option.noConfusion hres
            · refine Or.inr (Or.inr (Or.inr ⟨hae.1, ?_⟩))
              rw [hae.2] at hres
              exact (Option.some.inj hres).symm
          · have hx := List.mem_singleton.mp ho; subst hx
            exact Option.noConfusion hres

theorem primary_get_fault_errors (s : KState) (req : Request) (e : StoreErr)
    (rest : List (Option StoreErr)) (hf : s.faults = some e :: rest)
    (hne : e ≠ StoreErr.notFound) :
    ((controller.TerminalReconciler.Reconcile s req).2.2).isSome = true ∧
    ((controller.UserReconciler.Reconcile s req).2.2).isSome = true ∧
    ((controllers.UserReconciler.Reconcile s req).2.2).isSome = true := by
  rcases s with ⟨tm, um, dm, sm, am, rm, bm, fl, lg⟩
  simp only at hf
  subst hf
  refine ⟨?_, ?_, ?_⟩ <;>
    (cases e with
     | notFound => exact absurd rfl hne
     | alreadyExists => rfl
     | conflict => rfl
     | internalError => rfl)


/-- Fixture for the C3 counterexample: a deleting User whose role-binding
delete is answered by an injected `internalError`. -/
def c3User : User :=
  { name := "u", nspace := "ns", roles := ["A"],
    deletionTimestamp := some 0, finalizers := [UserRoleBindingFinalizer] }

def c3State : KState :=
  { emptyState with
    users := KMap.empty.insert ⟨"ns", "u"⟩ c3User
    roleBindings := KMap.empty.insert ⟨"ns", "user-u-A"⟩
      (controllers.desiredRoleBindingForRole c3User "A")
    faults := [none, some StoreErr.internalError] }

/-- C3 counterexample: the legacy `controllers` UserReconciler silently
discards a non-NotFound store error.  On a deleting User the role-binding
Delete fails with `internalError`, yet the loop falls through
(`err != nil && errors.IsNotFound(err)` is the inverted guard), the
finalizer is removed, and the whole Reconcile pass returns a nil error even
though the log records the failed Delete. -/
theorem claim3_counterexample :
    (controllers.UserReconciler.Reconcile c3State ⟨"ns", "u"⟩).2.2 = none ∧
    (⟨OpKind.deleteRoleBinding, ⟨"ns", "user-u-A"⟩,
        some StoreErr.internalError⟩ : LogEntry) ∈
      ((controllers.UserReconciler.Reconcile c3State ⟨"ns", "u"⟩).1).log := by
  decide

/-- C3 (amended): in the internal/controller reconcilers a pass that
returns a nil error can only have discarded a NotFound from the initial Get
of the primary object or an AlreadyExists from a Create of a derived
object — every log entry of a successful pass that records a store error is
one of those two benign cases; and for all three Reconcile entry points
(including the legacy controllers package), a non-NotFound failure of the
primary Get yields a non-nil reconcile error.  (The legacy delete path does
silently discard non-NotFound Delete errors — see the counterexample.) -/
theorem claim3_amended :
    (∀ (s : KState) (req : Request),
        (controller.TerminalReconciler.Reconcile s req).2.2 = none →
        ∀ en ∈ ((controller.TerminalReconciler.Reconcile s req).1).log, ∀ e,
          en.res = some e →
          en ∈ s.log ∨
          (en.op = OpKind.getTerminal ∧ e = StoreErr.notFound) ∨
          (en.op = OpKind.createDeployment ∧ e = StoreErr.alreadyExists) ∨
          (en.op = OpKind.createService ∧ e = StoreErr.alreadyExists)) ∧
    (∀ (s : KState) (req : Request),
        (controller.UserReconciler.Reconcile s req).2.2 = none →
        ∀ en ∈ ((controller.UserReconciler.Reconcile s req).1).log, ∀ e,
          en.res = some e →
          en ∈ s.log ∨
          (en.op = OpKind.getUser ∧ e = StoreErr.notFound) ∨
          (en.op = OpKind.createServiceAccount ∧ e = StoreErr.alreadyExists) ∨
          (en.op = OpKind.createRoleBinding ∧ e = StoreErr.alreadyExists)) ∧
    (∀ (s : KState) (req : Request) (e : StoreErr)
        (rest : List (Option StoreErr)),
        s.faults = some e :: rest → e ≠ StoreErr.notFound →
        ((controller.TerminalReconciler.Reconcile s req).2.2).isSome = true ∧
        ((controller.UserReconciler.Reconcile s req).2.2).isSome = true ∧
        ((controllers.UserReconciler.Reconcile s req).2.2).isSome = true) :=
  ⟨TerminalReconcile_benign_log, UserReconcile_benign_log,
    fun s req e rest hf hne => primary_get_fault_errors s req e rest hf hne⟩

/-- Witness fixtures for C3: a Terminal whose Deployment already exists
(so the pass succeeds while logging a benign AlreadyExists), and a store
whose first injected fault is an `internalError`. -/
def c3wTerminal : Terminal :=
  { name := "t", nspace := "ns", image := "img",
    deletionTimestamp := none, finalizers := [] }

def c3wState : KState :=
  { emptyState with
    terminals := KMap.empty.insert ⟨"ns", "t"⟩ c3wTerminal
    deployments := KMap.empty.insert ⟨"ns", "marina-terminal-t"⟩
      (controller.deploymentForTerminal c3wTerminal) }

def c3fState : KState :=
  { emptyState with faults := [some StoreErr.internalError] }

theorem claim3_amended_witness :
    ((⟨OpKind.createDeployment, ⟨"ns", "marina-terminal-t"⟩,
        some StoreErr.alreadyExists⟩ : LogEntry) ∈ c3wState.log ∨
      (OpKind.createDeployment = OpKind.getTerminal ∧
        StoreErr.alreadyExists = StoreErr.notFound) ∨
      (OpKind.createDeployment = OpKind.createDeployment ∧
        StoreErr.alreadyExists = StoreErr.alreadyExists) ∨
      (OpKind.createDeployment = OpKind.createService ∧
        StoreErr.alreadyExists = StoreErr.alreadyExists)) ∧
    ((controllers.UserReconciler.Reconcile c3fState ⟨"ns", "u"⟩).2.2).isSome
      = true :=
  ⟨claim3_amended.1 c3wState ⟨"ns", "t"⟩ (by decide)
      ⟨OpKind.createDeployment, ⟨"ns", "marina-terminal-t"⟩,
        some StoreErr.alreadyExists⟩ (by decide) StoreErr.alreadyExists rfl,
    (claim3_amended.2.2 c3fState ⟨"ns", "u"⟩ StoreErr.internalError [] rfl
      (by decide)).2.2⟩

/-! ## Claim C9 -/

/-- Equality of all seven object maps: the observable cluster content. -/
def KState.sameObjects (a b : KState) : Prop :=
  a.terminals = b.terminals ∧ a.users = b.users ∧ a.deployments = b.deployments ∧
  a.services = b.services ∧ a.serviceAccounts = b.serviceAccounts ∧
  a.roles = b.roles ∧ a.roleBindings = b.roleBindings

theorem reconcileDeployment_create_present (s : KState) (t : Terminal)
    (hf : s.faults = []) (hd : t.deletionTimestamp.isSome = false)
    (hp : (s.deployments ⟨t.nspace, "marina-terminal-" ++ t.name⟩).isSome = true) :
    controller.TerminalReconciler.reconcileDeployment s t =
      (s.logged .createDeployment ⟨t.nspace, "marina-terminal-" ++ t.name⟩
        (some .alreadyExists),
       { t with finalizers := addFinalizer t.finalizers TerminalDeploymentFinalizer },
       none) := by
  have hc := createDeploymentOp_present s (controller.deploymentForTerminal t) hf hp
  simp only [controller.TerminalReconciler.reconcileDeployment, hd,
    Bool.false_eq_true, if_false]
  rw [hc]
  simp [controller.deploymentForTerminal, ignoreAlreadyExists]

theorem reconcileDeployment_create_absent (s : KState) (t : Terminal)
    (hf : s.faults = []) (hd : t.deletionTimestamp.isSome = false)
    (hp : s.deployments ⟨t.nspace, "marina-terminal-" ++ t.name⟩ = none) :
    controller.TerminalReconciler.reconcileDeployment s t =
      ({ s with deployments := (s.deployments.insert ⟨t.nspace, "marina-terminal-" ++ t.name⟩ (controller.deploymentForTerminal t)) }.logged
        .createDeployment ⟨t.nspace, "marina-terminal-" ++ t.name⟩ none,
       { t with finalizers := addFinalizer t.finalizers TerminalDeploymentFinalizer },
       none) := by
  have hc := createDeploymentOp_absent s (controller.deploymentForTerminal t) hf hp
  simp only [controller.TerminalReconciler.reconcileDeployment, hd,
    Bool.false_eq_true, if_false]
  rw [hc]
  simp [controller.deploymentForTerminal, ignoreAlreadyExists]

theorem reconcileDeployment_delete_present (s : KState) (t : Terminal)
    (hf : s.faults = []) (hd : t.deletionTimestamp.isSome = true)
    (hfin : containsFinalizer t.finalizers TerminalDeploymentFinalizer = true)
    (hp : (s.deployments ⟨t.nspace, "marina-terminal-" ++ t.name⟩).isSome = true) :
    controller.TerminalReconciler.reconcileDeployment s t =
      ({ s with deployments := (s.deployments.erase ⟨t.nspace, "marina-terminal-" ++ t.name⟩) }.logged
        .deleteDeployment ⟨t.nspace, "marina-terminal-" ++ t.name⟩ none,
       { t with finalizers := (removeFinalizer t.finalizers TerminalDeploymentFinalizer) },
       none) := by
  have hc := deleteDeploymentOp_present s (controller.deploymentForTerminal t) hf hp
  simp only [controller.TerminalReconciler.reconcileDeployment, hd, hfin, if_true]
  rw [hc]
  simp [controller.deploymentForTerminal]

theorem reconcileDeployment_delete_absent (s : KState) (t : Terminal)
    (hf : s.faults = []) (hd : t.deletionTimestamp.isSome = true)
    (hfin : containsFinalizer t.finalizers TerminalDeploymentFinalizer = true)
    (hp : s.deployments ⟨t.nspace, "marina-terminal-" ++ t.name⟩ = none) :
    controller.TerminalReconciler.reconcileDeployment s t =
      (s.logged .deleteDeployment ⟨t.nspace, "marina-terminal-" ++ t.name⟩
        (some .notFound),
       t, some (.wrapped "could not delete deployment" .notFound)) := by
  have hc := deleteDeploymentOp_absent s (controller.deploymentForTerminal t) hf hp
  simp only [controller.TerminalReconciler.reconcileDeployment, hd, hfin, if_true]
  rw [hc]
  simp [controller.deploymentForTerminal]

theorem reconcileService_create_present (s : KState) (t : Terminal)
    (hf : s.faults = []) (hd : t.deletionTimestamp.isSome = false)
    (hp : (s.services ⟨t.nspace, "marina-terminal-" ++ t.name⟩).isSome = true) :
    controller.TerminalReconciler.reconcileService s t =
      (s.logged .createService ⟨t.nspace, "marina-terminal-" ++ t.name⟩
        (some .alreadyExists),
       { t with finalizers := addFinalizer t.finalizers TerminalServiceFinalizer },
       none) := by
  have hc := createServiceOp_present s (controller.serviceForTerminal t) hf hp
  simp only [controller.TerminalReconciler.reconcileService, hd,
    Bool.false_eq_true, if_false]
  rw [hc]
  simp [controller.serviceForTerminal, ignoreAlreadyExists]

theorem reconcileService_create_absent (s : KState) (t : Terminal)
    (hf : s.faults = []) (hd : t.deletionTimestamp.isSome = false)
    (hp : s.services ⟨t.nspace, "marina-terminal-" ++ t.name⟩ = none) :
    controller.TerminalReconciler.reconcileService s t =
      ({ s with services := (s.services.insert ⟨t.nspace, "marina-terminal-" ++ t.name⟩ (controller.serviceForTerminal t)) }.logged
        .createService ⟨t.nspace, "marina-terminal-" ++ t.name⟩ none,
       { t with finalizers := addFinalizer t.finalizers TerminalServiceFinalizer },
       none) := by
  have hc := createServiceOp_absent s (controller.serviceForTerminal t) hf hp
  simp only [controller.TerminalReconciler.reconcileService, hd,
    Bool.false_eq_true, if_false]
  rw [hc]
  simp [controller.serviceForTerminal, ignoreAlreadyExists]

theorem reconcileService_delete_present (s : KState) (t : Terminal)
    (hf : s.faults = []) (hd : t.deletionTimestamp.isSome = true)
    (hfin : containsFinalizer t.finalizers TerminalServiceFinalizer = true)
    (hp : (s.services ⟨t.nspace, "marina-terminal-" ++ t.name⟩).isSome = true) :
    controller.TerminalReconciler.reconcileService s t =
      ({ s with services := (s.services.erase ⟨t.nspace, "marina-terminal-" ++ t.name⟩) }.logged
        .deleteService ⟨t.nspace, "marina-terminal-" ++ t.name⟩ none,
       { t with finalizers := (removeFinalizer t.finalizers TerminalServiceFinalizer) },
       none) := by
  have hc := deleteServiceOp_present s (controller.serviceForTerminal t) hf hp
  simp only [controller.TerminalReconciler.reconcileService, hd, hfin, if_true]
  rw [hc]
  simp [controller.serviceForTerminal]

theorem reconcileService_delete_absent (s : KState) (t : Terminal)
    (hf : s.faults = []) (hd : t.deletionTimestamp.isSome = true)
    (hfin : containsFinalizer t.finalizers TerminalServiceFinalizer = true)
    (hp : s.services ⟨t.nspace, "marina-terminal-" ++ t.name⟩ = none) :
    controller.TerminalReconciler.reconcileService s t =
      (s.logged .deleteService ⟨t.nspace, "marina-terminal-" ++ t.name⟩
        (some .notFound),
       t, some (.wrapped "could not delete service" .notFound)) := by
  have hc := deleteServiceOp_absent s (controller.serviceForTerminal t) hf hp
  simp only [controller.TerminalReconciler.reconcileService, hd, hfin, if_true]
  rw [hc]
  simp [controller.serviceForTerminal]


/-- A store state is terminal-stable at key `k` when the object there (if
any) carries correct identity metadata and has already been fully acted
on: a live object has both finalizers and both derived resources, a
deleting object has neither finalizer left but a non-empty finalizer list
(otherwise the store would have erased it). -/
def TerminalStable (s : KState) (k : ObjKey) : Prop :=
  s.faults = [] ∧
  ∀ t, s.terminals k = some t →
    t.nspace = k.nspace ∧ t.name = k.name ∧
    (t.deletionTimestamp.isSome = true →
      containsFinalizer t.finalizers TerminalDeploymentFinalizer = false ∧
      containsFinalizer t.finalizers TerminalServiceFinalizer = false ∧
      t.finalizers ≠ []) ∧
    (t.deletionTimestamp.isSome = false →
      containsFinalizer t.finalizers TerminalDeploymentFinalizer = true ∧
      containsFinalizer t.finalizers TerminalServiceFinalizer = true ∧
      (s.deployments ⟨t.nspace, "marina-terminal-" ++ t.name⟩).isSome = true ∧
      (s.services ⟨t.nspace, "marina-terminal-" ++ t.name⟩).isSome = true)

theorem terminal_stable_pass (s : KState) (req : Request)
    (hs : TerminalStable s ⟨req.nspace, req.name⟩) :
    (controller.TerminalReconciler.Reconcile s req).2.2 = none ∧
    KState.sameObjects (controller.TerminalReconciler.Reconcile s req).1 s := by
  obtain ⟨hf, hobj⟩ := hs
  rcases hget : s.terminals ⟨req.nspace, req.name⟩ with _ | t
  · rw [controller.TerminalReconciler.Reconcile,
      getTerminalOp_missing s _ hf hget]
    exact ⟨rfl, rfl, rfl, rfl, rfl, rfl, rfl, rfl⟩
  · obtain ⟨hns, hn, hdel, hcre⟩ := hobj t hget
    have hkm : (⟨t.nspace, t.name⟩ : ObjKey) = ⟨req.nspace, req.name⟩ := by
      rw [hns, hn]
    by_cases hd : t.deletionTimestamp.isSome
    · obtain ⟨hf1, hf2, hne⟩ := hdel hd
      rw [controller.TerminalReconciler.Reconcile,
        getTerminalOp_found s _ t hf hget]
      simp only
      rw [reconcileDeployment_skip
        (s.logged .getTerminal ⟨req.nspace, req.name⟩ none) t hd hf1]
      simp only
      rw [reconcileService_skip
        (s.logged .getTerminal ⟨req.nspace, req.name⟩ none) t hd hf2]
      simp only
      rw [updateTerminalOp_write
        (s.logged .getTerminal ⟨req.nspace, req.name⟩ none) t t hf
        (by rw [hkm]; exact hget) (fun hc => hne hc.2)]
      refine ⟨rfl, ?_, rfl, rfl, rfl, rfl, rfl, rfl⟩
      exact KMap.insert_eq_self _ _ _ (by rw [hkm]; exact hget)
    · have hd2 : t.deletionTimestamp.isSome = false := by
        cases hx : t.deletionTimestamp.isSome
        · rfl
        · exact absurd hx hd
      obtain ⟨hc1, hc2, hdp, hsp⟩ := hcre hd2
      rw [controller.TerminalReconciler.Reconcile,
        getTerminalOp_found s _ t hf hget]
      simp only
      rw [reconcileDeployment_create_present
        (s.logged .getTerminal ⟨req.nspace, req.name⟩ none) t hf hd2 hdp]
      simp only
      rw [addFinalizer_of_contains _ _ hc1]
      rw [reconcileService_create_present
        ((s.logged .getTerminal ⟨req.nspace, req.name⟩ none).logged
          .createDeployment ⟨t.nspace, "marina-terminal-" ++ t.name⟩
          (some .alreadyExists))
        { t with finalizers := t.finalizers } hf hd2 hsp]
      simp only
      rw [addFinalizer_of_contains _ _ hc2]
      rw [updateTerminalOp_write
        (((s.logged .getTerminal ⟨req.nspace, req.name⟩ none).logged
          .createDeployment ⟨t.nspace, "marina-terminal-" ++ t.name⟩
          (some .alreadyExists)).logged
          .createService ⟨t.nspace, "marina-terminal-" ++ t.name⟩
          (some .alreadyExists))
        { t with finalizers := t.finalizers } t hf
        (by rw [hkm]; exact hget)
        (by rw [hd2]; exact fun hc => Bool.noConfusion hc.1)]
      refine ⟨rfl, ?_, rfl, rfl, rfl, rfl, rfl, rfl⟩
      exact KMap.insert_eq_self _ _ _ (by rw [hkm]; exact hget)



theorem reconcileDeployment_create_spec (s : KState) (t : Terminal)
    (s' : KState) (t' : Terminal) (hf : s.faults = [])
    (hd : t.deletionTimestamp.isSome = false)
    (h : controller.TerminalReconciler.reconcileDeployment s t = (s', t', none)) :
    t' = { t with finalizers := addFinalizer t.finalizers TerminalDeploymentFinalizer } ∧
    s'.faults = [] ∧ s'.terminals = s.terminals ∧ s'.users = s.users ∧
    s'.services = s.services ∧ s'.serviceAccounts = s.serviceAccounts ∧
    s'.roles = s.roles ∧ s'.roleBindings = s.roleBindings ∧
    (s'.deployments ⟨t.nspace, "marina-terminal-" ++ t.name⟩).isSome = true := by
  by_cases hdp : (s.deployments ⟨t.nspace, "marina-terminal-" ++ t.name⟩).isSome
  · rw [reconcileDeployment_create_present s t hf hd hdp] at h
    simp only [Prod.mk.injEq] at h
    obtain ⟨hs', ht', -⟩ := h
    subst hs'
    subst ht'
    exact ⟨rfl, hf, rfl, rfl, rfl, rfl, rfl, rfl, hdp⟩
  · have hdp2 : s.deployments ⟨t.nspace, "marina-terminal-" ++ t.name⟩ = none := by
      rcases hy : s.deployments ⟨t.nspace, "marina-terminal-" ++ t.name⟩ with _ | d
      · rfl
      · rw [hy] at hdp; exact absurd rfl hdp
    rw [reconcileDeployment_create_absent s t hf hd hdp2] at h
    simp only [Prod.mk.injEq] at h
    obtain ⟨hs', ht', -⟩ := h
    subst hs'
    subst ht'
    refine ⟨rfl, hf, rfl, rfl, rfl, rfl, rfl, rfl, ?_⟩
    show ((s.deployments.insert ⟨t.nspace, "marina-terminal-" ++ t.name⟩
      (controller.deploymentForTerminal t)) ⟨t.nspace, "marina-terminal-" ++ t.name⟩).isSome = true
    rw [KMap.insert_self]
    rfl

theorem reconcileDeployment_deleting_spec (s : KState) (t : Terminal)
    (s' : KState) (t' : Terminal) (hf : s.faults = [])
    (hd : t.deletionTimestamp.isSome = true)
    (hfd : containsFinalizer t.finalizers TerminalDeploymentFinalizer = true)
    (h : controller.TerminalReconciler.reconcileDeployment s t = (s', t', none)) :
    t' = { t with finalizers := (removeFinalizer t.finalizers TerminalDeploymentFinalizer) } ∧
    s'.faults = [] ∧ s'.terminals = s.terminals ∧ s'.users = s.users ∧
    s'.services = s.services ∧ s'.serviceAccounts = s.serviceAccounts ∧
    s'.roles = s.roles ∧ s'.roleBindings = s.roleBindings := by
  by_cases hdp : (s.deployments ⟨t.nspace, "marina-terminal-" ++ t.name⟩).isSome
  · rw [reconcileDeployment_delete_present s t hf hd hfd hdp] at h
    simp only [Prod.mk.injEq] at h
    obtain ⟨hs', ht', -⟩ := h
    subst hs'
    subst ht'
    exact ⟨rfl, hf, rfl, rfl, rfl, rfl, rfl, rfl⟩
  · have hdp2 : s.deployments ⟨t.nspace, "marina-terminal-" ++ t.name⟩ = none := by
      rcases hy : s.deployments ⟨t.nspace, "marina-terminal-" ++ t.name⟩ with _ | d
      · rfl
      · rw [hy] at hdp; exact absurd rfl hdp
    rw [reconcileDeployment_delete_absent s t hf hd hfd hdp2] at h
    simp only [Prod.mk.injEq] at h
    exact Option.noConfusion h.2.2

theorem reconcileService_create_spec (s : KState) (t : Terminal)
    (s' : KState) (t' : Terminal) (hf : s.faults = [])
    (hd : t.deletionTimestamp.isSome = false)
    (h : controller.TerminalReconciler.reconcileService s t = (s', t', none)) :
    t' = { t with finalizers := addFinalizer t.finalizers TerminalServiceFinalizer } ∧
    s'.faults = [] ∧ s'.terminals = s.terminals ∧ s'.users = s.users ∧
    s'.deployments = s.deployments ∧ s'.serviceAccounts = s.serviceAccounts ∧
    s'.roles = s.roles ∧ s'.roleBindings = s.roleBindings ∧
    (s'.services ⟨t.nspace, "marina-terminal-" ++ t.name⟩).isSome = true := by
  by_cases hsp : (s.services ⟨t.nspace, "marina-terminal-" ++ t.name⟩).isSome
  · rw [reconcileService_create_present s t hf hd hsp] at h
    simp only [Prod.mk.injEq] at h
    obtain ⟨hs', ht', -⟩ := h
    subst hs'
    subst ht'
    exact ⟨rfl, hf, rfl, rfl, rfl, rfl, rfl, rfl, hsp⟩
  · have hsp2 : s.services ⟨t.nspace, "marina-terminal-" ++ t.name⟩ = none := by
      rcases hy : s.services ⟨t.nspace, "marina-terminal-" ++ t.name⟩ with _ | v
      · rfl
      · rw [hy] at hsp; exact absurd rfl hsp
    rw [reconcileService_create_absent s t hf hd hsp2] at h
    simp only [Prod.mk.injEq] at h
    obtain ⟨hs', ht', -⟩ := h
    subst hs'
    subst ht'
    refine ⟨rfl, hf, rfl, rfl, rfl, rfl, rfl, rfl, ?_⟩
    show ((s.services.insert ⟨t.nspace, "marina-terminal-" ++ t.name⟩
      (controller.serviceForTerminal t)) ⟨t.nspace, "marina-terminal-" ++ t.name⟩).isSome = true
    rw [KMap.insert_self]
    rfl

theorem reconcileService_deleting_spec (s : KState) (t : Terminal)
    (s' : KState) (t' : Terminal) (hf : s.faults = [])
    (hd : t.deletionTimestamp.isSome = true)
    (hfs : containsFinalizer t.finalizers TerminalServiceFinalizer = true)
    (h : controller.TerminalReconciler.reconcileService s t = (s', t', none)) :
    t' = { t with finalizers := (removeFinalizer t.finalizers TerminalServiceFinalizer) } ∧
    s'.faults = [] ∧ s'.terminals = s.terminals ∧ s'.users = s.users ∧
    s'.deployments = s.deployments ∧ s'.serviceAccounts = s.serviceAccounts ∧
    s'.roles = s.roles ∧ s'.roleBindings = s.roleBindings := by
  by_cases hsp : (s.services ⟨t.nspace, "marina-terminal-" ++ t.name⟩).isSome
  · rw [reconcileService_delete_present s t hf hd hfs hsp] at h
    simp only [Prod.mk.injEq] at h
    obtain ⟨hs', ht', -⟩ := h
    subst hs'
    subst ht'
    exact ⟨rfl, hf, rfl, rfl, rfl, rfl, rfl, rfl⟩
  · have hsp2 : s.services ⟨t.nspace, "marina-terminal-" ++ t.name⟩ = none := by
      rcases hy : s.services ⟨t.nspace, "marina-terminal-" ++ t.name⟩ with _ | v
      · rfl
      · rw [hy] at hsp; exact absurd rfl hsp
    rw [reconcileService_delete_absent s t hf hd hfs hsp2] at h
    simp only [Prod.mk.injEq] at h
    exact Option.noConfusion h.2.2



theorem terminal_pass_stabilizes (s : KState) (req : Request)
    (hf : s.faults = [])
    (hid : ∀ t, s.terminals ⟨req.nspace, req.name⟩ = some t →
      t.nspace = req.nspace ∧ t.name = req.name)
    (h1 : (controller.TerminalReconciler.Reconcile s req).2.2 = none) :
    TerminalStable (controller.TerminalReconciler.Reconcile s req).1
      ⟨req.nspace, req.name⟩ := by
  have hTDS : TerminalDeploymentFinalizer ≠ TerminalServiceFinalizer := by decide
  rcases req with ⟨rns, rn⟩
  rcases hget : s.terminals ⟨rns, rn⟩ with _ | t
  · rw [controller.TerminalReconciler.Reconcile,
      getTerminalOp_missing s _ hf hget] at h1 ⊢
    refine ⟨hf, fun t' ht' => ?_⟩
    have hx : s.terminals ⟨rns, rn⟩ = some t' := ht'
    rw [hget] at hx
    exact Option.noConfusion hx
  · obtain ⟨hns, hn⟩ := hid t hget
    subst hns
    subst hn
    rw [controller.TerminalReconciler.Reconcile,
      getTerminalOp_found s _ t hf hget] at h1 ⊢
    simp only at h1 ⊢
    rcases hdep : controller.TerminalReconciler.reconcileDeployment
        (s.logged .getTerminal ⟨t.nspace, t.name⟩ none) t with ⟨S2, t₁, r₂⟩
    rw [hdep] at h1
    cases r₂ with
    | some e => simp at h1
    | none =>
    simp only at h1 ⊢
    rcases hsvc : controller.TerminalReconciler.reconcileService S2 t₁
      with ⟨S3, t₂, r₃⟩
    rw [hsvc] at h1
    cases r₃ with
    | some e => simp at h1
    | none =>
    simp only at h1 ⊢
    rcases hup : updateTerminalOp S3 t₂ with ⟨S4, r₄⟩
    rw [hup] at h1
    cases r₄ with
    | some e => simp at h1
    | none =>
    simp only at h1 ⊢
    by_cases hd : t.deletionTimestamp.isSome
    · -- teardown pass
      by_cases hfd : containsFinalizer t.finalizers TerminalDeploymentFinalizer
      · obtain ⟨ht₁, hf2, hT2, hU2, hV2, hA2, hR2, hB2⟩ :=
          reconcileDeployment_deleting_spec
            (s.logged .getTerminal ⟨t.nspace, t.name⟩ none) t S2 t₁ hf hd hfd hdep
        subst ht₁
        have hf2s : S2.faults = [] := hf2
        have hterm2 : S2.terminals ⟨t.nspace, t.name⟩ = some t := by
          rw [hT2]; exact hget
        by_cases hfs : containsFinalizer
            (removeFinalizer t.finalizers TerminalDeploymentFinalizer)
            TerminalServiceFinalizer
        · obtain ⟨ht₂, hf3, hT3, hU3, hD3, hA3, hR3, hB3⟩ :=
            reconcileService_deleting_spec S2
              { t with finalizers := (removeFinalizer t.finalizers TerminalDeploymentFinalizer) }
              S3 t₂ hf2s hd hfs hsvc
          subst ht₂
          have hf3s : S3.faults = [] := hf3
          have hterm3 : S3.terminals ⟨t.nspace, t.name⟩ = some t := by
            rw [hT3]; exact hterm2
          by_cases hfe : removeFinalizer
              (removeFinalizer t.finalizers TerminalDeploymentFinalizer)
              TerminalServiceFinalizer = []
          · rw [updateTerminalOp_erase S3
              { t with finalizers := (removeFinalizer (removeFinalizer t.finalizers TerminalDeploymentFinalizer) TerminalServiceFinalizer) }
              t hf3s hterm3 hd hfe] at hup
            simp only [Prod.mk.injEq] at hup
            obtain ⟨hS4, -⟩ := hup
            subst hS4
            refine ⟨hf3s, fun t' ht' => ?_⟩
            have hx : (S3.terminals.erase ⟨t.nspace, t.name⟩) ⟨t.nspace, t.name⟩
                = some t' := ht'
            rw [KMap.erase_self] at hx
            exact Option.noConfusion hx
          · rw [updateTerminalOp_write S3
              { t with finalizers := (removeFinalizer (removeFinalizer t.finalizers TerminalDeploymentFinalizer) TerminalServiceFinalizer) }
              t hf3s hterm3 (fun hc => hfe hc.2)] at hup
            simp only [Prod.mk.injEq] at hup
            obtain ⟨hS4, -⟩ := hup
            subst hS4
            refine ⟨hf3s, fun t' ht' => ?_⟩
            have hx : (S3.terminals.insert ⟨t.nspace, t.name⟩
                { t with finalizers := (removeFinalizer (removeFinalizer t.finalizers TerminalDeploymentFinalizer) TerminalServiceFinalizer) })
                ⟨t.nspace, t.name⟩ = some t' := ht'
            rw [KMap.insert_self] at hx
            cases Option.some.inj hx
            refine ⟨rfl, rfl, fun _ => ⟨?_, removeFinalizer_not_contains _ _, hfe⟩,
              fun h0 => Bool.noConfusion (hd.symm.trans h0)⟩
            rw [removeFinalizer_contains_other _ _ _ hTDS]
            exact removeFinalizer_not_contains _ _
        · have hsk := reconcileService_skip S2
            { t with finalizers := (removeFinalizer t.finalizers TerminalDeploymentFinalizer) }
            hd (by simpa using hfs)
          rw [hsk] at hsvc
          simp only [Prod.mk.injEq] at hsvc
          obtain ⟨hS3, ht₂, -⟩ := hsvc
          subst hS3
          subst ht₂
          by_cases hfe : removeFinalizer t.finalizers TerminalDeploymentFinalizer = []
          · rw [updateTerminalOp_erase S2
              { t with finalizers := (removeFinalizer t.finalizers TerminalDeploymentFinalizer) }
              t hf2s hterm2 hd hfe] at hup
            simp only [Prod.mk.injEq] at hup
            obtain ⟨hS4, -⟩ := hup
            subst hS4
            refine ⟨hf2s, fun t' ht' => ?_⟩
            have hx : (S2.terminals.erase ⟨t.nspace, t.name⟩) ⟨t.nspace, t.name⟩
                = some t' := ht'
            rw [KMap.erase_self] at hx
            exact Option.noConfusion hx
          · rw [updateTerminalOp_write S2
              { t with finalizers := (removeFinalizer t.finalizers TerminalDeploymentFinalizer) }
              t hf2s hterm2 (fun hc => hfe hc.2)] at hup
            simp only [Prod.mk.injEq] at hup
            obtain ⟨hS4, -⟩ := hup
            subst hS4
            refine ⟨hf2s, fun t' ht' => ?_⟩
            have hx : (S2.terminals.insert ⟨t.nspace, t.name⟩
                { t with finalizers := (removeFinalizer t.finalizers TerminalDeploymentFinalizer) })
                ⟨t.nspace, t.name⟩ = some t' := ht'
            rw [KMap.insert_self] at hx
            cases Option.some.inj hx
            refine ⟨rfl, rfl, fun _ => ⟨removeFinalizer_not_contains _ _,
              by simpa using hfs, hfe⟩,
              fun h0 => Bool.noConfusion (hd.symm.trans h0)⟩
      · have hskd := reconcileDeployment_skip
          (s.logged .getTerminal ⟨t.nspace, t.name⟩ none) t hd (by simpa using hfd)
        rw [hskd] at hdep
        simp only [Prod.mk.injEq] at hdep
        obtain ⟨hS2, ht₁, -⟩ := hdep
        subst ht₁
        have hf2s : S2.faults = [] := by rw [← hS2]; exact hf
        have hterm2 : S2.terminals ⟨t.nspace, t.name⟩ = some t := by
          rw [← hS2]; exact hget
        by_cases hfs : containsFinalizer t.finalizers TerminalServiceFinalizer
        · obtain ⟨ht₂, hf3, hT3, hU3, hD3, hA3, hR3, hB3⟩ :=
            reconcileService_deleting_spec S2 t S3 t₂ hf2s hd hfs hsvc
          subst ht₂
          have hf3s : S3.faults = [] := hf3
          have hterm3 : S3.terminals ⟨t.nspace, t.name⟩ = some t := by
            rw [hT3]; exact hterm2
          by_cases hfe : removeFinalizer t.finalizers TerminalServiceFinalizer = []
          · rw [updateTerminalOp_erase S3
              { t with finalizers := (removeFinalizer t.finalizers TerminalServiceFinalizer) }
              t hf3s hterm3 hd hfe] at hup
            simp only [Prod.mk.injEq] at hup
            obtain ⟨hS4, -⟩ := hup
            subst hS4
            refine ⟨hf3s, fun t' ht' => ?_⟩
            have hx : (S3.terminals.erase ⟨t.nspace, t.name⟩) ⟨t.nspace, t.name⟩
                = some t' := ht'
            rw [KMap.erase_self] at hx
            exact Option.noConfusion hx
          · rw [updateTerminalOp_write S3
              { t with finalizers := (removeFinalizer t.finalizers TerminalServiceFinalizer) }
              t hf3s hterm3 (fun hc => hfe hc.2)] at hup
            simp only [Prod.mk.injEq] at hup
            obtain ⟨hS4, -⟩ := hup
            subst hS4
            refine ⟨hf3s, fun t' ht' => ?_⟩
            have hx : (S3.terminals.insert ⟨t.nspace, t.name⟩
                { t with finalizers := (removeFinalizer t.finalizers TerminalServiceFinalizer) })
                ⟨t.nspace, t.name⟩ = some t' := ht'
            rw [KMap.insert_self] at hx
            cases Option.some.inj hx
            refine ⟨rfl, rfl, fun _ => ⟨?_, removeFinalizer_not_contains _ _, hfe⟩,
              fun h0 => Bool.noConfusion (hd.symm.trans h0)⟩
            rw [removeFinalizer_contains_other _ _ _ hTDS]
            simpa using hfd
        · have hsk := reconcileService_skip S2 t hd (by simpa using hfs)
          rw [hsk] at hsvc
          simp only [Prod.mk.injEq] at hsvc
          obtain ⟨hS3, ht₂, -⟩ := hsvc
          subst hS3
          subst ht₂
          by_cases hfe : t.finalizers = []
          · rw [updateTerminalOp_erase S2 t t hf2s hterm2 hd hfe] at hup
            simp only [Prod.mk.injEq] at hup
            obtain ⟨hS4, -⟩ := hup
            subst hS4
            refine ⟨hf2s, fun t' ht' => ?_⟩
            have hx : (S2.terminals.erase ⟨t.nspace, t.name⟩) ⟨t.nspace, t.name⟩
                = some t' := ht'
            rw [KMap.erase_self] at hx
            exact Option.noConfusion hx
          · rw [updateTerminalOp_write S2 t t hf2s hterm2 (fun hc => hfe hc.2)] at hup
            simp only [Prod.mk.injEq] at hup
            obtain ⟨hS4, -⟩ := hup
            subst hS4
            refine ⟨hf2s, fun t' ht' => ?_⟩
            have hx : (S2.terminals.insert ⟨t.nspace, t.name⟩ t)
                ⟨t.nspace, t.name⟩ = some t' := ht'
            rw [KMap.insert_self] at hx
            cases Option.some.inj hx
            refine ⟨rfl, rfl, fun _ => ⟨by simpa using hfd, by simpa using hfs, hfe⟩,
              fun h0 => Bool.noConfusion (hd.symm.trans h0)⟩
    · -- creation pass
      have hd2 : t.deletionTimestamp.isSome = false := by
        cases hx : t.deletionTimestamp.isSome
        · rfl
        · exact absurd hx hd
      obtain ⟨ht₁, hf2, hT2, hU2, hV2, hA2, hR2, hB2, hDP2⟩ :=
        reconcileDeployment_create_spec
          (s.logged .getTerminal ⟨t.nspace, t.name⟩ none) t S2 t₁ hf hd2 hdep
      subst ht₁
      have hf2s : S2.faults = [] := hf2
      have hterm2 : S2.terminals ⟨t.nspace, t.name⟩ = some t := by
        rw [hT2]; exact hget
      obtain ⟨ht₂, hf3, hT3, hU3, hD3, hA3, hR3, hB3, hSP3⟩ :=
        reconcileService_create_spec S2
          { t with finalizers := addFinalizer t.finalizers TerminalDeploymentFinalizer }
          S3 t₂ hf2s hd2 hsvc
      subst ht₂
      have hf3s : S3.faults = [] := hf3
      have hterm3 : S3.terminals ⟨t.nspace, t.name⟩ = some t := by
        rw [hT3]; exact hterm2
      rw [updateTerminalOp_write S3
        { t with finalizers := addFinalizer (addFinalizer t.finalizers TerminalDeploymentFinalizer) TerminalServiceFinalizer }
        t hf3s hterm3
        (fun hc => Bool.noConfusion (hd2.symm.trans hc.1))] at hup
      simp only [Prod.mk.injEq] at hup
      obtain ⟨hS4, -⟩ := hup
      subst hS4
      refine ⟨hf3s, fun t' ht' => ?_⟩
      have hx : (S3.terminals.insert ⟨t.nspace, t.name⟩
          { t with finalizers := addFinalizer (addFinalizer t.finalizers TerminalDeploymentFinalizer) TerminalServiceFinalizer })
          ⟨t.nspace, t.name⟩ = some t' := ht'
      rw [KMap.insert_self] at hx
      cases Option.some.inj hx
      refine ⟨rfl, rfl, fun h0 => Bool.noConfusion (hd2.symm.trans h0),
        fun _ => ⟨addFinalizer_contains_other _ _ _ (addFinalizer_contains _ _),
          addFinalizer_contains _ _, ?_, ?_⟩⟩
      · show (S3.deployments ⟨t.nspace, "marina-terminal-" ++ t.name⟩).isSome = true
        rw [hD3]
        exact hDP2
      · show (S3.services ⟨t.nspace, "marina-terminal-" ++ t.name⟩).isSome = true
        exact hSP3


theorem reconcileServiceAccount_create_present (s : KState) (u : User)
    (hf : s.faults = []) (hd : u.deletionTimestamp.isSome = false)
    (hp : (s.serviceAccounts ⟨u.nspace, u.name⟩).isSome = true) :
    controller.UserReconciler.reconcileServiceAccount s u =
      (s.logged .createServiceAccount ⟨u.nspace, u.name⟩ (some .alreadyExists),
       { u with finalizers := addFinalizer u.finalizers UserServiceAccountFinalizer },
       none) := by
  have hc := createServiceAccountOp_present s (controller.serviceAccountForUser u) hf hp
  simp only [controller.UserReconciler.reconcileServiceAccount, hd,
    Bool.false_eq_true, if_false]
  rw [hc]
  simp [controller.serviceAccountForUser, ignoreAlreadyExists]

theorem reconcileServiceAccount_create_absent (s : KState) (u : User)
    (hf : s.faults = []) (hd : u.deletionTimestamp.isSome = false)
    (hp : s.serviceAccounts ⟨u.nspace, u.name⟩ = none) :
    controller.UserReconciler.reconcileServiceAccount s u =
      ({ s with serviceAccounts := (s.serviceAccounts.insert ⟨u.nspace, u.name⟩ (controller.serviceAccountForUser u)) }.logged
        .createServiceAccount ⟨u.nspace, u.name⟩ none,
       { u with finalizers := addFinalizer u.finalizers UserServiceAccountFinalizer },
       none) := by
  have hc := createServiceAccountOp_absent s (controller.serviceAccountForUser u) hf hp
  simp only [controller.UserReconciler.reconcileServiceAccount, hd,
    Bool.false_eq_true, if_false]
  rw [hc]
  simp [controller.serviceAccountForUser, ignoreAlreadyExists]

theorem reconcileServiceAccount_delete_present (s : KState) (u : User)
    (hf : s.faults = []) (hd : u.deletionTimestamp.isSome = true)
    (hfin : containsFinalizer u.finalizers UserServiceAccountFinalizer = true)
    (hp : (s.serviceAccounts ⟨u.nspace, u.name⟩).isSome = true) :
    controller.UserReconciler.reconcileServiceAccount s u =
      ({ s with serviceAccounts := (s.serviceAccounts.erase ⟨u.nspace, u.name⟩) }.logged
        .deleteServiceAccount ⟨u.nspace, u.name⟩ none,
       { u with finalizers := (removeFinalizer u.finalizers UserServiceAccountFinalizer) },
       none) := by
  have hc := deleteServiceAccountOp_present s (controller.serviceAccountForUser u) hf hp
  simp only [controller.UserReconciler.reconcileServiceAccount, hd, hfin, if_true]
  rw [hc]
  simp [controller.serviceAccountForUser]

theorem reconcileServiceAccount_delete_absent (s : KState) (u : User)
    (hf : s.faults = []) (hd : u.deletionTimestamp.isSome = true)
    (hfin : containsFinalizer u.finalizers UserServiceAccountFinalizer = true)
    (hp : s.serviceAccounts ⟨u.nspace, u.name⟩ = none) :
    controller.UserReconciler.reconcileServiceAccount s u =
      (s.logged .deleteServiceAccount ⟨u.nspace, u.name⟩ (some .notFound),
       u, some (.store .notFound)) := by
  have hc := deleteServiceAccountOp_absent s (controller.serviceAccountForUser u) hf hp
  simp only [controller.UserReconciler.reconcileServiceAccount, hd, hfin, if_true]
  rw [hc]
  simp [controller.serviceAccountForUser]

theorem reconcileServiceAccount_skip (s : KState) (u : User)
    (hd : u.deletionTimestamp.isSome = true)
    (hfin : containsFinalizer u.finalizers UserServiceAccountFinalizer = false) :
    controller.UserReconciler.reconcileServiceAccount s u = (s, u, none) := by
  simp [controller.UserReconciler.reconcileServiceAccount, hd, hfin]

theorem reconcileServiceAccount_create_spec (s : KState) (u : User)
    (s' : KState) (u' : User) (hf : s.faults = [])
    (hd : u.deletionTimestamp.isSome = false)
    (h : controller.UserReconciler.reconcileServiceAccount s u = (s', u', none)) :
    u' = { u with finalizers := addFinalizer u.finalizers UserServiceAccountFinalizer } ∧
    s'.faults = [] ∧ s'.terminals = s.terminals ∧ s'.users = s.users ∧
    s'.deployments = s.deployments ∧ s'.services = s.services ∧
    s'.roles = s.roles ∧ s'.roleBindings = s.roleBindings ∧
    (s'.serviceAccounts ⟨u.nspace, u.name⟩).isSome = true := by
  by_cases hp : (s.serviceAccounts ⟨u.nspace, u.name⟩).isSome
  · rw [reconcileServiceAccount_create_present s u hf hd hp] at h
    simp only [Prod.mk.injEq] at h
    obtain ⟨hs', hu', -⟩ := h
    subst hs'
    subst hu'
    exact ⟨rfl, hf, rfl, rfl, rfl, rfl, rfl, rfl, hp⟩
  · have hp2 : s.serviceAccounts ⟨u.nspace, u.name⟩ = none := by
      rcases hy : s.serviceAccounts ⟨u.nspace, u.name⟩ with _ | a
      · rfl
      · rw [hy] at hp; exact absurd rfl hp
    rw [reconcileServiceAccount_create_absent s u hf hd hp2] at h
    simp only [Prod.mk.injEq] at h
    obtain ⟨hs', hu', -⟩ := h
    subst hs'
    subst hu'
    refine ⟨rfl, hf, rfl, rfl, rfl, rfl, rfl, rfl, ?_⟩
    show ((s.serviceAccounts.insert ⟨u.nspace, u.name⟩
      (controller.serviceAccountForUser u)) ⟨u.nspace, u.name⟩).isSome = true
    rw [KMap.insert_self]
    rfl

theorem reconcileServiceAccount_deleting_spec (s : KState) (u : User)
    (s' : KState) (u' : User) (hf : s.faults = [])
    (hd : u.deletionTimestamp.isSome = true)
    (hfin : containsFinalizer u.finalizers UserServiceAccountFinalizer = true)
    (h : controller.UserReconciler.reconcileServiceAccount s u = (s', u', none)) :
    u' = { u with finalizers := (removeFinalizer u.finalizers UserServiceAccountFinalizer) } ∧
    s'.faults = [] ∧ s'.terminals = s.terminals ∧ s'.users = s.users ∧
    s'.deployments = s.deployments ∧ s'.services = s.services ∧
    s'.roles = s.roles ∧ s'.roleBindings = s.roleBindings := by
  by_cases hp : (s.serviceAccounts ⟨u.nspace, u.name⟩).isSome
  · rw [reconcileServiceAccount_delete_present s u hf hd hfin hp] at h
    simp only [Prod.mk.injEq] at h
    obtain ⟨hs', hu', -⟩ := h
    subst hs'
    subst hu'
    exact ⟨rfl, hf, rfl, rfl, rfl, rfl, rfl, rfl⟩
  · have hp2 : s.serviceAccounts ⟨u.nspace, u.name⟩ = none := by
      rcases hy : s.serviceAccounts ⟨u.nspace, u.name⟩ with _ | a
      · rfl
      · rw [hy] at hp; exact absurd rfl hp
    rw [reconcileServiceAccount_delete_absent s u hf hd hfin hp2] at h
    simp only [Prod.mk.injEq] at h
    exact Option.noConfusion h.2.2


theorem roleBindingLoop_skip (u : User)
    (hfin : containsFinalizer u.finalizers UserRoleBindingFinalizer = false) :
    ∀ (roles : List String) (s : KState),
      controller.UserReconciler.roleBindingLoop s u true roles = (s, none) := by
  intro roles
  induction roles with
  | nil => intro s; rfl
  | cons role rest ih =>
    intro s
    simp only [controller.UserReconciler.roleBindingLoop, if_true, hfin,
      Bool.false_eq_true, if_false]
    exact ih s

theorem roleBindingLoop_create_post (u : User) :
    ∀ (roles : List String) (s : KState), s.faults = [] →
      ∃ m lg, controller.UserReconciler.roleBindingLoop s u false roles =
        ({ s with roleBindings := m, log := lg }, none) ∧
        (∀ k', (s.roleBindings k').isSome = true → (m k').isSome = true) ∧
        (∀ r rest, roles = r :: rest →
          (m ⟨u.nspace, u.name ++ "-" ++ r⟩).isSome = true) := by
  intro roles
  induction roles with
  | nil =>
    intro s hf
    exact ⟨s.roleBindings, s.log, rfl, fun k' hk => hk,
      fun r rest hx => List.noConfusion hx⟩
  | cons role rest ih =>
    intro s hf
    by_cases hp : (s.roleBindings ⟨u.nspace, u.name ++ "-" ++ role⟩).isSome
    · have hc := createRoleBindingOp_present s
        (controller.userRoleBindingForRole u role) hf hp
      refine ⟨s.roleBindings, s.log ++ [⟨.createRoleBinding,
        ⟨u.nspace, u.name ++ "-" ++ role⟩, some .alreadyExists⟩], ?_,
        fun k' hk => hk, fun r rest2 hx => ?_⟩
      · simp only [controller.UserReconciler.roleBindingLoop,
          Bool.false_eq_true, if_false]
        rw [hc]
        simp [KState.logged, controller.userRoleBindingForRole, ignoreAlreadyExists]
      · cases hx
        exact hp
    · have hp2 : s.roleBindings ⟨u.nspace, u.name ++ "-" ++ role⟩ = none := by
        rcases hy : s.roleBindings ⟨u.nspace, u.name ++ "-" ++ role⟩ with _ | b
        · rfl
        · rw [hy] at hp; exact absurd rfl hp
      have hc := createRoleBindingOp_absent s
        (controller.userRoleBindingForRole u role) hf hp2
      obtain ⟨m, lg, hloop, hmono, -⟩ := ih
        ({ s with roleBindings := (s.roleBindings.insert ⟨u.nspace, u.name ++ "-" ++ role⟩ (controller.userRoleBindingForRole u role)) }.logged
          .createRoleBinding ⟨u.nspace, u.name ++ "-" ++ role⟩ none) hf
      refine ⟨m, lg, ?_, fun k' hk => ?_, fun r rest2 hx => ?_⟩
      · simp only [controller.UserReconciler.roleBindingLoop,
          Bool.false_eq_true, if_false]
        rw [hc]
        simp only
        exact hloop
      · refine hmono k' ?_
        show ((s.roleBindings.insert ⟨u.nspace, u.name ++ "-" ++ role⟩
          (controller.userRoleBindingForRole u role)) k').isSome = true
        by_cases hk2 : k' = ⟨u.nspace, u.name ++ "-" ++ role⟩
        · subst hk2
          rw [KMap.insert_self]
          rfl
        · rw [KMap.insert_ne _ _ _ _ hk2]
          exact hk
      · cases hx
        refine hmono _ ?_
        show ((s.roleBindings.insert ⟨u.nspace, u.name ++ "-" ++ role⟩
          (controller.userRoleBindingForRole u role)) ⟨u.nspace, u.name ++ "-" ++ role⟩).isSome = true
        rw [KMap.insert_self]
        rfl

theorem roleBindingLoop_deleting_shape (u : User) :
    ∀ (roles : List String) (s : KState), s.faults = [] →
      ∃ m lg r, controller.UserReconciler.roleBindingLoop s u true roles =
        ({ s with roleBindings := m, log := lg }, r) := by
  intro roles
  induction roles with
  | nil => intro s hf; exact ⟨s.roleBindings, s.log, none, rfl⟩
  | cons role rest ih =>
    intro s hf
    by_cases hfin : containsFinalizer u.finalizers UserRoleBindingFinalizer
    · by_cases hp : (s.roleBindings ⟨u.nspace, u.name ++ "-" ++ role⟩).isSome
      · have hc := deleteRoleBindingOp_present s
          (controller.userRoleBindingForRole u role) hf hp
        obtain ⟨m, lg, r, hloop⟩ := ih
          ({ s with roleBindings := (s.roleBindings.erase ⟨u.nspace, u.name ++ "-" ++ role⟩) }.logged
            .deleteRoleBinding ⟨u.nspace, u.name ++ "-" ++ role⟩ none) hf
        refine ⟨m, lg, r, ?_⟩
        simp only [controller.UserReconciler.roleBindingLoop, if_true, hfin]
        rw [hc]
        simp only
        exact hloop
      · have hp2 : s.roleBindings ⟨u.nspace, u.name ++ "-" ++ role⟩ = none := by
          rcases hy : s.roleBindings ⟨u.nspace, u.name ++ "-" ++ role⟩ with _ | b
          · rfl
          · rw [hy] at hp; exact absurd rfl hp
        have hc := deleteRoleBindingOp_absent s
          (controller.userRoleBindingForRole u role) hf hp2
        refine ⟨s.roleBindings, s.log ++ [⟨.deleteRoleBinding,
          ⟨u.nspace, u.name ++ "-" ++ role⟩, some .notFound⟩],
          some (.store .notFound), ?_⟩
        simp only [controller.UserReconciler.roleBindingLoop, if_true, hfin]
        rw [hc]
        simp [KState.logged, controller.userRoleBindingForRole]
    · obtain ⟨m, lg, r, hloop⟩ := ih s hf
      refine ⟨m, lg, r, ?_⟩
      simp only [controller.UserReconciler.roleBindingLoop, if_true, hfin,
        Bool.false_eq_true, if_false]
      exact hloop


theorem reconcileRoleBindings_stable_deleting (s : KState) (u : User)
    (hd : u.deletionTimestamp.isSome = true)
    (hfin : containsFinalizer u.finalizers UserRoleBindingFinalizer = false) :
    controller.UserReconciler.reconcileRoleBindings s u =
      (s, { u with finalizers := (removeFinalizer u.finalizers UserRoleBindingFinalizer) },
       none) := by
  simp only [controller.UserReconciler.reconcileRoleBindings, hd, if_true]
  rw [roleBindingLoop_skip u hfin]

theorem reconcileRoleBindings_stable_nil (s : KState) (u : User)
    (hd : u.deletionTimestamp.isSome = false)
    (hc : containsFinalizer u.finalizers UserRoleBindingFinalizer = true)
    (hroles : u.roles = []) :
    controller.UserReconciler.reconcileRoleBindings s u = (s, u, none) := by
  simp only [controller.UserReconciler.reconcileRoleBindings, hd,
    Bool.false_eq_true, if_false, addFinalizer_of_contains _ _ hc]
  have hu : { u with finalizers := u.finalizers } = u := rfl
  rw [hu, hroles]
  rfl

theorem reconcileRoleBindings_stable_cons (s : KState) (u : User)
    (r : String) (rest : List String) (hf : s.faults = [])
    (hd : u.deletionTimestamp.isSome = false)
    (hc : containsFinalizer u.finalizers UserRoleBindingFinalizer = true)
    (hroles : u.roles = r :: rest)
    (hp : (s.roleBindings ⟨u.nspace, u.name ++ "-" ++ r⟩).isSome = true) :
    controller.UserReconciler.reconcileRoleBindings s u =
      (s.logged .createRoleBinding ⟨u.nspace, u.name ++ "-" ++ r⟩
        (some .alreadyExists), u, none) := by
  have hop := createRoleBindingOp_present s
    (controller.userRoleBindingForRole u r) hf hp
  simp only [controller.UserReconciler.reconcileRoleBindings, hd,
    Bool.false_eq_true, if_false, addFinalizer_of_contains _ _ hc]
  have hu : { u with finalizers := u.finalizers } = u := rfl
  rw [hu, hroles]
  simp only [controller.UserReconciler.roleBindingLoop, Bool.false_eq_true,
    if_false]
  rw [hop]
  simp [controller.userRoleBindingForRole, ignoreAlreadyExists]

theorem reconcileRoleBindings_create_spec (s : KState) (u : User)
    (s' : KState) (u' : User) (hf : s.faults = [])
    (hd : u.deletionTimestamp.isSome = false)
    (h : controller.UserReconciler.reconcileRoleBindings s u = (s', u', none)) :
    u' = { u with finalizers := addFinalizer u.finalizers UserRoleBindingFinalizer } ∧
    s'.faults = [] ∧ s'.terminals = s.terminals ∧ s'.users = s.users ∧
    s'.deployments = s.deployments ∧ s'.services = s.services ∧
    s'.serviceAccounts = s.serviceAccounts ∧ s'.roles = s.roles ∧
    (∀ r rest, u.roles = r :: rest →
      (s'.roleBindings ⟨u.nspace, u.name ++ "-" ++ r⟩).isSome = true) := by
  obtain ⟨m, lg, hloop, hmono, hhead⟩ := roleBindingLoop_create_post
    { u with finalizers := addFinalizer u.finalizers UserRoleBindingFinalizer }
    ({ u with finalizers := addFinalizer u.finalizers UserRoleBindingFinalizer } : User).roles
    s hf
  simp only [controller.UserReconciler.reconcileRoleBindings, hd,
    Bool.false_eq_true, if_false] at h
  rw [hloop] at h
  simp only [Prod.mk.injEq] at h
  obtain ⟨hs', hu', -⟩ := h
  subst hs'
  subst hu'
  exact ⟨rfl, hf, rfl, rfl, rfl, rfl, rfl, rfl, fun r rest hx => hhead r rest hx⟩

theorem reconcileRoleBindings_deleting_spec (s : KState) (u : User)
    (s' : KState) (u' : User) (hf : s.faults = [])
    (hd : u.deletionTimestamp.isSome = true)
    (h : controller.UserReconciler.reconcileRoleBindings s u = (s', u', none)) :
    u' = { u with finalizers := (removeFinalizer u.finalizers UserRoleBindingFinalizer) } ∧
    s'.faults = [] ∧ s'.terminals = s.terminals ∧ s'.users = s.users ∧
    s'.deployments = s.deployments ∧ s'.services = s.services ∧
    s'.serviceAccounts = s.serviceAccounts ∧ s'.roles = s.roles := by
  by_cases hfin : containsFinalizer u.finalizers UserRoleBindingFinalizer
  · obtain ⟨m, lg, r, hloop⟩ := roleBindingLoop_deleting_shape u u.roles s hf
    simp only [controller.UserReconciler.reconcileRoleBindings, hd, if_true] at h
    rw [hloop] at h
    cases r with
    | some e =>
      simp only [Prod.mk.injEq] at h
      exact Option.noConfusion h.2.2
    | none =>
      simp only [Prod.mk.injEq] at h
      obtain ⟨hs', hu', -⟩ := h
      subst hs'
      subst hu'
      exact ⟨rfl, hf, rfl, rfl, rfl, rfl, rfl, rfl⟩
  · have hfin2 : containsFinalizer u.finalizers UserRoleBindingFinalizer = false := by
      cases hx : containsFinalizer u.finalizers UserRoleBindingFinalizer
      · rfl
      · exact absurd hx hfin
    rw [reconcileRoleBindings_stable_deleting s u hd hfin2] at h
    simp only [Prod.mk.injEq] at h
    obtain ⟨hs', hu', -⟩ := h
    subst hs'
    subst hu'
    exact ⟨rfl, hf, rfl, rfl, rfl, rfl, rfl, rfl⟩


/-- The user analogue of `TerminalStable`: the stored User (if any) has
correct identity, and is fully acted on — a live object carries both
finalizers, its service account, and (if it has roles) the binding for the
first role; a deleting object has neither finalizer left but a non-empty
finalizer list. -/
def UserStable (s : KState) (k : ObjKey) : Prop :=
  s.faults = [] ∧
  ∀ u, s.users k = some u →
    u.nspace = k.nspace ∧ u.name = k.name ∧
    (u.deletionTimestamp.isSome = true →
      containsFinalizer u.finalizers UserServiceAccountFinalizer = false ∧
      containsFinalizer u.finalizers UserRoleBindingFinalizer = false ∧
      u.finalizers ≠ []) ∧
    (u.deletionTimestamp.isSome = false →
      containsFinalizer u.finalizers UserServiceAccountFinalizer = true ∧
      containsFinalizer u.finalizers UserRoleBindingFinalizer = true ∧
      (s.serviceAccounts ⟨u.nspace, u.name⟩).isSome = true ∧
      ∀ r rest, u.roles = r :: rest →
        (s.roleBindings ⟨u.nspace, u.name ++ "-" ++ r⟩).isSome = true)

theorem user_stable_pass (s : KState) (req : Request)
    (hs : UserStable s ⟨req.nspace, req.name⟩) :
    (controller.UserReconciler.Reconcile s req).2.2 = none ∧
    KState.sameObjects (controller.UserReconciler.Reconcile s req).1 s := by
  obtain ⟨hf, hobj⟩ := hs
  rcases hget : s.users ⟨req.nspace, req.name⟩ with _ | u
  · rw [controller.UserReconciler.Reconcile, getUserOp_missing s _ hf hget]
    exact ⟨rfl, rfl, rfl, rfl, rfl, rfl, rfl, rfl⟩
  · obtain ⟨hns, hn, hdel, hcre⟩ := hobj u hget
    have hkm : (⟨u.nspace, u.name⟩ : ObjKey) = ⟨req.nspace, req.name⟩ := by
      rw [hns, hn]
    by_cases hd : u.deletionTimestamp.isSome
    · obtain ⟨hf1, hf2, hne⟩ := hdel hd
      rw [controller.UserReconciler.Reconcile, getUserOp_found s _ u hf hget]
      simp only
      rw [reconcileServiceAccount_skip
        (s.logged .getUser ⟨req.nspace, req.name⟩ none) u hd hf1]
      simp only
      rw [reconcileRoleBindings_stable_deleting
        (s.logged .getUser ⟨req.nspace, req.name⟩ none) u hd hf2]
      simp only
      rw [removeFinalizer_of_not_contains _ _ hf2]
      rw [updateUserOp_write (s.logged .getUser ⟨req.nspace, req.name⟩ none)
        { u with finalizers := u.finalizers } u hf (by rw [hkm]; exact hget)
        (fun hc => hne hc.2)]
      refine ⟨rfl, rfl, ?_, rfl, rfl, rfl, rfl, rfl⟩
      exact KMap.insert_eq_self _ _ _ (by rw [hkm]; exact hget)
    · have hd2 : u.deletionTimestamp.isSome = false := by
        cases hx : u.deletionTimestamp.isSome
        · rfl
        · exact absurd hx hd
      obtain ⟨hc1, hc2, hsap, hhead⟩ := hcre hd2
      rw [controller.UserReconciler.Reconcile, getUserOp_found s _ u hf hget]
      simp only
      rw [reconcileServiceAccount_create_present
        (s.logged .getUser ⟨req.nspace, req.name⟩ none) u hf hd2 hsap]
      simp only
      rw [addFinalizer_of_contains _ _ hc1]
      rcases hroles : u.roles with _ | ⟨r, rest⟩
      · rw [reconcileRoleBindings_stable_nil
          ((s.logged .getUser ⟨req.nspace, req.name⟩ none).logged
            .createServiceAccount ⟨u.nspace, u.name⟩ (some .alreadyExists))
          { u with roles := ([] : List String) } hd2 hc2 rfl]
        simp only
        rw [updateUserOp_write
          ((s.logged .getUser ⟨req.nspace, req.name⟩ none).logged
            .createServiceAccount ⟨u.nspace, u.name⟩ (some .alreadyExists))
          { u with roles := ([] : List String) } u hf (by rw [hkm]; exact hget)
          (fun hc => Bool.noConfusion (hd2.symm.trans hc.1))]
        refine ⟨rfl, rfl, ?_, rfl, rfl, rfl, rfl, rfl⟩
        refine KMap.insert_eq_self _ _ _ ?_
        rw [hkm, ← hroles]
        exact hget
      · rw [reconcileRoleBindings_stable_cons
          ((s.logged .getUser ⟨req.nspace, req.name⟩ none).logged
            .createServiceAccount ⟨u.nspace, u.name⟩ (some .alreadyExists))
          { u with roles := r :: rest } r rest hf hd2 hc2 rfl
          (hhead r rest hroles)]
        simp only
        rw [updateUserOp_write
          (((s.logged .getUser ⟨req.nspace, req.name⟩ none).logged
            .createServiceAccount ⟨u.nspace, u.name⟩ (some .alreadyExists)).logged
            .createRoleBinding ⟨u.nspace, u.name ++ "-" ++ r⟩ (some .alreadyExists))
          { u with roles := r :: rest } u hf (by rw [hkm]; exact hget)
          (fun hc => Bool.noConfusion (hd2.symm.trans hc.1))]
        refine ⟨rfl, rfl, ?_, rfl, rfl, rfl, rfl, rfl⟩
        refine KMap.insert_eq_self _ _ _ ?_
        rw [hkm, ← hroles]
        exact hget


theorem user_pass_stabilizes (s : KState) (req : Request)
    (hf : s.faults = [])
    (hid : ∀ u, s.users ⟨req.nspace, req.name⟩ = some u →
      u.nspace = req.nspace ∧ u.name = req.name)
    (h1 : (controller.UserReconciler.Reconcile s req).2.2 = none) :
    UserStable (controller.UserReconciler.Reconcile s req).1
      ⟨req.nspace, req.name⟩ := by
  have hSAR : UserServiceAccountFinalizer ≠ UserRoleBindingFinalizer := by decide
  rcases req with ⟨rns, rn⟩
  rcases hget : s.users ⟨rns, rn⟩ with _ | u
  · rw [controller.UserReconciler.Reconcile, getUserOp_missing s _ hf hget] at h1 ⊢
    refine ⟨hf, fun u' hu' => ?_⟩
    have hx : s.users ⟨rns, rn⟩ = some u' := hu'
    rw [hget] at hx
    exact Option.noConfusion hx
  · obtain ⟨hns, hn⟩ := hid u hget
    subst hns
    subst hn
    rw [controller.UserReconciler.Reconcile, getUserOp_found s _ u hf hget] at h1 ⊢
    simp only at h1 ⊢
    rcases hsa : controller.UserReconciler.reconcileServiceAccount
        (s.logged .getUser ⟨u.nspace, u.name⟩ none) u with ⟨S2, u₁, r₂⟩
    rw [hsa] at h1
    cases r₂ with
    | some e => simp at h1
    | none =>
    simp only at h1 ⊢
    rcases hrb : controller.UserReconciler.reconcileRoleBindings S2 u₁
      with ⟨S3, u₂, r₃⟩
    rw [hrb] at h1
    cases r₃ with
    | some e => simp at h1
    | none =>
    simp only at h1 ⊢
    rcases hup : updateUserOp S3 u₂ with ⟨S4, r₄⟩
    rw [hup] at h1
    cases r₄ with
    | some e => simp at h1
    | none =>
    simp only at h1 ⊢
    by_cases hd : u.deletionTimestamp.isSome
    · -- teardown pass
      by_cases hfsa : containsFinalizer u.finalizers UserServiceAccountFinalizer
      · obtain ⟨hu₁, hf2, hT2, hU2, hD2, hV2, hR2, hB2⟩ :=
          reconcileServiceAccount_deleting_spec
            (s.logged .getUser ⟨u.nspace, u.name⟩ none) u S2 u₁ hf hd hfsa hsa
        subst hu₁
        have hf2s : S2.faults = [] := hf2
        obtain ⟨hu₂, hf3, hT3, hU3, hD3, hV3, hA3, hR3⟩ :=
          reconcileRoleBindings_deleting_spec S2
            { u with finalizers := (removeFinalizer u.finalizers UserServiceAccountFinalizer) }
            S3 u₂ hf2s hd hrb
        subst hu₂
        have hf3s : S3.faults = [] := hf3
        have husers3 : S3.users ⟨u.nspace, u.name⟩ = some u := by
          rw [hU3, hU2]; exact hget
        by_cases hfe : removeFinalizer
            (removeFinalizer u.finalizers UserServiceAccountFinalizer)
            UserRoleBindingFinalizer = []
        · rw [updateUserOp_erase S3
            { u with finalizers := (removeFinalizer (removeFinalizer u.finalizers UserServiceAccountFinalizer) UserRoleBindingFinalizer) }
            u hf3s husers3 hd hfe] at hup
          simp only [Prod.mk.injEq] at hup
          obtain ⟨hS4, -⟩ := hup
          subst hS4
          refine ⟨hf3s, fun u' hu' => ?_⟩
          have hx : (S3.users.erase ⟨u.nspace, u.name⟩) ⟨u.nspace, u.name⟩
              = some u' := hu'
          rw [KMap.erase_self] at hx
          exact Option.noConfusion hx
        · rw [updateUserOp_write S3
            { u with finalizers := (removeFinalizer (removeFinalizer u.finalizers UserServiceAccountFinalizer) UserRoleBindingFinalizer) }
            u hf3s husers3 (fun hc => hfe hc.2)] at hup
          simp only [Prod.mk.injEq] at hup
          obtain ⟨hS4, -⟩ := hup
          subst hS4
          refine ⟨hf3s, fun u' hu' => ?_⟩
          have hx : (S3.users.insert ⟨u.nspace, u.name⟩
              { u with finalizers := (removeFinalizer (removeFinalizer u.finalizers UserServiceAccountFinalizer) UserRoleBindingFinalizer) })
              ⟨u.nspace, u.name⟩ = some u' := hu'
          rw [KMap.insert_self] at hx
          cases Option.some.inj hx
          refine ⟨rfl, rfl, fun _ => ⟨?_, removeFinalizer_not_contains _ _, hfe⟩,
            fun h0 => Bool.noConfusion (hd.symm.trans h0)⟩
          rw [removeFinalizer_contains_other _ _ _ hSAR]
          exact removeFinalizer_not_contains _ _
      · have hfsa2 : containsFinalizer u.finalizers UserServiceAccountFinalizer
            = false := by
          cases hx : containsFinalizer u.finalizers UserServiceAccountFinalizer
          · rfl
          · exact absurd hx hfsa
        rw [reconcileServiceAccount_skip
          (s.logged .getUser ⟨u.nspace, u.name⟩ none) u hd hfsa2] at hsa
        simp only [Prod.mk.injEq] at hsa
        obtain ⟨hS2, hu₁, -⟩ := hsa
        subst hu₁
        have hf2s : S2.faults = [] := by rw [← hS2]; exact hf
        obtain ⟨hu₂, hf3, hT3, hU3, hD3, hV3, hA3, hR3⟩ :=
          reconcileRoleBindings_deleting_spec S2 u S3 u₂ hf2s hd hrb
        subst hu₂
        have hf3s : S3.faults = [] := hf3
        have husers3 : S3.users ⟨u.nspace, u.name⟩ = some u := by
          rw [hU3, ← hS2]; exact hget
        by_cases hfe : removeFinalizer u.finalizers UserRoleBindingFinalizer = []
        · rw [updateUserOp_erase S3
            { u with finalizers := (removeFinalizer u.finalizers UserRoleBindingFinalizer) }
            u hf3s husers3 hd hfe] at hup
          simp only [Prod.mk.injEq] at hup
          obtain ⟨hS4, -⟩ := hup
          subst hS4
          refine ⟨hf3s, fun u' hu' => ?_⟩
          have hx : (S3.users.erase ⟨u.nspace, u.name⟩) ⟨u.nspace, u.name⟩
              = some u' := hu'
          rw [KMap.erase_self] at hx
          exact Option.noConfusion hx
        · rw [updateUserOp_write S3
            { u with finalizers := (removeFinalizer u.finalizers UserRoleBindingFinalizer) }
            u hf3s husers3 (fun hc => hfe hc.2)] at hup
          simp only [Prod.mk.injEq] at hup
          obtain ⟨hS4, -⟩ := hup
          subst hS4
          refine ⟨hf3s, fun u' hu' => ?_⟩
          have hx : (S3.users.insert ⟨u.nspace, u.name⟩
              { u with finalizers := (removeFinalizer u.finalizers UserRoleBindingFinalizer) })
              ⟨u.nspace, u.name⟩ = some u' := hu'
          rw [KMap.insert_self] at hx
          cases Option.some.inj hx
          refine ⟨rfl, rfl, fun _ => ⟨?_, removeFinalizer_not_contains _ _, hfe⟩,
            fun h0 => Bool.noConfusion (hd.symm.trans h0)⟩
          rw [removeFinalizer_contains_other _ _ _ hSAR]
          exact hfsa2
    · -- creation pass
      have hd2 : u.deletionTimestamp.isSome = false := by
        cases hx : u.deletionTimestamp.isSome
        · rfl
        · exact absurd hx hd
      obtain ⟨hu₁, hf2, hT2, hU2, hD2, hV2, hR2, hB2, hSA2⟩ :=
        reconcileServiceAccount_create_spec
          (s.logged .getUser ⟨u.nspace, u.name⟩ none) u S2 u₁ hf hd2 hsa
      subst hu₁
      have hf2s : S2.faults = [] := hf2
      obtain ⟨hu₂, hf3, hT3, hU3, hD3, hV3, hA3, hR3, hhead3⟩ :=
        reconcileRoleBindings_create_spec S2
          { u with finalizers := addFinalizer u.finalizers UserServiceAccountFinalizer }
          S3 u₂ hf2s hd2 hrb
      subst hu₂
      have hf3s : S3.faults = [] := hf3
      have husers3 : S3.users ⟨u.nspace, u.name⟩ = some u := by
        rw [hU3, hU2]; exact hget
      rw [updateUserOp_write S3
        { u with finalizers := addFinalizer (addFinalizer u.finalizers UserServiceAccountFinalizer) UserRoleBindingFinalizer }
        u hf3s husers3
        (fun hc => Bool.noConfusion (hd2.symm.trans hc.1))] at hup
      simp only [Prod.mk.injEq] at hup
      obtain ⟨hS4, -⟩ := hup
      subst hS4
      refine ⟨hf3s, fun u' hu' => ?_⟩
      have hx : (S3.users.insert ⟨u.nspace, u.name⟩
          { u with finalizers := addFinalizer (addFinalizer u.finalizers UserServiceAccountFinalizer) UserRoleBindingFinalizer })
          ⟨u.nspace, u.name⟩ = some u' := hu'
      rw [KMap.insert_self] at hx
      cases Option.some.inj hx
      refine ⟨rfl, rfl, fun h0 => Bool.noConfusion (hd2.symm.trans h0),
        fun _ => ⟨addFinalizer_contains_other _ _ _ (addFinalizer_contains _ _),
          addFinalizer_contains _ _, ?_, fun r rest hx2 => ?_⟩⟩
      · show (S3.serviceAccounts ⟨u.nspace, u.name⟩).isSome = true
        rw [hA3]
        exact hSA2
      · show (S3.roleBindings ⟨u.nspace, u.name ++ "-" ++ r⟩).isSome = true
        exact hhead3 r rest hx2


/-- C9: invoking Reconcile twice in succession on an unchanged Terminal or
User produces no additional store mutations beyond the first pass.  With an
honest store (no injected faults) and well-keyed primary objects, if the
first pass succeeds then the second pass succeeds and leaves every one of
the seven object maps exactly as the first pass left them. -/
theorem claim9_idempotent (s : KState) (req : Request)
    (hf : s.faults = [])
    (hidT : ∀ t, s.terminals ⟨req.nspace, req.name⟩ = some t →
      t.nspace = req.nspace ∧ t.name = req.name)
    (hidU : ∀ u, s.users ⟨req.nspace, req.name⟩ = some u →
      u.nspace = req.nspace ∧ u.name = req.name) :
    ((controller.TerminalReconciler.Reconcile s req).2.2 = none →
      (controller.TerminalReconciler.Reconcile
        (controller.TerminalReconciler.Reconcile s req).1 req).2.2 = none ∧
      KState.sameObjects
        (controller.TerminalReconciler.Reconcile
          (controller.TerminalReconciler.Reconcile s req).1 req).1
        (controller.TerminalReconciler.Reconcile s req).1) ∧
    ((controller.UserReconciler.Reconcile s req).2.2 = none →
      (controller.UserReconciler.Reconcile
        (controller.UserReconciler.Reconcile s req).1 req).2.2 = none ∧
      KState.sameObjects
        (controller.UserReconciler.Reconcile
          (controller.UserReconciler.Reconcile s req).1 req).1
        (controller.UserReconciler.Reconcile s req).1) :=
  ⟨fun h1 => terminal_stable_pass _ req (terminal_pass_stabilizes s req hf hidT h1),
   fun h1 => user_stable_pass _ req (user_pass_stabilizes s req hf hidU h1)⟩

def c9Terminal : Terminal :=
  { name := "t9", nspace := "ns", image := "img",
    deletionTimestamp := none, finalizers := [] }

def c9User : User :=
  { name := "u9", nspace := "ns", roles := ["A"],
    deletionTimestamp := none, finalizers := [] }

def c9State : KState :=
  { emptyState with
    terminals := KMap.empty.insert ⟨"ns", "t9"⟩ c9Terminal
    users := KMap.empty.insert ⟨"ns", "u9"⟩ c9User }

theorem claim9_idempotent_witness :
    ((controller.TerminalReconciler.Reconcile
        (controller.TerminalReconciler.Reconcile c9State ⟨"ns", "t9"⟩).1
        ⟨"ns", "t9"⟩).2.2 = none ∧
      KState.sameObjects
        (controller.TerminalReconciler.Reconcile
          (controller.TerminalReconciler.Reconcile c9State ⟨"ns", "t9"⟩).1
          ⟨"ns", "t9"⟩).1
        (controller.TerminalReconciler.Reconcile c9State ⟨"ns", "t9"⟩).1) ∧
    ((controller.UserReconciler.Reconcile
        (controller.UserReconciler.Reconcile c9State ⟨"ns", "u9"⟩).1
        ⟨"ns", "u9"⟩).2.2 = none ∧
      KState.sameObjects
        (controller.UserReconciler.Reconcile
          (controller.UserReconciler.Reconcile c9State ⟨"ns", "u9"⟩).1
          ⟨"ns", "u9"⟩).1
        (controller.UserReconciler.Reconcile c9State ⟨"ns", "u9"⟩).1) :=
  ⟨(claim9_idempotent c9State ⟨"ns", "t9"⟩ rfl
      (fun t ht => by
        have hx : some c9Terminal = some t := ht
        cases Option.some.inj hx
        exact ⟨rfl, rfl⟩)
      (fun u hu => by
        have hx : (none : Option User) = some u := hu
        exact Option.noConfusion hx)).1 (by decide),
   (claim9_idempotent c9State ⟨"ns", "u9"⟩ rfl
      (fun t ht => by
        have hx : (none : Option Terminal) = some t := ht
        exact Option.noConfusion hx)
      (fun u hu => by
        have hx : some c9User = some u := hu
        cases Option.some.inj hx
        exact ⟨rfl, rfl⟩)).2 (by decide)⟩

/-! ## Claim C10 -/

/-- Claim C10: for every request and every store state (including every
fault schedule), `TerminalReconciler.Reconcile` and both generations of
`UserReconciler.Reconcile` return the zero `ctrl.Result` (no requeue and no
requeue-after delay) on every path, success or error. -/
theorem claim10_zero_result (s : KState) (req : Request) :
    (controller.TerminalReconciler.Reconcile s req).2.1 = CtrlResult.zero ∧
    (controller.UserReconciler.Reconcile s req).2.1 = CtrlResult.zero ∧
    (controllers.UserReconciler.Reconcile s req).2.1 = CtrlResult.zero := by
  refine ⟨?_, ?_, ?_⟩
  · unfold controller.TerminalReconciler.Reconcile
    (repeat' split) <;> rfl
  · unfold controller.UserReconciler.Reconcile
    (repeat' split) <;> rfl
  · unfold controllers.UserReconciler.Reconcile
    (repeat' split) <;> rfl

end Marina
